import Mathlib

/-! Shallow embedding of the humanwhocodes/object-store engine
(src/object-store.js): the File/Folder entry model, the id-to-entry and
id-to-parent registry, and the public operation set. Every `new Date()`
in the source is one reading of an explicit clock that advances by a
caller-chosen increment stream, and operations return a JS-style result:
an `Except` paired with the store state at return/throw time (a throw
keeps all mutations performed before it, as in JavaScript). -/

/-- Decimal digit character (code 48 + digit), as JS number rendering uses. -/
def digitCh (n : Nat) : Char := Char.ofNat (48 + n)

/-- Decimal digit list of a natural number, with a structural fuel bound
(any fuel above the number suffices). -/
def natCharsAux : Nat → Nat → List Char
  | 0, _ => []
  | fuel + 1, n =>
    if n < 10 then [digitCh n]
    else natCharsAux fuel (n / 10) ++ [digitCh (n % 10)]

/-- Decimal digit list of a natural number, mirroring JS `String(n)`. -/
def natChars (n : Nat) : List Char := natCharsAux (n + 1) n

/-- The string id produced by the allocator (JS `String(nextId++)`). -/
def natStr (n : Nat) : String := ⟨natChars n⟩

/-- Decimal value of a digit string, used only to prove `natStr` injective. -/
def decVal (cs : List Char) : Nat := cs.foldl (fun a c => a * 10 + (c.toNat - 48)) 0

theorem decVal_append_digit (cs : List Char) (c : Char) :
    decVal (cs ++ [c]) = decVal cs * 10 + (c.toNat - 48) := by
  simp [decVal, List.foldl_append]

theorem digitCh_toNat (n : Nat) (h : n < 10) : (digitCh n).toNat = 48 + n := by
  interval_cases n <;> decide

theorem decVal_natCharsAux (fuel n : Nat) (hf : n < fuel) :
    decVal (natCharsAux fuel n) = n := by
  induction fuel generalizing n with
  | zero => omega
  | succ fuel ih =>
    rw [natCharsAux]
    split
    · rename_i h
      simp [decVal, List.foldl, digitCh_toNat n h]
    · rename_i h
      have hdiv : n / 10 < n := Nat.div_lt_self (by omega) (by omega)
      rw [decVal_append_digit, ih (n / 10) (by omega),
        digitCh_toNat (n % 10) (Nat.mod_lt _ (by omega))]
      omega

theorem decVal_natChars (n : Nat) : decVal (natChars n) = n :=
  decVal_natCharsAux (n + 1) n (by omega)

theorem natStr_inj {a b : Nat} (h : natStr a = natStr b) : a = b := by
  have hc : natChars a = natChars b := congrArg String.data h
  have ha := decVal_natChars a
  have hb := decVal_natChars b
  rw [hc] at ha
  omega

/-- Lookup in an association list keyed by id (JS `Map.get`). -/
def mget {α : Type} : List (String × α) → String → Option α
  | [], _ => none
  | (k', v) :: rest, k => if k' = k then some v else mget rest k

/-- Insert-or-replace keeping insertion order (JS `Map.set`). -/
def mset {α : Type} : List (String × α) → String → α → List (String × α)
  | [], k, v => [(k, v)]
  | (k', v') :: rest, k, v =>
    if k' = k then (k, v) :: rest else (k', v') :: mset rest k v

/-- Key removal (JS `Map.delete`). -/
def mdel {α : Type} : List (String × α) → String → List (String × α)
  | [], _ => []
  | (k', v') :: rest, k => if k' = k then mdel rest k else (k', v') :: mdel rest k

theorem mget_mset_self {α : Type} (m : List (String × α)) (k : String) (v : α) :
    mget (mset m k v) k = some v := by
  induction m with
  | nil => simp [mget, mset]
  | cons p rest ih =>
    by_cases h : p.1 = k <;> simp [mset, mget, h, ih]

theorem mget_mset_ne {α : Type} (m : List (String × α)) (k k' : String) (v : α)
    (h : k' ≠ k) : mget (mset m k v) k' = mget m k' := by
  induction m with
  | nil => simp [mget, mset, Ne.symm h]
  | cons p rest ih =>
    by_cases hp : p.1 = k
    · simp [mset, mget, hp, Ne.symm h]
    · simp only [mset, if_neg hp, mget]
      by_cases hp' : p.1 = k' <;> simp [hp', ih]

theorem mget_mdel_self {α : Type} (m : List (String × α)) (k : String) :
    mget (mdel m k) k = none := by
  induction m with
  | nil => simp [mget, mdel]
  | cons p rest ih =>
    by_cases h : p.1 = k <;> simp [mdel, mget, h, ih]

theorem mget_mdel_ne {α : Type} (m : List (String × α)) (k k' : String)
    (h : k' ≠ k) : mget (mdel m k) k' = mget m k' := by
  induction m with
  | nil => simp [mdel]
  | cons p rest ih =>
    by_cases hp : p.1 = k
    · subst hp
      simp [mdel, mget, Ne.symm h, ih]
    · simp only [mdel, if_neg hp, mget]
      by_cases hp' : p.1 = k' <;> simp [hp', ih]

/-- Entry kind tag (`type` field in the source, fixed at construction). -/
inductive EType where
  | file
  | folder
deriving DecidableEq

/-- File payload: a JS string or an ArrayBuffer of bytes. -/
inductive Content where
  | text (s : String)
  | binary (bytes : List Nat)
deriving DecidableEq

/-- Kind-specific entry data: file content, or the ordered child list of a
folder. A child is recorded as its id plus its (immutable) kind tag, which
is what the source reads off the stored child references. -/
inductive EntryData where
  | file (content : Option Content)
  | folder (entries : List (String × EType))
deriving DecidableEq

/-- One store entry (the common fields of the JS `Entry` class). -/
structure Entry where
  id : String
  name : String
  createdAt : Nat
  modifiedAt : Nat
  data : EntryData
deriving DecidableEq

/-- Raised errors: `typeError` models an explicit `throw new TypeError(msg)`;
`uncaughtTypeError` models the implicit TypeError from accessing a property
of `undefined`; `outOfFuel` is the artificial bound of the fuelled recursive
operations and never occurs on well-formed trees. -/
inductive JsErr where
  | typeError (msg : String)
  | uncaughtTypeError (prop : String)
  | outOfFuel
deriving DecidableEq

/-- The store state: the two registry maps, the id counter, the clock with
its pending increment stream, and `allocated`, a history of every id ever
given to a constructed entry (a ghost field used to state id uniqueness). -/
structure Store where
  rootId : String
  objects : List (String × Entry)
  parents : List (String × Option String)
  counter : Nat
  clock : Nat
  ticks : List Nat
  allocated : List String
deriving DecidableEq

/-- Kind of an entry, as its `type` field holds in the source. -/
def etypeOf (e : Entry) : EType :=
  match e.data with
  | .file _ => .file
  | .folder _ => .folder

def typeStr : EType → String
  | .file => "file"
  | .folder => "folder"

/-- JS truthiness of an optional string (`undefined` and `""` are falsy). -/
def truthyStr : Option String → Bool
  | none => false
  | some s => s != ""

/-- JS truthiness of an optional content value (`undefined` and `""` are
falsy; any ArrayBuffer is truthy). -/
def contentTruthy : Option Content → Bool
  | none => false
  | some (.text s) => s != ""
  | some (.binary _) => true

/-- `File.size`: 0 for falsy content, byte length for ArrayBuffer content,
UTF-8 encoded byte length for string content. -/
def fileSize (c : Option Content) : Nat :=
  if contentTruthy c then
    match c with
    | some (.binary b) => b.length
    | some (.text s) => s.utf8ByteSize
    | none => 0
  else 0

/-- Record values: strings, numbers, `undefined`, or an array of records. -/
inductive RVal where
  | s (v : String)
  | n (v : Nat)
  | undefv
  | arr (v : List (List (String × RVal)))

/-- An externally visible record, as an ordered key/value list. -/
abbrev Record := List (String × RVal)

def rget (r : Record) (k : String) : Option RVal := mget r k

def hasKey (r : Record) (k : String) : Bool := (rget r k).isSome

/-- One `new Date()` reading: the clock advances by the next pending
increment (none pending means no advance) and the new value is returned. -/
def readClock (s : Store) : Nat × Store :=
  match s.ticks with
  | [] => (s.clock, s)
  | d :: rest => (s.clock + d, { s with clock := s.clock + d, ticks := rest })

/-- Mutation of the live entry object registered under `id`. -/
def updEntry (s : Store) (id : String) (f : Entry → Entry) : Store :=
  match mget s.objects id with
  | some e => { s with objects := mset s.objects id (f e) }
  | none => s

/-- `Folder.add`: push the entry onto the folder's list, stamp the folder
with one clock reading, and copy that reading to the entry. -/
def folderAdd (s : Store) (folderId entryId : String) (entryTy : EType) : Store :=
  let (t, s) := readClock s
  let s := updEntry s folderId (fun f =>
    { f with modifiedAt := t,
             data := match f.data with
                     | .folder es => .folder (es ++ [(entryId, entryTy)])
                     | d => d })
  updEntry s entryId (fun e => { e with modifiedAt := t })

/-- `Folder.remove`: filter the entry's id out of the folder's list, stamp
the folder with one clock reading, and copy that reading to the entry (a
no-op on the store when the entry object is no longer registered). -/
def folderRemove (s : Store) (folderId entryId : String) : Store :=
  let (t, s) := readClock s
  let s := updEntry s folderId (fun f =>
    { f with modifiedAt := t,
             data := match f.data with
                     | .folder es => .folder (es.filter (fun p => p.1 != entryId))
                     | d => d })
  updEntry s entryId (fun e => { e with modifiedAt := t })

/-- `ObjectStore.#register`: record the parent, insert into the object map,
then append to the parent's child list when a parent is given. -/
def register (s : Store) (e : Entry) (parent : Option String) : Store :=
  let s := { s with parents := mset s.parents e.id parent,
                    objects := mset s.objects e.id e }
  match parent with
  | some pid => folderAdd s pid e.id (etypeOf e)
  | none => s

/-- `ObjectStore.#unregister`: read the parent, delete the entry from both
maps, then remove it from the parent's child list; when the recorded parent
is `undefined` (the root) the final `parent.remove` call raises after the
map deletions already happened. -/
def unregister (s : Store) (id : String) : Except JsErr Unit × Store :=
  let pOpt := mget s.parents id
  let s := { s with parents := mdel s.parents id, objects := mdel s.objects id }
  match pOpt with
  | some (some pid) => (.ok (), folderRemove s pid id)
  | _ => (.error (.uncaughtTypeError "remove"), s)

/-- Entry construction (`new File(...)` / `new Folder(...)`): consume the
id counter, read the clock once for `createdAt` and once for `modifiedAt`,
and honor a truthy id override. The final id is appended to the ghost
allocation history. -/
def newEntry (s : Store) (name : String) (data : EntryData) (idOverride : Option String) :
    Entry × Store :=
  let autoId := natStr s.counter
  let s := { s with counter := s.counter + 1 }
  let (tc, s) := readClock s
  let (tm, s) := readClock s
  let id := match idOverride with
            | some i => if i != "" then i else autoId
            | none => autoId
  let s := { s with allocated := s.allocated ++ [id] }
  ({ id := id, name := name, createdAt := tc, modifiedAt := tm, data := data }, s)

/-- `new ObjectStore({rootFolderId})` with a chosen clock increment stream:
build the root folder (optionally with the caller-supplied id) and register
it with no parent. -/
def ObjectStore.new (rootFolderId : Option String) (ticks : List Nat) : Store :=
  let s0 : Store := { rootId := "", objects := [], parents := [], counter := 0,
                      clock := 0, ticks := ticks, allocated := [] }
  let (root, s) := newEntry s0 "root" (.folder []) rootFolderId
  let s := register s root none
  { s with rootId := root.id }

/-- `getParent(id)?.id` as it appears in `toMiniJSON`'s `parent_id`. -/
def parentVal (s : Store) (id : String) : RVal :=
  match mget s.parents id with
  | some (some pid) => .s pid
  | _ => .undefv

/-- `Entry.toMiniJSON`, with the `size` key appended for files
(`File.toMiniJSON` spreads the base record and adds `size`). -/
def toMiniJSON (s : Store) (e : Entry) : Record :=
  [("id", .s e.id), ("name", .s e.name), ("type", .s (typeStr (etypeOf e))),
   ("parent_id", parentVal s e.id),
   ("created_at", .n e.createdAt), ("modified_at", .n e.modifiedAt)]
  ++ (match e.data with
      | .file c => [("size", .n (fileSize c))]
      | .folder _ => [])

/-- Mini record of the entry registered under `id` (empty for a dangling
id, which cannot arise in well-formed states). -/
def miniOfId (s : Store) (id : String) : Record :=
  match mget s.objects id with
  | some e => toMiniJSON s e
  | none => []

/-- `Folder.toJSON`: the mini record plus the one-level `entries` array. -/
def folderToJSON (s : Store) (e : Entry) : Record :=
  toMiniJSON s e ++
  [("entries", .arr (match e.data with
                     | .folder es => es.map (fun p => miniOfId s p.1)
                     | .file _ => []))]

/-- Full record of the folder registered under `id`. -/
def folderRecOfId (s : Store) (id : String) : Record :=
  match mget s.objects id with
  | some e => folderToJSON s e
  | none => []

/-- `createFile(name, {parentId, content})`. -/
def createFile (s : Store) (name : String) (parentId : Option String)
    (content : Option Content) : Except JsErr Record × Store :=
  let pid := parentId.getD s.rootId
  match mget s.objects pid with
  | none => (.error (.typeError "Parent not found."), s)
  | some p =>
    if etypeOf p = .folder then
      let (file, s) := newEntry s name (.file content) none
      let s := register s file (some pid)
      (.ok (miniOfId s file.id), s)
    else (.error (.typeError "Parent is not a folder."), s)

/-- `getFile(id)`. -/
def getFile (s : Store) (id : String) : Except JsErr Record × Store :=
  match mget s.objects id with
  | none => (.error (.typeError "File not found."), s)
  | some e =>
    if etypeOf e = .file then (.ok (toMiniJSON s e), s)
    else (.error (.typeError "Not a file."), s)

/-- `getFileContent(id)`. -/
def getFileContent (s : Store) (id : String) : Except JsErr (Option Content) × Store :=
  match mget s.objects id with
  | none => (.error (.typeError ("File \"" ++ id ++ "\" not found.")), s)
  | some e =>
    match e.data with
    | .file c => (.ok c, s)
    | .folder _ => (.error (.typeError "Not a file."), s)

/-- The `Entry.name` setter: assign the name and stamp `modifiedAt`. -/
def setName (s : Store) (id : String) (n : String) : Store :=
  let (t, s) := readClock s
  updEntry s id (fun e => { e with name := n, modifiedAt := t })

/-- The `File.content` setter: assign the content, stamp `modifiedAt`, and
copy the stamp onto the parent folder; reading the parent of an unparented
file raises after the assignment already happened. -/
def setContent (s : Store) (id : String) (v : Content) : Except JsErr Unit × Store :=
  let (t, s) := readClock s
  let s := updEntry s id (fun e =>
    { e with modifiedAt := t,
             data := match e.data with
                     | .file _ => .file (some v)
                     | d => d })
  match mget s.parents id with
  | some (some pid) => (.ok (), updEntry s pid (fun f => { f with modifiedAt := t }))
  | _ => (.error (.uncaughtTypeError "modifiedAt"), s)

/-- The parent-move tail that `updateFile` and `updateFolder` both contain:
validate the new parent, detach from the old parent via `Folder.remove`,
then `#register` under the new parent; reading an `undefined` old parent
raises before any mutation of this block. -/
def moveToParent (s : Store) (id : String) (pid : String) :
    Except JsErr Unit × Store :=
  match mget s.objects pid with
  | none => (.error (.typeError ("Parent \"" ++ pid ++ "\" not found.")), s)
  | some np =>
    if etypeOf np = .folder then
      match mget s.parents id with
      | some (some oldPid) =>
        let s := folderRemove s oldPid id
        match mget s.objects id with
        | some e2 => (.ok (), register s e2 (some pid))
        | none => (.error (.uncaughtTypeError "id"), s)
      | _ => (.error (.uncaughtTypeError "remove"), s)
    else (.error (.typeError ("Parent \"" ++ pid ++ "\" not a folder.")), s)

/-- `updateFile(id, {name, content, parentId})`: truthy name and content are
applied first; a truthy parentId is then validated and the file moved. -/
def updateFile (s : Store) (id : String) (name : Option String)
    (content : Option Content) (parentId : Option String) : Except JsErr Record × Store :=
  match mget s.objects id with
  | none => (.error (.typeError "File not found."), s)
  | some e =>
    if etypeOf e = .file then
      let s := if truthyStr name then setName s id (name.getD "") else s
      let cres : Except JsErr Unit × Store :=
        match content with
        | some v => if contentTruthy (some v) then setContent s id v else (.ok (), s)
        | none => (.ok (), s)
      match cres with
      | (.error err, s) => (.error err, s)
      | (.ok _, s) =>
        if truthyStr parentId then
          match moveToParent s id (parentId.getD "") with
          | (.ok _, s) => (.ok (miniOfId s id), s)
          | (.error err, s) => (.error err, s)
        else (.ok (miniOfId s id), s)
    else (.error (.typeError "Not a file."), s)

/-- `deleteFile(id)`. -/
def deleteFile (s : Store) (id : String) : Except JsErr Unit × Store :=
  match mget s.objects id with
  | none => (.error (.typeError "File not found."), s)
  | some e =>
    if etypeOf e = .file then unregister s id
    else (.error (.typeError "Not a file."), s)

/-- `createFolder(name, {parentId})`. -/
def createFolder (s : Store) (name : String) (parentId : Option String) :
    Except JsErr Record × Store :=
  let pid := parentId.getD s.rootId
  match mget s.objects pid with
  | none => (.error (.typeError "Parent not found."), s)
  | some p =>
    if etypeOf p = .folder then
      let (folder, s) := newEntry s name (.folder []) none
      let s := register s folder (some pid)
      (.ok (folderRecOfId s folder.id), s)
    else (.error (.typeError "Parent is not a folder."), s)

/-- `getFolder(id)`. -/
def getFolder (s : Store) (id : String) : Except JsErr Record × Store :=
  match mget s.objects id with
  | none => (.error (.typeError "Folder not found."), s)
  | some e =>
    if etypeOf e = .folder then (.ok (folderToJSON s e), s)
    else (.error (.typeError "Not a folder."), s)

/-- `updateFolder(id, {name, parentId})`: a truthy name is applied first; a
truthy parentId is then validated and the folder moved. -/
def updateFolder (s : Store) (id : String) (name : Option String)
    (parentId : Option String) : Except JsErr Record × Store :=
  match mget s.objects id with
  | none => (.error (.typeError "Folder not found."), s)
  | some e =>
    if etypeOf e = .folder then
      let s := if truthyStr name then setName s id (name.getD "") else s
      if truthyStr parentId then
        match moveToParent s id (parentId.getD "") with
        | (.ok _, s) => (.ok (folderRecOfId s id), s)
        | (.error err, s) => (.error err, s)
      else (.ok (folderRecOfId s id), s)
    else (.error (.typeError "Not a folder."), s)

/-- One pass of the `for (const entry of folder.entries())` loop body of
`deleteFolder`: subfolders recurse through `delF`, files go through
`deleteFile`. -/
def delStep (delF : Store → String → Except JsErr Unit × Store)
    (s : Store) (c : String × EType) : Except JsErr Unit × Store :=
  match c.2 with
  | .folder => delF s c.1
  | .file => deleteFile s c.1

/-- The `for (const entry of folder.entries())` loop of `deleteFolder`,
iterating over the snapshot taken when the loop started; `delF` is the
recursive `deleteFolder` call at the next smaller fuel. -/
def delLoop (delF : Store → String → Except JsErr Unit × Store) :
    Store → List (String × EType) → Except JsErr Unit × Store
  | s, [] => (.ok (), s)
  | s, c :: rest =>
    match delStep delF s c with
    | (.ok _, s') => delLoop delF s' rest
    | (.error err, s') => (.error err, s')

/-- `deleteFolder(id)` with an explicit recursion bound: validate, delete
every child of the snapshot of the child list (files via `deleteFile`,
folders recursively), then unregister the folder itself. -/
def deleteFolderFuel : Nat → Store → String → Except JsErr Unit × Store
  | 0, s, _ => (.error .outOfFuel, s)
  | fuel + 1, s, id =>
    match mget s.objects id with
    | none => (.error (.typeError "Folder not found."), s)
    | some e =>
      match e.data with
      | .file _ => (.error (.typeError "Not a folder."), s)
      | .folder es =>
        match delLoop (deleteFolderFuel fuel) s es with
        | (.ok _, s') => unregister s' id
        | (.error err, s') => (.error err, s')

/-- `deleteFolder(id)`: the bound of one plus the object count always covers
the recursion depth of a well-formed tree. -/
def deleteFolder (s : Store) (id : String) : Except JsErr Unit × Store :=
  deleteFolderFuel (s.objects.length + 1) s id

/-- Modelled from the spec: `copyFile(id, {parentId, name})` is referenced
by the repository's tests and README but its implementation is not among
the provided sources. Spec section 4.4: the source must exist and be a
file and the target parent (defaulting to the source's current parent)
must exist and be a folder; then a new id is allocated and a new File with
the same content and fresh timestamps set at copy time is registered under
the target parent, named by the override or the source's name; the new
file record is returned. -/
def copyFile (s : Store) (id : String) (parentId : Option String)
    (name : Option String) : Except JsErr Record × Store :=
  match mget s.objects id with
  | none => (.error (.typeError ("File \"" ++ id ++ "\" not found.")), s)
  | some e =>
    match e.data with
    | .folder _ => (.error (.typeError "Not a file."), s)
    | .file c =>
      let pid := if truthyStr parentId then parentId.getD ""
                 else (mget s.parents id).join.getD ""
      match mget s.objects pid with
      | none => (.error (.typeError "Parent not found."), s)
      | some p =>
        if etypeOf p = .folder then
          let nm := if truthyStr name then name.getD "" else e.name
          let (f, s) := newEntry s nm (.file c) none
          let s := register s f (some pid)
          (.ok (miniOfId s f.id), s)
        else (.error (.typeError "Parent is not a folder."), s)

/-- Modelled from the spec: the copy of one snapshotted child under the
freshly created parent copy `npid`: a file child becomes a new File with
the same content, a folder child recurses through `copyF`; a dangling child
reference copies nothing. -/
def copyStep (copyF : Store → String → String → String → Except JsErr String × Store)
    (s : Store) (cid npid : String) : Except JsErr Unit × Store :=
  match mget s.objects cid with
  | none => (.ok (), s)
  | some ce =>
    match ce.data with
    | .file c =>
      let (f, s) := newEntry s ce.name (.file c) none
      let s := register s f (some npid)
      (.ok (), s)
    | .folder _ =>
      match copyF s cid npid ce.name with
      | (.ok _, s') => (.ok (), s')
      | (.error err, s') => (.error err, s')

/-- Modelled from the spec: copy each snapshotted child in order under the
freshly created parent copy; `copyF` is the recursive folder-copy call at
the next smaller fuel (source id, target parent id, name). -/
def copyLoop (copyF : Store → String → String → String → Except JsErr String × Store) :
    Store → List (String × EType) → String → Except JsErr Unit × Store
  | s, [], _ => (.ok (), s)
  | s, c :: rest, npid =>
    match copyStep copyF s c.1 npid with
    | (.ok _, s') => copyLoop copyF s' rest npid
    | (.error err, s') => (.error err, s')

/-- Modelled from the spec: the recursive core of `copyFolder` (absent from
the provided sources). Spec section 4.4 and 9: copy parent before children;
the folder and every descendant get new ids and fresh timestamps at copy
time; relative structure and child order are preserved exactly. The child
list is snapshotted before the copy of this folder is registered. -/
def copyFolderFuel : Nat → Store → String → String → String → Except JsErr String × Store
  | 0, s, _, _, _ => (.error .outOfFuel, s)
  | fuel + 1, s, srcId, pid, nm =>
    match mget s.objects srcId with
    | some e =>
      match e.data with
      | .folder es =>
        let (nf, s) := newEntry s nm (.folder []) none
        let s := register s nf (some pid)
        (match copyLoop (copyFolderFuel fuel) s es nf.id with
         | (.ok _, s') => (.ok nf.id, s')
         | (.error err, s') => (.error err, s'))
      | .file _ => (.error (.typeError "Not a folder."), s)
    | none => (.error (.typeError "Folder not found."), s)

/-- Modelled from the spec: `copyFolder(id, {parentId, name})` (absent from
the provided sources). The source must exist and be a folder; the target
parent (defaulting to the source's current parent) must exist and be a
folder; the subtree is then deep-copied and the new folder's record
returned. -/
def copyFolder (s : Store) (id : String) (parentId : Option String)
    (name : Option String) : Except JsErr Record × Store :=
  match mget s.objects id with
  | none => (.error (.typeError ("Folder \"" ++ id ++ "\" not found.")), s)
  | some e =>
    match e.data with
    | .file _ => (.error (.typeError "Not a folder."), s)
    | .folder _ =>
      let pid := if truthyStr parentId then parentId.getD ""
                 else (mget s.parents id).join.getD ""
      match mget s.objects pid with
      | none => (.error (.typeError "Parent not found."), s)
      | some p =>
        if etypeOf p = .folder then
          let nm := if truthyStr name then name.getD "" else e.name
          match copyFolderFuel (s.objects.length + 1) s id pid nm with
          | (.ok nid, s') => (.ok (folderRecOfId s' nid), s')
          | (.error err, s') => (.error err, s')
        else (.error (.typeError "Parent is not a folder."), s)

/-- One public operation call with its arguments. -/
inductive Op where
  | createFile (name : String) (parentId : Option String) (content : Option Content)
  | createFolder (name : String) (parentId : Option String)
  | getFile (id : String)
  | getFolder (id : String)
  | getFileContent (id : String)
  | updateFile (id : String) (name : Option String) (content : Option Content)
      (parentId : Option String)
  | updateFolder (id : String) (name : Option String) (parentId : Option String)
  | deleteFile (id : String)
  | deleteFolder (id : String)
  | copyFile (id : String) (parentId : Option String) (name : Option String)
  | copyFolder (id : String) (parentId : Option String) (name : Option String)

/-- The store state after one call (errors leave the partial state, as a JS
exception would). -/
def execOp (s : Store) : Op → Store
  | .createFile n p c => (createFile s n p c).2
  | .createFolder n p => (createFolder s n p).2
  | .getFile id => (getFile s id).2
  | .getFolder id => (getFolder s id).2
  | .getFileContent id => (getFileContent s id).2
  | .updateFile id n c p => (updateFile s id n c p).2
  | .updateFolder id n p => (updateFolder s id n p).2
  | .deleteFile id => (deleteFile s id).2
  | .deleteFolder id => (deleteFolder s id).2
  | .copyFile id p n => (copyFile s id p n).2
  | .copyFolder id p n => (copyFolder s id p n).2

/-- The store state after a sequence of calls. -/
def execOps (s : Store) : List Op → Store
  | [] => s
  | op :: rest => execOps (execOp s op) rest

/-- One step of the child-to-parent relation recorded in the parent map. -/
def pstep (s : Store) (a b : String) : Prop :=
  mget s.parents a = some (some b)

instance (s : Store) (a b : String) : Decidable (pstep s a b) := by
  unfold pstep; infer_instance

/-- Acyclicity of the parent relation: no entry is a proper ancestor of
itself. -/
def Acyclic (s : Store) : Prop :=
  ∀ x, ¬ Relation.TransGen (pstep s) x x

/-- All ids of the subtree rooted at `id`, following stored child lists. -/
def subtreeIds : Nat → Store → String → List String
  | 0, _, id => [id]
  | fuel + 1, s, id =>
    id :: (match mget s.objects id with
           | some e =>
             match e.data with
             | .folder es => es.flatMap (fun p => subtreeIds fuel s p.1)
             | .file _ => []
           | none => [])

/-- Well-formedness of the subtree rooted at `id`, to the given depth: the
root is registered, and every listed child is registered with the listed
kind, records this folder as its parent, and is itself well-formed. -/
def wfTree : Nat → Store → String → Bool
  | 0, _, _ => false
  | fuel + 1, s, id =>
    match mget s.objects id with
    | none => false
    | some e =>
      match e.data with
      | .file _ => true
      | .folder es =>
        es.all (fun p =>
          (match mget s.objects p.1 with
           | some c => decide (etypeOf c = p.2) && decide (p.1 ≠ id)
           | none => false) &&
          decide (mget s.parents p.1 = some (some id)) &&
          wfTree fuel s p.1)

/-- The name/kind shape of a subtree, used to state that copies preserve
child count and child names transitively at every depth. -/
inductive NShape where
  | file (name : String)
  | folder (name : String) (children : List NShape)

/-- Shape of the subtree rooted at `id` (arbitrary placeholder below the
fuel bound or at dangling ids). -/
def nameShape : Nat → Store → String → NShape
  | 0, _, _ => .file ""
  | fuel + 1, s, id =>
    match mget s.objects id with
    | some e =>
      match e.data with
      | .file _ => .file e.name
      | .folder es => .folder e.name (es.map (fun p => nameShape fuel s p.1))
    | none => .file ""

/-- The root name of a shape replaced. -/
def NShape.withName (nm : String) : NShape → NShape
  | .file _ => .file nm
  | .folder _ cs => .folder nm cs

theorem mget_append {α : Type} (l₁ l₂ : List (String × α)) (k : String) :
    mget (l₁ ++ l₂) k = ((mget l₁ k).rec (mget l₂ k) (fun v => some v)) := by
  induction l₁ with
  | nil => simp [mget]
  | cons p rest ih =>
    by_cases h : p.1 = k <;> simp [mget, h, ih]

theorem rget_toMiniJSON_size (s : Store) (e : Entry) (c : Option Content)
    (hdata : e.data = .file c) :
    rget (toMiniJSON s e) "size" = some (.n (fileSize c)) := by
  simp [toMiniJSON, rget, hdata, mget_append, mget]

theorem rget_toMiniJSON_entries (s : Store) (e : Entry) :
    rget (toMiniJSON s e) "entries" = none := by
  match he : e.data with
  | .file c => simp [toMiniJSON, rget, he, mget_append, mget]
  | .folder es => simp [toMiniJSON, rget, he, mget_append, mget]

theorem hasKey_miniOfId_entries (s : Store) (id : String) :
    hasKey (miniOfId s id) "entries" = false := by
  unfold miniOfId
  match h : mget s.objects id with
  | some e => simp [hasKey, rget_toMiniJSON_entries]
  | none => simp [hasKey, rget, mget]

theorem readClock_objects (s : Store) : (readClock s).2.objects = s.objects := by
  unfold readClock; match s.ticks with | [] => rfl | d :: r => rfl

theorem readClock_parents (s : Store) : (readClock s).2.parents = s.parents := by
  unfold readClock; match s.ticks with | [] => rfl | d :: r => rfl

theorem readClock_counter (s : Store) : (readClock s).2.counter = s.counter := by
  unfold readClock; match s.ticks with | [] => rfl | d :: r => rfl

theorem readClock_allocated (s : Store) : (readClock s).2.allocated = s.allocated := by
  unfold readClock; match s.ticks with | [] => rfl | d :: r => rfl

theorem readClock_rootId (s : Store) : (readClock s).2.rootId = s.rootId := by
  unfold readClock; match s.ticks with | [] => rfl | d :: r => rfl

theorem mget_updEntry_objects (s : Store) (id : String) (f : Entry → Entry) (x : String) :
    mget (updEntry s id f).objects x =
      if x = id then (mget s.objects id).map f else mget s.objects x := by
  unfold updEntry
  match h : mget s.objects id with
  | some e =>
    by_cases hx : x = id
    · subst hx; simp [mget_mset_self, h]
    · simp [hx, mget_mset_ne _ _ _ _ hx]
  | none =>
    by_cases hx : x = id
    · subst hx; simp [h]
    · simp [hx]

theorem updEntry_parents (s : Store) (id : String) (f : Entry → Entry) :
    (updEntry s id f).parents = s.parents := by
  unfold updEntry; match mget s.objects id with | some e => rfl | none => rfl

theorem updEntry_counter (s : Store) (id : String) (f : Entry → Entry) :
    (updEntry s id f).counter = s.counter := by
  unfold updEntry; match mget s.objects id with | some e => rfl | none => rfl

theorem updEntry_allocated (s : Store) (id : String) (f : Entry → Entry) :
    (updEntry s id f).allocated = s.allocated := by
  unfold updEntry; match mget s.objects id with | some e => rfl | none => rfl

theorem updEntry_rootId (s : Store) (id : String) (f : Entry → Entry) :
    (updEntry s id f).rootId = s.rootId := by
  unfold updEntry; match mget s.objects id with | some e => rfl | none => rfl

theorem folderAdd_parents (s : Store) (fid eid : String) (ty : EType) :
    (folderAdd s fid eid ty).parents = s.parents := by
  unfold folderAdd
  simp [updEntry_parents, readClock_parents]

theorem folderRemove_parents (s : Store) (fid eid : String) :
    (folderRemove s fid eid).parents = s.parents := by
  unfold folderRemove
  simp [updEntry_parents, readClock_parents]

theorem register_parents (s : Store) (e : Entry) (p : Option String) :
    (register s e p).parents = mset s.parents e.id p := by
  unfold register
  match p with
  | some pid => simp [folderAdd_parents]
  | none => rfl

/-- The content stored in an entry (none for folders). -/
def contentOf (e : Entry) : Option Content :=
  match e.data with
  | .file c => c
  | .folder _ => none

theorem contentOf_updEntry (s : Store) (id x : String) (f : Entry → Entry)
    (e : Entry) (h : mget (updEntry s id f).objects x = some e)
    (hf : ∀ e0 : Entry, contentOf (f e0) = contentOf e0) :
    ∃ e0, mget s.objects x = some e0 ∧ contentOf e = contentOf e0 := by
  rw [mget_updEntry_objects] at h
  by_cases hx : x = id
  · subst hx
    rw [if_pos rfl] at h
    match hm : mget s.objects x with
    | some e0 =>
      rw [hm] at h
      simp only [Option.map] at h
      injection h with h
      refine ⟨e0, rfl, ?_⟩
      rw [← h]
      exact hf e0
    | none => rw [hm] at h; simp at h
  · rw [if_neg hx] at h
    exact ⟨e, h, rfl⟩

theorem contentOf_folderAdd (s : Store) (fid eid x : String) (ty : EType)
    (e : Entry) (h : mget (folderAdd s fid eid ty).objects x = some e) :
    ∃ e0, mget s.objects x = some e0 ∧ contentOf e = contentOf e0 := by
  unfold folderAdd at h
  rcases hr : readClock s with ⟨t, s1⟩
  have hobj : s1.objects = s.objects := by
    have := readClock_objects s
    rw [hr] at this
    exact this
  rw [hr] at h
  obtain ⟨e1, he1, hc1⟩ := contentOf_updEntry _ _ _ _ e h (fun e0 => rfl)
  obtain ⟨e0, he0, hc0⟩ := contentOf_updEntry _ _ _ _ e1 he1
    (fun e0 => by cases hd : e0.data <;> simp [contentOf, hd])
  rw [hobj] at he0
  exact ⟨e0, he0, hc1.trans hc0⟩

theorem contentOf_folderRemove (s : Store) (fid eid x : String)
    (e : Entry) (h : mget (folderRemove s fid eid).objects x = some e) :
    ∃ e0, mget s.objects x = some e0 ∧ contentOf e = contentOf e0 := by
  unfold folderRemove at h
  rcases hr : readClock s with ⟨t, s1⟩
  have hobj : s1.objects = s.objects := by
    have := readClock_objects s
    rw [hr] at this
    exact this
  rw [hr] at h
  obtain ⟨e1, he1, hc1⟩ := contentOf_updEntry _ _ _ _ e h (fun e0 => rfl)
  obtain ⟨e0, he0, hc0⟩ := contentOf_updEntry _ _ _ _ e1 he1
    (fun e0 => by cases hd : e0.data <;> simp [contentOf, hd])
  rw [hobj] at he0
  exact ⟨e0, he0, hc1.trans hc0⟩

theorem contentOf_setName (s : Store) (id x : String) (n : String)
    (e : Entry) (h : mget (setName s id n).objects x = some e) :
    ∃ e0, mget s.objects x = some e0 ∧ contentOf e = contentOf e0 := by
  unfold setName at h
  rcases hr : readClock s with ⟨t, s1⟩
  have hobj : s1.objects = s.objects := by
    have := readClock_objects s
    rw [hr] at this
    exact this
  rw [hr] at h
  obtain ⟨e0, he0, hc0⟩ := contentOf_updEntry _ _ _ _ e h (fun e0 => rfl)
  rw [hobj] at he0
  exact ⟨e0, he0, hc0⟩

theorem rget_append_last (r : Record) (k : String) (v : RVal) (h : rget r k = none) :
    rget (r ++ [(k, v)]) k = some v := by
  rw [rget, mget_append]
  rw [rget] at h
  rw [h]
  simp [mget]

theorem rget_folderToJSON_entries (s : Store) (e : Entry) (es : List (String × EType))
    (hdata : e.data = .folder es) :
    rget (folderToJSON s e) "entries" = some (.arr (es.map (fun p => miniOfId s p.1))) := by
  unfold folderToJSON
  rw [hdata]
  exact rget_append_last _ _ _ (rget_toMiniJSON_entries s e)

theorem folderRecOfId_entries_clean (s : Store) (id : String) (v : List Record)
    (h : rget (folderRecOfId s id) "entries" = some (.arr v)) :
    ∀ child ∈ v, hasKey child "entries" = false := by
  unfold folderRecOfId at h
  split at h
  · rename_i e hm
    unfold folderToJSON at h
    rw [rget_append_last _ _ _ (rget_toMiniJSON_entries s e)] at h
    injection h with h
    injection h with h
    match hd : e.data with
    | .file c =>
      rw [hd] at h
      simp at h
      subst h
      intro child hc
      simp at hc
    | .folder es =>
      rw [hd] at h
      simp at h
      subst h
      intro child hc
      obtain ⟨p, _, hp⟩ := List.mem_map.mp hc
      rw [← hp]
      exact hasKey_miniOfId_entries s p.1
  · simp [rget, mget] at h

/-- A concrete fixture: a fresh store with root id "0", no clock advances. -/
def fxRoot : Store := ObjectStore.new (some "0") []

/-- The fixture root store plus one file (id "1", name "foo.txt"). -/
def fxFile : Store := (createFile fxRoot "foo.txt" none none).2

/-- C8: for every registered file, the `size` field of its `getFile` record
equals the derived `fileSize` of its stored content, which is 0 when the
content is absent (or falsy), the UTF-8 byte length when the content is
text, and the raw byte length when the content is binary. -/
theorem c8_size_of_record (s : Store) (id : String) (e : Entry) (c : Option Content)
    (hobj : mget s.objects id = some e) (hdata : e.data = .file c) :
    (getFile s id).1 = .ok (toMiniJSON s e) ∧
    rget (toMiniJSON s e) "size" = some (.n (fileSize c)) ∧
    fileSize none = 0 ∧
    (∀ t : String, fileSize (some (.text t)) = t.utf8ByteSize) ∧
    (∀ b : List Nat, fileSize (some (.binary b)) = b.length) := by
  refine ⟨?_, rget_toMiniJSON_size s e c hdata, rfl, ?_, ?_⟩
  · simp [getFile, hobj, etypeOf, hdata]
  · intro t
    by_cases ht : t = ""
    · subst ht
      simp [fileSize, contentTruthy]
      decide
    · simp [fileSize, contentTruthy, ht]
  · intro b
    simp [fileSize, contentTruthy]

/-- Witness for C8 at the file fixture. -/
theorem c8_witness :
    (getFile fxFile "1").1 = .ok (toMiniJSON fxFile ⟨"1", "foo.txt", 0, 0, .file none⟩) ∧
    rget (toMiniJSON fxFile ⟨"1", "foo.txt", 0, 0, .file none⟩) "size" =
      some (.n (fileSize none)) ∧
    fileSize none = 0 ∧
    (∀ t : String, fileSize (some (.text t)) = t.utf8ByteSize) ∧
    (∀ b : List Nat, fileSize (some (.binary b)) = b.length) :=
  c8_size_of_record fxFile "1" ⟨"1", "foo.txt", 0, 0, .file none⟩ none (by decide) rfl

theorem createFolder_ok_shape (s : Store) (nm : String) (pid : Option String)
    (r : Record) (h : (createFolder s nm pid).1 = .ok r) :
    ∃ s' i, r = folderRecOfId s' i := by
  unfold createFolder at h
  dsimp only at h
  repeat' split at h
  all_goals simp at h
  all_goals exact ⟨_, _, h.symm⟩

theorem updateFolder_ok_shape (s : Store) (i : String) (nm pid : Option String)
    (r : Record) (h : (updateFolder s i nm pid).1 = .ok r) :
    ∃ s' j, r = folderRecOfId s' j := by
  unfold updateFolder at h
  dsimp only at h
  repeat' split at h
  all_goals simp at h
  all_goals exact ⟨_, _, h.symm⟩

/-- C9: the folder record returned by `getFolder` (and any folder record
returned by `createFolder` or `updateFolder`) lists its children as
one-level mini records: no element of the `entries` array itself carries
an `entries` key, however deep the subtree is. -/
theorem c9_entries_one_level (s : Store) (id : String) (e : Entry)
    (es : List (String × EType)) (hobj : mget s.objects id = some e)
    (hdata : e.data = .folder es) :
    ((getFolder s id).1 = .ok (folderToJSON s e) ∧
     rget (folderToJSON s e) "entries" = some (.arr (es.map (fun p => miniOfId s p.1))) ∧
     ∀ child ∈ es.map (fun p => miniOfId s p.1), hasKey child "entries" = false) ∧
    (∀ nm pid r v, (createFolder s nm pid).1 = .ok r →
       rget r "entries" = some (.arr v) →
       ∀ child ∈ v, hasKey child "entries" = false) ∧
    (∀ i nm pid r v, (updateFolder s i nm pid).1 = .ok r →
       rget r "entries" = some (.arr v) →
       ∀ child ∈ v, hasKey child "entries" = false) := by
  refine ⟨⟨?_, rget_folderToJSON_entries s e es hdata, ?_⟩, ?_, ?_⟩
  · simp [getFolder, hobj, etypeOf, hdata]
  · intro child hc
    obtain ⟨p, _, hp⟩ := List.mem_map.mp hc
    rw [← hp]
    exact hasKey_miniOfId_entries s p.1
  · intro nm pid r v hok hv
    obtain ⟨s', i, hr⟩ := createFolder_ok_shape s nm pid r hok
    subst hr
    exact folderRecOfId_entries_clean s' i v hv
  · intro i nm pid r v hok hv
    obtain ⟨s', j, hr⟩ := updateFolder_ok_shape s i nm pid r hok
    subst hr
    exact folderRecOfId_entries_clean s' j v hv

/-- Witness for C9 at the fixture root folder (id "0", one child file). -/
theorem c9_witness :
    ((getFolder fxFile "0").1 = .ok (folderToJSON fxFile
        ⟨"0", "root", 0, 0, .folder [("1", .file)]⟩) ∧
     rget (folderToJSON fxFile ⟨"0", "root", 0, 0, .folder [("1", .file)]⟩) "entries" =
       some (.arr ([("1", EType.file)].map (fun p => miniOfId fxFile p.1))) ∧
     ∀ child ∈ [("1", EType.file)].map (fun p => miniOfId fxFile p.1),
       hasKey child "entries" = false) ∧
    (∀ nm pid r v, (createFolder fxFile nm pid).1 = .ok r →
       rget r "entries" = some (.arr v) →
       ∀ child ∈ v, hasKey child "entries" = false) ∧
    (∀ i nm pid r v, (updateFolder fxFile i nm pid).1 = .ok r →
       rget r "entries" = some (.arr v) →
       ∀ child ∈ v, hasKey child "entries" = false) :=
  c9_entries_one_level fxFile "0" ⟨"0", "root", 0, 0, .folder [("1", .file)]⟩
    [("1", .file)] (by decide) rfl

theorem mget_mset_cases {α : Type} (m : List (String × α)) (k x : String) (v : α)
    (e' : α) (h : mget (mset m k v) x = some e') :
    (x = k ∧ e' = v) ∨ (x ≠ k ∧ mget m x = some e') := by
  by_cases hx : x = k
  · subst hx
    rw [mget_mset_self] at h
    injection h with h
    exact Or.inl ⟨rfl, h.symm⟩
  · rw [mget_mset_ne _ _ _ _ hx] at h
    exact Or.inr ⟨hx, h⟩

theorem contentOf_register (s : Store) (e : Entry) (p : Option String) (x : String)
    (e' : Entry) (h : mget (register s e p).objects x = some e') :
    (contentOf e' = contentOf e) ∨
    (∃ e0, mget s.objects x = some e0 ∧ contentOf e' = contentOf e0) := by
  unfold register at h
  dsimp only at h
  match p with
  | none =>
    simp only at h
    rcases mget_mset_cases _ _ _ _ _ h with ⟨_, he⟩ | ⟨_, he⟩
    · exact Or.inl (he ▸ rfl)
    · exact Or.inr ⟨e', he, rfl⟩
  | some pid =>
    simp only at h
    obtain ⟨e1, he1, hc1⟩ := contentOf_folderAdd _ _ _ _ _ _ h
    dsimp only at he1
    rcases mget_mset_cases _ _ _ _ _ he1 with ⟨_, he⟩ | ⟨_, he⟩
    · exact Or.inl (he ▸ hc1)
    · exact Or.inr ⟨e1, he, hc1⟩

theorem moveToParent_contentOf (s : Store) (id pid x : String) (e' : Entry)
    (h : mget ((moveToParent s id pid).2).objects x = some e') :
    (∃ e0, mget s.objects x = some e0 ∧ contentOf e' = contentOf e0) ∨
    (∃ e0, mget s.objects id = some e0 ∧ contentOf e' = contentOf e0) := by
  unfold moveToParent at h
  dsimp only at h
  repeat' split at h
  · exact Or.inl ⟨e', h, rfl⟩
  · rename_i e2 he2
    simp only at h
    rcases contentOf_register _ _ _ _ _ h with hc | ⟨e0, he0, hc⟩
    · obtain ⟨e1, he1, hc1⟩ := contentOf_folderRemove _ _ _ _ _ he2
      exact Or.inr ⟨e1, he1, hc.trans hc1⟩
    · obtain ⟨e1, he1, hc1⟩ := contentOf_folderRemove _ _ _ _ _ he0
      exact Or.inl ⟨e1, he1, hc.trans hc1⟩
  · obtain ⟨e1, he1, hc1⟩ := contentOf_folderRemove _ _ _ _ _ h
    exact Or.inl ⟨e1, he1, hc1⟩
  · exact Or.inl ⟨e', h, rfl⟩
  · exact Or.inl ⟨e', h, rfl⟩

theorem setContent_contentOf_self (s : Store) (id : String) (v : Content)
    (e0 : Entry) (hobj : mget s.objects id = some e0) (hfile : etypeOf e0 = .file)
    (e' : Entry) (h : mget ((setContent s id v).2).objects id = some e') :
    contentOf e' = some v := by
  unfold setContent at h
  dsimp only at h
  have hstep : ∀ s1 : Store, mget s1.objects id = some e0 →
      ∀ e'', mget (updEntry s1 id (fun e =>
        { e with modifiedAt := (readClock s).1,
                 data := match e.data with
                         | .file _ => .file (some v)
                         | d => d })).objects id = some e'' →
      contentOf e'' = some v := by
    intro s1 h1 e'' h2
    rw [mget_updEntry_objects, if_pos rfl, h1] at h2
    simp only [Option.map] at h2
    injection h2 with h2
    match hd : e0.data with
    | .file c => rw [← h2, contentOf]; simp [hd]
    | .folder es => rw [etypeOf, hd] at hfile; simp at hfile
  repeat' split at h
  · rename_i pid hp
    obtain ⟨e1, he1, hc1⟩ := contentOf_updEntry _ _ _ _ _ h (fun e => rfl)
    rw [hstep _ (by rw [readClock_objects]; exact hobj) e1 he1] at hc1
    exact hc1.symm ▸ rfl
  · exact hstep _ (by rw [readClock_objects]; exact hobj) e' h

theorem contentOf_congr (e1 e : Entry) (h : e1.data = e.data) :
    contentOf e1 = contentOf e := by
  unfold contentOf
  rw [h]

theorem dataKeep_setName (s : Store) (id : String) (n : String) (e : Entry)
    (hobj : mget s.objects id = some e) :
    ∃ e1, mget (setName s id n).objects id = some e1 ∧ e1.data = e.data := by
  unfold setName
  dsimp only
  rw [mget_updEntry_objects, if_pos rfl, readClock_objects, hobj]
  exact ⟨_, rfl, rfl⟩

theorem etypeOf_congr (e1 e : Entry) (h : e1.data = e.data) :
    etypeOf e1 = etypeOf e := by
  unfold etypeOf
  rw [h]

theorem c10_front (s : Store) (id : String) (e : Entry)
    (hobj : mget s.objects id = some e) (hfile : etypeOf e = .file)
    (nm : Option String) (ct : Option Content) (r : Except JsErr Unit) (s2 : Store)
    (heq : (match ct with
            | some v =>
              if contentTruthy (some v) = true then
                setContent (if truthyStr nm = true then setName s id (nm.getD "") else s) id v
              else (Except.ok (), if truthyStr nm = true then setName s id (nm.getD "") else s)
            | none =>
              (Except.ok (), if truthyStr nm = true then setName s id (nm.getD "") else s))
          = (r, s2)) :
    ∀ e1, mget s2.objects id = some e1 →
      contentOf e1 = contentOf e ∨
      ∃ v, ct = some v ∧ contentTruthy (some v) = true ∧ contentOf e1 = some v := by
  have hS1 : ∀ e1,
      mget (if truthyStr nm = true then setName s id (nm.getD "") else s).objects id
        = some e1 → e1.data = e.data := by
    intro e1 h1
    by_cases ht : truthyStr nm = true
    · rw [if_pos ht] at h1
      unfold setName at h1
      dsimp only at h1
      rw [mget_updEntry_objects, if_pos rfl, readClock_objects, hobj] at h1
      simp only [Option.map] at h1
      injection h1 with h1
      rw [← h1]
    · rw [if_neg ht] at h1
      rw [hobj] at h1
      injection h1 with h1
      rw [← h1]
  have hS1file : ∃ e1,
      mget (if truthyStr nm = true then setName s id (nm.getD "") else s).objects id
        = some e1 ∧ etypeOf e1 = .file := by
    by_cases ht : truthyStr nm = true
    · rw [if_pos ht]
      obtain ⟨e1, he1, hd1⟩ := dataKeep_setName s id (nm.getD "") e hobj
      exact ⟨e1, he1, (etypeOf_congr e1 e hd1).trans hfile⟩
    · rw [if_neg ht]
      exact ⟨e, hobj, hfile⟩
  split at heq
  · rename_i v
    split at heq
    · rename_i htv
      intro e1 h1
      right
      refine ⟨v, rfl, htv, ?_⟩
      have hs2 := congrArg Prod.snd heq
      dsimp only at hs2
      rw [← hs2] at h1
      obtain ⟨eS, heS, hfS⟩ := hS1file
      exact setContent_contentOf_self _ _ _ _ heS hfS _ h1
    · intro e1 h1
      left
      have hs2 := congrArg Prod.snd heq
      dsimp only at hs2
      rw [← hs2] at h1
      exact contentOf_congr e1 e (hS1 e1 h1)
  · intro e1 h1
    left
    have hs2 := congrArg Prod.snd heq
    dsimp only at hs2
    rw [← hs2] at h1
    exact contentOf_congr e1 e (hS1 e1 h1)

/-- C10: for an existing file, `updateFile` with an empty-string name or an
empty-string content is a complete no-op on the store (the falsy value is
silently ignored), leaving name, content, size, and timestamps unchanged;
and no `updateFile` call whatsoever can clear a file's content or set it to
the empty string: the stored content is either untouched or replaced by the
supplied truthy value. -/
theorem c10_falsy_update_ignored (s : Store) (id : String) (e : Entry)
    (hobj : mget s.objects id = some e) (hfile : etypeOf e = .file) :
    updateFile s id (some "") none none = (.ok (miniOfId s id), s) ∧
    updateFile s id none (some (.text "")) none = (.ok (miniOfId s id), s) ∧
    (∀ nm ct pid e', mget ((updateFile s id nm ct pid).2).objects id = some e' →
       contentOf e' = contentOf e ∨
       ∃ v, ct = some v ∧ contentTruthy (some v) = true ∧ contentOf e' = some v) := by
  refine ⟨?_, ?_, ?_⟩
  · unfold updateFile
    simp [hobj, hfile, truthyStr]
  · unfold updateFile
    simp [hobj, hfile, truthyStr, contentTruthy]
  · intro nm ct pid e' h
    unfold updateFile at h
    dsimp only at h
    simp only [hobj] at h
    rw [if_pos hfile] at h
    split at h
    · rename_i cres err s2 heq
      dsimp only at h
      rcases c10_front s id e hobj hfile nm ct _ _ heq e' h with hl | hr
      · exact Or.inl hl
      · exact Or.inr hr
    · rename_i cres u s2 heq
      have hfront := c10_front s id e hobj hfile nm ct _ _ heq
      split at h
      · split at h
        · rename_i a s3 heq2
          dsimp only at h
          have hs3 := congrArg Prod.snd heq2
          dsimp only at hs3
          rw [← hs3] at h
          rcases moveToParent_contentOf _ _ _ _ _ h with ⟨e0, he0, hc0⟩ | ⟨e0, he0, hc0⟩ <;>
          · rcases hfront e0 he0 with hl | ⟨v, hv, htv, hcv⟩
            · exact Or.inl (hc0.trans hl)
            · exact Or.inr ⟨v, hv, htv, hc0.trans hcv⟩
        · rename_i err s3 heq2
          dsimp only at h
          have hs3 := congrArg Prod.snd heq2
          dsimp only at hs3
          rw [← hs3] at h
          rcases moveToParent_contentOf _ _ _ _ _ h with ⟨e0, he0, hc0⟩ | ⟨e0, he0, hc0⟩ <;>
          · rcases hfront e0 he0 with hl | ⟨v, hv, htv, hcv⟩
            · exact Or.inl (hc0.trans hl)
            · exact Or.inr ⟨v, hv, htv, hc0.trans hcv⟩
      · dsimp only at h
        rcases hfront e' h with hl | hr
        · exact Or.inl hl
        · exact Or.inr hr

/-- Witness for C10 at the file fixture. -/
theorem c10_witness :
    updateFile fxFile "1" (some "") none none = (.ok (miniOfId fxFile "1"), fxFile) ∧
    updateFile fxFile "1" none (some (.text "")) none = (.ok (miniOfId fxFile "1"), fxFile) ∧
    (∀ nm ct pid e', mget ((updateFile fxFile "1" nm ct pid).2).objects "1" = some e' →
       contentOf e' = contentOf ⟨"1", "foo.txt", 0, 0, .file none⟩ ∨
       ∃ v, ct = some v ∧ contentTruthy (some v) = true ∧ contentOf e' = some v) :=
  c10_falsy_update_ignored fxFile "1" ⟨"1", "foo.txt", 0, 0, .file none⟩ (by decide) rfl

theorem rget_toMiniJSON_created (s : Store) (e : Entry) :
    rget (toMiniJSON s e) "created_at" = some (.n e.createdAt) := by
  match he : e.data with
  | .file c => simp [toMiniJSON, rget, he, mget_append, mget]
  | .folder es => simp [toMiniJSON, rget, he, mget_append, mget]

theorem rget_toMiniJSON_modified (s : Store) (e : Entry) :
    rget (toMiniJSON s e) "modified_at" = some (.n e.modifiedAt) := by
  match he : e.data with
  | .file c => simp [toMiniJSON, rget, he, mget_append, mget]
  | .folder es => simp [toMiniJSON, rget, he, mget_append, mget]

theorem rget_folderToJSON_created (s : Store) (e : Entry) :
    rget (folderToJSON s e) "created_at" = some (.n e.createdAt) := by
  have h := rget_toMiniJSON_created s e
  unfold rget at h ⊢
  unfold folderToJSON
  rw [mget_append, h]

theorem rget_folderToJSON_modified (s : Store) (e : Entry) :
    rget (folderToJSON s e) "modified_at" = some (.n e.modifiedAt) := by
  have h := rget_toMiniJSON_modified s e
  unfold rget at h ⊢
  unfold folderToJSON
  rw [mget_append, h]

/-- Specification of one clock reading: the returned value is the new clock,
it never decreases, only `clock` and `ticks` change, and with no pending
increments nothing changes at all. -/
theorem readClock_spec (s : Store) :
    (readClock s).1 = (readClock s).2.clock ∧
    s.clock ≤ (readClock s).1 ∧
    (readClock s).2.objects = s.objects ∧
    (readClock s).2.parents = s.parents ∧
    (readClock s).2.counter = s.counter ∧
    (readClock s).2.allocated = s.allocated ∧
    (readClock s).2.rootId = s.rootId ∧
    (s.ticks = [] → readClock s = (s.clock, s)) := by
  unfold readClock
  match hts : s.ticks with
  | [] => simp
  | d :: rest => simp

theorem newEntry_spec (s : Store) (nm : String) (d : EntryData) :
    (newEntry s nm d none).1.id = natStr s.counter ∧
    (newEntry s nm d none).1.name = nm ∧
    (newEntry s nm d none).1.data = d ∧
    s.clock ≤ (newEntry s nm d none).1.createdAt ∧
    (newEntry s nm d none).1.createdAt ≤ (newEntry s nm d none).1.modifiedAt ∧
    (newEntry s nm d none).1.modifiedAt ≤ (newEntry s nm d none).2.clock ∧
    (newEntry s nm d none).2.objects = s.objects ∧
    (newEntry s nm d none).2.parents = s.parents ∧
    (newEntry s nm d none).2.counter = s.counter + 1 ∧
    (s.ticks = [] →
      (newEntry s nm d none).1.createdAt = s.clock ∧
      (newEntry s nm d none).1.modifiedAt = s.clock ∧
      (newEntry s nm d none).2.clock = s.clock ∧
      (newEntry s nm d none).2.ticks = []) := by
  unfold newEntry readClock
  match hts : s.ticks with
  | [] => simp [hts]
  | [d1] => simp [hts]
  | d1 :: d2 :: rest => simp [hts]

theorem register_stamp (s1 : Store) (f : Entry) (pid : String) :
    ∃ ef, mget (register s1 f (some pid)).objects f.id = some ef ∧
      ef.createdAt = f.createdAt ∧
      s1.clock ≤ ef.modifiedAt ∧
      (s1.ticks = [] → ef.modifiedAt = s1.clock) := by
  unfold register folderAdd
  dsimp only
  by_cases hp : f.id = pid
  · match hts : s1.ticks with
    | [] =>
      simp [readClock, hts, mget_updEntry_objects, mget_mset_self, hp]
    | d1 :: rest =>
      simp [readClock, hts, mget_updEntry_objects, mget_mset_self, hp]
  · match hts : s1.ticks with
    | [] =>
      simp [readClock, hts, mget_updEntry_objects, mget_mset_self, hp, Ne.symm hp]
    | d1 :: rest =>
      simp [readClock, hts, mget_updEntry_objects, mget_mset_self, hp, Ne.symm hp]

theorem createFile_stamps (s : Store) (nm : String) (pid : Option String)
    (ct : Option Content) (r : Record) (s' : Store)
    (h : createFile s nm pid ct = (.ok r, s')) :
    ∃ tc tm, rget r "created_at" = some (.n tc) ∧ rget r "modified_at" = some (.n tm) ∧
      tc ≤ tm ∧ (s.ticks = [] → tc = tm) := by
  unfold createFile at h
  dsimp only at h
  split at h
  · simp at h
  · split at h
    · rcases hne : newEntry s nm (.file ct) none with ⟨f, s1⟩
      rw [hne] at h
      dsimp only at h
      have spec := newEntry_spec s nm (.file ct)
      rw [hne] at spec
      dsimp only at spec
      obtain ⟨hid, hnm, hd, h1, h2, h3, hobj1, hpar1, hcnt1, hemp⟩ := spec
      obtain ⟨ef, hef, hefc, hefm, hefe⟩ := register_stamp s1 f (pid.getD s.rootId)
      simp only [Prod.mk.injEq, Except.ok.injEq] at h
      obtain ⟨hr, hs'⟩ := h
      refine ⟨f.createdAt, ef.modifiedAt, ?_, ?_, ?_, ?_⟩
      · rw [← hr]
        unfold miniOfId
        rw [hef, rget_toMiniJSON_created, hefc]
      · rw [← hr]
        unfold miniOfId
        rw [hef, rget_toMiniJSON_modified]
      · exact le_trans h2 (le_trans h3 hefm)
      · intro hts
        obtain ⟨ha, hb, hc, hd2⟩ := hemp hts
        rw [ha, hefe hd2, hc]
    · simp at h

theorem createFolder_stamps (s : Store) (nm : String) (pid : Option String)
    (r : Record) (s' : Store) (h : createFolder s nm pid = (.ok r, s')) :
    ∃ tc tm, rget r "created_at" = some (.n tc) ∧ rget r "modified_at" = some (.n tm) ∧
      tc ≤ tm ∧ (s.ticks = [] → tc = tm) := by
  unfold createFolder at h
  dsimp only at h
  split at h
  · simp at h
  · split at h
    · rcases hne : newEntry s nm (.folder []) none with ⟨f, s1⟩
      rw [hne] at h
      dsimp only at h
      have spec := newEntry_spec s nm (.folder [])
      rw [hne] at spec
      dsimp only at spec
      obtain ⟨hid, hnm, hd, h1, h2, h3, hobj1, hpar1, hcnt1, hemp⟩ := spec
      obtain ⟨ef, hef, hefc, hefm, hefe⟩ := register_stamp s1 f (pid.getD s.rootId)
      simp only [Prod.mk.injEq, Except.ok.injEq] at h
      obtain ⟨hr, hs'⟩ := h
      refine ⟨f.createdAt, ef.modifiedAt, ?_, ?_, ?_, ?_⟩
      · rw [← hr]
        unfold folderRecOfId
        rw [hef, rget_folderToJSON_created, hefc]
      · rw [← hr]
        unfold folderRecOfId
        rw [hef, rget_folderToJSON_modified]
      · exact le_trans h2 (le_trans h3 hefm)
      · intro hts
        obtain ⟨ha, hb, hc, hd2⟩ := hemp hts
        rw [ha, hefe hd2, hc]
    · simp at h

/-- C5 (amended): immediately after `createFile` or `createFolder`, the
returned record satisfies `created_at ≤ modified_at`, with equality exactly
guaranteed when the clock does not advance during the call (no pending
increments); `modified_at` is stamped by the `Folder.add` step, after
`created_at`, so an advancing clock separates them. -/
theorem c5_created_le_modified :
    (∀ s nm pid ct r s', createFile s nm pid ct = (.ok r, s') →
       ∃ tc tm, rget r "created_at" = some (.n tc) ∧
         rget r "modified_at" = some (.n tm) ∧ tc ≤ tm ∧ (s.ticks = [] → tc = tm)) ∧
    (∀ s nm pid r s', createFolder s nm pid = (.ok r, s') →
       ∃ tc tm, rget r "created_at" = some (.n tc) ∧
         rget r "modified_at" = some (.n tm) ∧ tc ≤ tm ∧ (s.ticks = [] → tc = tm)) :=
  ⟨fun s nm pid ct r s' h => createFile_stamps s nm pid ct r s' h,
   fun s nm pid r s' h => createFolder_stamps s nm pid r s' h⟩

/-- The record returned by creating a file in the fixture store. -/
def fxRec : Record :=
  match (createFile fxRoot "foo.txt" none none).1 with
  | .ok r => r
  | .error _ => []

/-- Witness for C5 at the fixture store (clock never advances). -/
theorem c5_witness :
    ∃ tc tm, rget fxRec "created_at" = some (.n tc) ∧
      rget fxRec "modified_at" = some (.n tm) ∧ tc ≤ tm ∧
      (fxRoot.ticks = [] → tc = tm) :=
  c5_created_le_modified.1 fxRoot "foo.txt" none none fxRec
    (createFile fxRoot "foo.txt" none none).2 rfl

/-- Counterexample store for C5: the clock advances by one right before the
`Folder.add` stamp of the file being created. -/
def fxTick : Store := ObjectStore.new (some "0") [0, 0, 0, 0, 1]

/-- The record returned by creating a file while the clock ticks. -/
def fxTickRec : Record :=
  match (createFile fxTick "foo.txt" none none).1 with
  | .ok r => r
  | .error _ => []

/-- C5 counterexample: with an advancing clock, the record returned by
`createFile` has `created_at = 0` but `modified_at = 1`, so the two are not
equal immediately after creation. -/
theorem c5_counterexample :
    rget fxTickRec "created_at" = some (.n 0) ∧
    rget fxTickRec "modified_at" = some (.n 1) ∧
    rget fxTickRec "created_at" ≠ rget fxTickRec "modified_at" := by
  refine ⟨rfl, rfl, ?_⟩
  intro h
  rw [show rget fxTickRec "created_at" = some (RVal.n 0) from rfl,
    show rget fxTickRec "modified_at" = some (RVal.n 1) from rfl] at h
  injection h with h
  injection h with h
  omega

theorem mget_folderRemove_folder (s : Store) (fid eid : String) (hne : fid ≠ eid) :
    mget (folderRemove s fid eid).objects fid =
      (mget s.objects fid).map (fun f =>
        { f with modifiedAt := (readClock s).1,
                 data := match f.data with
                         | .folder es => .folder (es.filter (fun p => p.1 != eid))
                         | d => d }) := by
  unfold folderRemove
  dsimp only
  rw [mget_updEntry_objects, if_neg hne, mget_updEntry_objects, if_pos rfl,
    readClock_objects]

theorem mget_folderRemove_entry (s : Store) (fid eid : String) (hne : eid ≠ fid) :
    mget (folderRemove s fid eid).objects eid =
      (mget s.objects eid).map (fun e => { e with modifiedAt := (readClock s).1 }) := by
  unfold folderRemove
  dsimp only
  rw [mget_updEntry_objects, if_pos rfl, mget_updEntry_objects, if_neg hne,
    readClock_objects]

theorem mget_folderRemove_other (s : Store) (fid eid x : String)
    (h1 : x ≠ fid) (h2 : x ≠ eid) :
    mget (folderRemove s fid eid).objects x = mget s.objects x := by
  unfold folderRemove
  dsimp only
  rw [mget_updEntry_objects, if_neg h2, mget_updEntry_objects, if_neg h1,
    readClock_objects]

theorem mget_folderAdd_folder (s : Store) (fid eid : String) (ty : EType)
    (hne : fid ≠ eid) :
    mget (folderAdd s fid eid ty).objects fid =
      (mget s.objects fid).map (fun f =>
        { f with modifiedAt := (readClock s).1,
                 data := match f.data with
                         | .folder es => .folder (es ++ [(eid, ty)])
                         | d => d }) := by
  unfold folderAdd
  dsimp only
  rw [mget_updEntry_objects, if_neg hne, mget_updEntry_objects, if_pos rfl,
    readClock_objects]

theorem mget_folderAdd_entry (s : Store) (fid eid : String) (ty : EType)
    (hne : eid ≠ fid) :
    mget (folderAdd s fid eid ty).objects eid =
      (mget s.objects eid).map (fun e => { e with modifiedAt := (readClock s).1 }) := by
  unfold folderAdd
  dsimp only
  rw [mget_updEntry_objects, if_pos rfl, mget_updEntry_objects, if_neg hne,
    readClock_objects]

theorem mget_folderAdd_other (s : Store) (fid eid x : String) (ty : EType)
    (h1 : x ≠ fid) (h2 : x ≠ eid) :
    mget (folderAdd s fid eid ty).objects x = mget s.objects x := by
  unfold folderAdd
  dsimp only
  rw [mget_updEntry_objects, if_neg h2, mget_updEntry_objects, if_neg h1,
    readClock_objects]

theorem moveToParent_clean (s : Store) (fid oldPid newPid : String) (e po pn : Entry)
    (eold enew : List (String × EType))
    (heid : e.id = fid)
    (hobj : mget s.objects fid = some e)
    (hpar : mget s.parents fid = some (some oldPid))
    (hold : mget s.objects oldPid = some po) (hpo : po.data = .folder eold)
    (hnew : mget s.objects newPid = some pn) (hpn : pn.data = .folder enew)
    (hno : oldPid ≠ newPid) (hfo : fid ≠ oldPid) (hfn : fid ≠ newPid) :
    (moveToParent s fid newPid).1 = .ok () ∧
    (∃ po', mget ((moveToParent s fid newPid).2).objects oldPid = some po' ∧
       po'.data = .folder (eold.filter (fun p => p.1 != fid))) ∧
    (∃ pn', mget ((moveToParent s fid newPid).2).objects newPid = some pn' ∧
       pn'.data = .folder (enew ++ [(fid, etypeOf e)])) ∧
    (∃ e', mget ((moveToParent s fid newPid).2).objects fid = some e' ∧
       e'.data = e.data ∧ e'.id = e.id) ∧
    mget ((moveToParent s fid newPid).2).parents fid = some (some newPid) := by
  subst heid
  have hpnf : etypeOf pn = .folder := by
    unfold etypeOf
    rw [hpn]
  have h2 : mget (folderRemove s oldPid e.id).objects e.id
      = some { e with modifiedAt := (readClock s).1 } := by
    rw [mget_folderRemove_entry s oldPid e.id hfo, hobj]
    rfl
  unfold moveToParent
  simp only [hnew, if_pos hpnf, hpar, h2]
  refine ⟨trivial, ?_, ?_, ?_, ?_⟩
  · unfold register
    dsimp only
    rw [mget_folderAdd_other _ _ _ _ _ hno (Ne.symm hfo)]
    dsimp only
    rw [mget_mset_ne _ _ _ _ (Ne.symm hfo),
      mget_folderRemove_folder s oldPid e.id (Ne.symm hfo), hold]
    refine ⟨_, rfl, ?_⟩
    dsimp only
    rw [hpo]
  · unfold register
    dsimp only
    rw [mget_folderAdd_folder _ _ _ _ (Ne.symm hfn)]
    dsimp only
    rw [mget_mset_ne _ _ _ _ (Ne.symm hfn),
      mget_folderRemove_other s oldPid e.id newPid (Ne.symm hno) (Ne.symm hfn), hnew]
    refine ⟨_, rfl, ?_⟩
    dsimp only
    rw [hpn]
    rfl
  · unfold register
    dsimp only
    rw [mget_folderAdd_entry _ _ _ _ hfn]
    dsimp only
    rw [mget_mset_self]
    exact ⟨_, rfl, rfl, rfl⟩
  · unfold register
    dsimp only
    rw [folderAdd_parents]
    dsimp only
    rw [folderRemove_parents]
    exact mget_mset_self _ _ _

theorem length_filter_bne (l : List (String × EType)) (fid : String) :
    (l.filter (fun p => p.1 != fid)).length + (l.filter (fun p => p.1 == fid)).length
      = l.length := by
  induction l with
  | nil => rfl
  | cons p rest ih =>
    by_cases h : p.1 = fid
    · rw [List.filter_cons, List.filter_cons]
      simp only [h, bne_self_eq_false, beq_self_eq_true, Bool.false_eq_true, if_false,
        if_true, List.length_cons]
      omega
    · have h1 : (p.1 != fid) = true := by simp [h]
      have h2 : ¬ ((p.1 == fid) = true) := by simp [h]
      rw [List.filter_cons, List.filter_cons, if_pos h1, if_neg h2]
      simp only [List.length_cons]
      omega

theorem updateFile_move_red (s : Store) (fid newPid : String) (e : Entry)
    (hobj : mget s.objects fid = some e) (hty : etypeOf e = .file)
    (hq : newPid ≠ "") (res : Except JsErr Unit) (s2 : Store)
    (hmp : moveToParent s fid newPid = (res, s2)) (u : Unit) (hres : res = .ok u) :
    updateFile s fid none none (some newPid) = (.ok (miniOfId s2 fid), s2) := by
  unfold updateFile
  simp only [hobj]
  rw [if_pos hty]
  simp only [truthyStr, Bool.false_eq_true, if_false, Option.getD]
  simp only [show ((newPid != "") = true) from by simp [hq], if_true]
  rw [hmp, hres]

theorem updateFolder_move_red (s : Store) (fid newPid : String) (e : Entry)
    (hobj : mget s.objects fid = some e) (hty : etypeOf e = .folder)
    (hq : newPid ≠ "") (res : Except JsErr Unit) (s2 : Store)
    (hmp : moveToParent s fid newPid = (res, s2)) (u : Unit) (hres : res = .ok u) :
    updateFolder s fid none (some newPid) = (.ok (folderRecOfId s2 fid), s2) := by
  unfold updateFolder
  simp only [hobj]
  rw [if_pos hty]
  simp only [truthyStr, Bool.false_eq_true, if_false, Option.getD]
  simp only [show ((newPid != "") = true) from by simp [hq], if_true]
  rw [hmp, hres]

/-- C7: a successful parent move via `updateFile` or `updateFolder` removes
the entry from the old parent's child list (whose length drops by exactly
one when the entry was listed once) and appends it to the new parent's
child list (whose length grows by exactly one). -/
theorem c7_move_child_lists :
    (∀ (s : Store) (fid oldPid newPid : String) (e po pn : Entry)
       (eold enew : List (String × EType)),
       e.id = fid → mget s.objects fid = some e → etypeOf e = .file →
       mget s.parents fid = some (some oldPid) →
       mget s.objects oldPid = some po → po.data = .folder eold →
       mget s.objects newPid = some pn → pn.data = .folder enew →
       oldPid ≠ newPid → fid ≠ oldPid → fid ≠ newPid → newPid ≠ "" →
       (eold.filter (fun p => p.1 == fid)).length = 1 →
       (∃ r, (updateFile s fid none none (some newPid)).1 = .ok r) ∧
       (∃ po', mget ((updateFile s fid none none (some newPid)).2).objects oldPid
            = some po' ∧
          po'.data = .folder (eold.filter (fun p => p.1 != fid)) ∧
          (eold.filter (fun p => p.1 != fid)).length + 1 = eold.length ∧
          ∀ p ∈ eold.filter (fun p => p.1 != fid), p.1 ≠ fid) ∧
       (∃ pn', mget ((updateFile s fid none none (some newPid)).2).objects newPid
            = some pn' ∧
          pn'.data = .folder (enew ++ [(fid, etypeOf e)]) ∧
          (enew ++ [(fid, etypeOf e)]).length = enew.length + 1)) ∧
    (∀ (s : Store) (fid oldPid newPid : String) (e po pn : Entry)
       (eold enew : List (String × EType)),
       e.id = fid → mget s.objects fid = some e → etypeOf e = .folder →
       mget s.parents fid = some (some oldPid) →
       mget s.objects oldPid = some po → po.data = .folder eold →
       mget s.objects newPid = some pn → pn.data = .folder enew →
       oldPid ≠ newPid → fid ≠ oldPid → fid ≠ newPid → newPid ≠ "" →
       (eold.filter (fun p => p.1 == fid)).length = 1 →
       (∃ r, (updateFolder s fid none (some newPid)).1 = .ok r) ∧
       (∃ po', mget ((updateFolder s fid none (some newPid)).2).objects oldPid
            = some po' ∧
          po'.data = .folder (eold.filter (fun p => p.1 != fid)) ∧
          (eold.filter (fun p => p.1 != fid)).length + 1 = eold.length ∧
          ∀ p ∈ eold.filter (fun p => p.1 != fid), p.1 ≠ fid) ∧
       (∃ pn', mget ((updateFolder s fid none (some newPid)).2).objects newPid
            = some pn' ∧
          pn'.data = .folder (enew ++ [(fid, etypeOf e)]) ∧
          (enew ++ [(fid, etypeOf e)]).length = enew.length + 1)) := by
  constructor
  · intro s fid oldPid newPid e po pn eold enew heid hobj hty hpar hold hpo hnew hpn
      hno hfo hfn hq hcount
    obtain ⟨hok, ⟨po', hpo', hpo'd⟩, ⟨pn', hpn', hpn'd⟩, _, _⟩ :=
      moveToParent_clean s fid oldPid newPid e po pn eold enew heid hobj hpar hold
        hpo hnew hpn hno hfo hfn
    rcases hmp : moveToParent s fid newPid with ⟨res, s2⟩
    rw [hmp] at hok hpo' hpn'
    dsimp only at hok hpo' hpn'
    have hred := updateFile_move_red s fid newPid e hobj hty hq res s2 hmp () hok
    rw [hred]
    dsimp only
    have hlen := length_filter_bne eold fid
    refine ⟨⟨_, rfl⟩, ⟨po', hpo', hpo'd, by omega, ?_⟩, ⟨pn', hpn', hpn'd, by simp⟩⟩
    intro p hp
    have := List.mem_filter.mp hp
    simpa using this.2
  · intro s fid oldPid newPid e po pn eold enew heid hobj hty hpar hold hpo hnew hpn
      hno hfo hfn hq hcount
    obtain ⟨hok, ⟨po', hpo', hpo'd⟩, ⟨pn', hpn', hpn'd⟩, _, _⟩ :=
      moveToParent_clean s fid oldPid newPid e po pn eold enew heid hobj hpar hold
        hpo hnew hpn hno hfo hfn
    rcases hmp : moveToParent s fid newPid with ⟨res, s2⟩
    rw [hmp] at hok hpo' hpn'
    dsimp only at hok hpo' hpn'
    have hred := updateFolder_move_red s fid newPid e hobj hty hq res s2 hmp () hok
    rw [hred]
    dsimp only
    have hlen := length_filter_bne eold fid
    refine ⟨⟨_, rfl⟩, ⟨po', hpo', hpo'd, by omega, ?_⟩, ⟨pn', hpn', hpn'd, by simp⟩⟩
    intro p hp
    have := List.mem_filter.mp hp
    simpa using this.2

/-- The file fixture plus a second folder (id "2") under the root. -/
def fxMove : Store := (createFolder fxFile "bar" none).2

/-- Witness for C7: moving file "1" from the root "0" into folder "2". -/
theorem c7_witness :
    (∃ r, (updateFile fxMove "1" none none (some "2")).1 = .ok r) ∧
    (∃ po', mget ((updateFile fxMove "1" none none (some "2")).2).objects "0"
         = some po' ∧
       po'.data = .folder (([("1", EType.file), ("2", EType.folder)]).filter
         (fun p => p.1 != "1")) ∧
       (([("1", EType.file), ("2", EType.folder)]).filter
         (fun p => p.1 != "1")).length + 1
         = ([("1", EType.file), ("2", EType.folder)]).length ∧
       ∀ p ∈ ([("1", EType.file), ("2", EType.folder)]).filter
         (fun p => p.1 != "1"), p.1 ≠ "1") ∧
    (∃ pn', mget ((updateFile fxMove "1" none none (some "2")).2).objects "2"
         = some pn' ∧
       pn'.data = .folder (([] : List (String × EType)) ++
         [("1", etypeOf ⟨"1", "foo.txt", 0, 0, .file none⟩)]) ∧
       (([] : List (String × EType)) ++
         [("1", etypeOf ⟨"1", "foo.txt", 0, 0, .file none⟩)]).length
         = ([] : List (String × EType)).length + 1) :=
  c7_move_child_lists.1 fxMove "1" "0" "2" ⟨"1", "foo.txt", 0, 0, .file none⟩
    ⟨"0", "root", 0, 0, .folder [("1", .file), ("2", .folder)]⟩
    ⟨"2", "bar", 0, 0, .folder []⟩ [("1", .file), ("2", .folder)] []
    rfl (by decide) rfl (by decide) (by decide) rfl (by decide) rfl
    (by decide) (by decide) (by decide) (by decide) (by decide)

/-- C1 (amended): failures of an operation's initial validation leave the
store untouched. The getters never change the store; `createFile`,
`createFolder`, and `copyFile` leave the store unchanged on every error;
and `updateFile`, `updateFolder`, `deleteFile`, `deleteFolder`, and
`copyFolder` raise with an unchanged store whenever the target id is
missing or of the wrong kind. (An invalid `parentId` in `updateFile` or
`updateFolder` is only detected after name/content changes were applied,
and `deleteFolder` on the root raises only after deleting, so those
failures do mutate — see the counterexample.) -/
theorem c1_initial_validation_frame :
    (∀ s id, (getFile s id).2 = s) ∧
    (∀ s id, (getFolder s id).2 = s) ∧
    (∀ s id, (getFileContent s id).2 = s) ∧
    (∀ s nm pid ct err, (createFile s nm pid ct).1 = .error err →
       (createFile s nm pid ct).2 = s) ∧
    (∀ s nm pid err, (createFolder s nm pid).1 = .error err →
       (createFolder s nm pid).2 = s) ∧
    (∀ s id pid nm err, (copyFile s id pid nm).1 = .error err →
       (copyFile s id pid nm).2 = s) ∧
    (∀ s id, (∀ e, mget s.objects id = some e → etypeOf e ≠ .file) →
       ∃ err, deleteFile s id = (.error err, s)) ∧
    (∀ s id nm ct pid, (∀ e, mget s.objects id = some e → etypeOf e ≠ .file) →
       ∃ err, updateFile s id nm ct pid = (.error err, s)) ∧
    (∀ s id nm pid, (∀ e, mget s.objects id = some e → etypeOf e ≠ .folder) →
       ∃ err, updateFolder s id nm pid = (.error err, s)) ∧
    (∀ s id, (∀ e, mget s.objects id = some e → etypeOf e ≠ .folder) →
       ∃ err, deleteFolder s id = (.error err, s)) ∧
    (∀ s id pid nm, (∀ e, mget s.objects id = some e → etypeOf e ≠ .folder) →
       ∃ err, copyFolder s id pid nm = (.error err, s)) := by
  refine ⟨?_, ?_, ?_, ?_, ?_, ?_, ?_, ?_, ?_, ?_, ?_⟩
  · intro s id
    unfold getFile
    repeat' split
    all_goals rfl
  · intro s id
    unfold getFolder
    repeat' split
    all_goals rfl
  · intro s id
    unfold getFileContent
    repeat' split
    all_goals rfl
  · intro s nm pid ct err h
    rcases hc : createFile s nm pid ct with ⟨res, s2⟩
    rw [hc] at h
    dsimp only at h
    show s2 = s
    unfold createFile at hc
    dsimp only at hc
    repeat' split at hc
    all_goals first
      | (injection hc with h1 h2; exact h2.symm)
      | (injection hc with h1 h2; rw [← h1] at h; simp at h)
  · intro s nm pid err h
    rcases hc : createFolder s nm pid with ⟨res, s2⟩
    rw [hc] at h
    dsimp only at h
    show s2 = s
    unfold createFolder at hc
    dsimp only at hc
    repeat' split at hc
    all_goals first
      | (injection hc with h1 h2; exact h2.symm)
      | (injection hc with h1 h2; rw [← h1] at h; simp at h)
  · intro s id pid nm err h
    rcases hc : copyFile s id pid nm with ⟨res, s2⟩
    rw [hc] at h
    dsimp only at h
    show s2 = s
    unfold copyFile at hc
    dsimp only at hc
    repeat' split at hc
    all_goals first
      | (injection hc with h1 h2; exact h2.symm)
      | (injection hc with h1 h2; rw [← h1] at h; simp at h)
  · intro s id hbad
    match hm : mget s.objects id with
    | none =>
      refine ⟨.typeError "File not found.", ?_⟩
      unfold deleteFile
      simp only [hm]
    | some e =>
      refine ⟨.typeError "Not a file.", ?_⟩
      unfold deleteFile
      simp only [hm]
      rw [if_neg (hbad e hm)]
  · intro s id nm ct pid hbad
    match hm : mget s.objects id with
    | none =>
      refine ⟨.typeError "File not found.", ?_⟩
      unfold updateFile
      simp only [hm]
    | some e =>
      refine ⟨.typeError "Not a file.", ?_⟩
      unfold updateFile
      simp only [hm]
      rw [if_neg (hbad e hm)]
  · intro s id nm pid hbad
    match hm : mget s.objects id with
    | none =>
      refine ⟨.typeError "Folder not found.", ?_⟩
      unfold updateFolder
      simp only [hm]
    | some e =>
      refine ⟨.typeError "Not a folder.", ?_⟩
      unfold updateFolder
      simp only [hm]
      rw [if_neg (hbad e hm)]
  · intro s id hbad
    match hm : mget s.objects id with
    | none =>
      refine ⟨.typeError "Folder not found.", ?_⟩
      unfold deleteFolder deleteFolderFuel
      simp only [hm]
    | some e =>
      have hdf : ∃ c, e.data = .file c := by
        match hd : e.data with
        | .file c => exact ⟨c, rfl⟩
        | .folder es =>
          exact absurd (by unfold etypeOf; rw [hd]) (hbad e hm)
      obtain ⟨c, hc⟩ := hdf
      refine ⟨.typeError "Not a folder.", ?_⟩
      unfold deleteFolder deleteFolderFuel
      simp only [hm, hc]
  · intro s id pid nm hbad
    match hm : mget s.objects id with
    | none =>
      refine ⟨.typeError ("Folder \"" ++ id ++ "\" not found."), ?_⟩
      unfold copyFolder
      simp only [hm]
    | some e =>
      have hdf : ∃ c, e.data = .file c := by
        match hd : e.data with
        | .file c => exact ⟨c, rfl⟩
        | .folder es =>
          exact absurd (by unfold etypeOf; rw [hd]) (hbad e hm)
      obtain ⟨c, hc⟩ := hdf
      refine ⟨.typeError "Not a folder.", ?_⟩
      unfold copyFolder
      simp only [hm, hc]

/-- C1 counterexample: `updateFile` applies the requested name change before
the `parentId` validation runs, so the call raises NotFound for the parent
yet leaves the file renamed — the store after the failed call differs from
the store before it. -/
theorem c1_counterexample :
    (updateFile fxFile "1" (some "bar.txt") none (some "99")).1 =
      .error (.typeError "Parent \"99\" not found.") ∧
    (updateFile fxFile "1" (some "bar.txt") none (some "99")).2 ≠ fxFile ∧
    (mget ((updateFile fxFile "1" (some "bar.txt") none (some "99")).2).objects "1").map
      Entry.name = some "bar.txt" ∧
    (mget fxFile.objects "1").map Entry.name = some "foo.txt" := by
  refine ⟨rfl, ?_, rfl, rfl⟩
  decide

/-- Witness for C1 applying the frame theorem at concrete stores: a
`deleteFile` on a missing id and an `updateFolder` on a file id both raise
and leave the fixture store exactly as it was. -/
theorem c1_witness :
    (∃ err, deleteFile fxFile "99" = (.error err, fxFile)) ∧
    (∃ err, updateFolder fxFile "1" (some "x") none = (.error err, fxFile)) ∧
    (createFile fxFile "a.txt" (some "99") none).2 = fxFile := by
  refine ⟨?_, ?_, ?_⟩
  · exact c1_initial_validation_frame.2.2.2.2.2.2.1 fxFile "99" (by decide)
  · exact c1_initial_validation_frame.2.2.2.2.2.2.2.2.1 fxFile "1" (some "x") none
      (by decide)
  · exact c1_initial_validation_frame.2.2.2.1 fxFile "a.txt" (some "99") none
      (.typeError "Parent not found.") rfl

/-- Replacing (or adding) the single outgoing edge of node `a` to point at
`p` preserves acyclicity as long as `a` is not reachable from `p` in the old
relation. -/
theorem acyclic_update_edge (r r' : String → String → Prop) (a p : String)
    (hacyc : ∀ x, ¬ Relation.TransGen r x x)
    (hnp : ¬ Relation.ReflTransGen r p a)
    (hr' : ∀ x y, r' x y → (x = a ∧ y = p) ∨ (x ≠ a ∧ r x y)) :
    ∀ x, ¬ Relation.TransGen r' x x := by
  have key : ∀ u v, Relation.TransGen r' u v →
      Relation.TransGen r u v ∨
      (Relation.ReflTransGen r u a ∧ Relation.ReflTransGen r p v) := by
    intro u v h
    induction h with
    | single hs =>
      rcases hr' _ _ hs with ⟨hua, hvp⟩ | ⟨_, hr⟩
      · subst hua
        subst hvp
        exact Or.inr ⟨Relation.ReflTransGen.refl, Relation.ReflTransGen.refl⟩
      · exact Or.inl (Relation.TransGen.single hr)
    | tail hte hs ih =>
      rcases hr' _ _ hs with ⟨hva, hwp⟩ | ⟨hvna, hr⟩
      · subst hva
        subst hwp
        rcases ih with ht | ⟨hua, hpv⟩
        · exact Or.inr ⟨ht.to_reflTransGen, Relation.ReflTransGen.refl⟩
        · exact absurd hpv hnp
      · rcases ih with ht | ⟨hua, hpv⟩
        · exact Or.inl (ht.tail hr)
        · exact Or.inr ⟨hua, hpv.tail hr⟩
  intro x hx
  rcases key x x hx with ht | ⟨hxa, hpx⟩
  · exact hacyc x ht
  · exact hnp (hpx.trans hxa)

/-- A subrelation of an acyclic relation is acyclic. -/
theorem acyclic_subset (r r' : String → String → Prop)
    (hsub : ∀ x y, r' x y → r x y)
    (hacyc : ∀ x, ¬ Relation.TransGen r x x) :
    ∀ x, ¬ Relation.TransGen r' x x :=
  fun x hx => hacyc x (hx.mono hsub)

/-- Freshness of all allocator ids at or above the current counter: they are
absent from both registry maps and no parent edge points at them. -/
def FreshInv (s : Store) : Prop :=
  ∀ n, s.counter ≤ n →
    mget s.objects (natStr n) = none ∧
    mget s.parents (natStr n) = none ∧
    ∀ k po, mget s.parents k = some po → po ≠ some (natStr n)

theorem no_reach_fresh (s : Store) (hF : FreshInv s) (n : Nat) (hn : s.counter ≤ n)
    (q : String) (hq : q ≠ natStr n) :
    ¬ Relation.ReflTransGen (pstep s) q (natStr n) := by
  intro h
  rcases h.cases_tail with heq | ⟨c, _, hstep⟩
  · exact hq heq.symm
  · exact (hF n hn).2.2 c _ hstep rfl

theorem pstep_mset (s s' : Store) (a : String) (v : Option String)
    (hps : s'.parents = mset s.parents a v) :
    ∀ x y, pstep s' x y → (x = a ∧ v = some y) ∨ (x ≠ a ∧ pstep s x y) := by
  intro x y h
  unfold pstep at h
  rw [hps] at h
  by_cases hx : x = a
  · subst hx
    rw [mget_mset_self] at h
    injection h with h
    exact Or.inl ⟨rfl, h⟩
  · rw [mget_mset_ne _ _ _ _ hx] at h
    exact Or.inr ⟨hx, h⟩

theorem acyclic_parents_eq (s s' : Store) (h : s'.parents = s.parents)
    (hA : Acyclic s) : Acyclic s' :=
  acyclic_subset (pstep s) (pstep s')
    (by intro x y hxy
        unfold pstep at hxy ⊢
        rw [h] at hxy
        exact hxy) hA

/-- The kind of the entry registered at `x`, if any. -/
def kindOf (s : Store) (x : String) : Option EType := (mget s.objects x).map etypeOf

/-- The id field of the entry registered at `x`, if any. -/
def idKeyOf (s : Store) (x : String) : Option String := (mget s.objects x).map Entry.id

theorem kindOf_updEntry (s : Store) (id : String) (f : Entry → Entry)
    (hf : ∀ e, etypeOf (f e) = etypeOf e) (x : String) :
    kindOf (updEntry s id f) x = kindOf s x := by
  unfold kindOf
  rw [mget_updEntry_objects]
  by_cases hx : x = id
  · subst hx
    rw [if_pos rfl]
    match mget s.objects x with
    | some e => simp [Option.map, hf e]
    | none => rfl
  · rw [if_neg hx]

theorem idKeyOf_updEntry (s : Store) (id : String) (f : Entry → Entry)
    (hf : ∀ e, (f e).id = e.id) (x : String) :
    idKeyOf (updEntry s id f) x = idKeyOf s x := by
  unfold idKeyOf
  rw [mget_updEntry_objects]
  by_cases hx : x = id
  · subst hx
    rw [if_pos rfl]
    match mget s.objects x with
    | some e => simp [Option.map, hf e]
    | none => rfl
  · rw [if_neg hx]

theorem etypeOf_matchdata_folder (t : Nat) (g : List (String × EType) → List (String × EType)) :
    ∀ e : Entry, etypeOf
      { e with modifiedAt := t,
               data := match e.data with
                       | .folder es => .folder (g es)
                       | d => d } = etypeOf e := by
  intro e
  match hd : e.data with
  | .file c => simp [etypeOf, hd]
  | .folder es => simp [etypeOf, hd]

theorem idKeep_folderRemove (s : Store) (fid eid x : String) (e' : Entry)
    (h : mget (folderRemove s fid eid).objects x = some e') :
    ∃ e0, mget s.objects x = some e0 ∧ e'.id = e0.id := by
  unfold folderRemove at h
  dsimp only at h
  rw [mget_updEntry_objects] at h
  by_cases h2 : x = eid
  · subst h2
    rw [if_pos rfl, mget_updEntry_objects] at h
    by_cases h1 : x = fid
    · subst h1
      rw [if_pos rfl, readClock_objects] at h
      match hm : mget s.objects x with
      | some e0 =>
        rw [hm] at h
        simp only [Option.map] at h
        injection h with h
        exact ⟨e0, rfl, by rw [← h]⟩
      | none => rw [hm] at h; simp at h
    · rw [if_neg h1, readClock_objects] at h
      match hm : mget s.objects x with
      | some e0 =>
        rw [hm] at h
        simp only [Option.map] at h
        injection h with h
        exact ⟨e0, rfl, by rw [← h]⟩
      | none => rw [hm] at h; simp at h
  · rw [if_neg h2, mget_updEntry_objects] at h
    by_cases h1 : x = fid
    · subst h1
      rw [if_pos rfl, readClock_objects] at h
      match hm : mget s.objects x with
      | some e0 =>
        rw [hm] at h
        simp only [Option.map] at h
        injection h with h
        exact ⟨e0, rfl, by rw [← h]⟩
      | none => rw [hm] at h; simp at h
    · rw [if_neg h1, readClock_objects] at h
      exact ⟨e', h, rfl⟩

theorem moveToParent_parents (s : Store) (id pid : String) :
    (moveToParent s id pid).2.parents = s.parents ∨
    ((∃ np, mget s.objects pid = some np ∧ etypeOf np = .folder) ∧
     ∃ e0, mget s.objects id = some e0 ∧
       (moveToParent s id pid).2.parents = mset s.parents e0.id (some pid)) := by
  match hnpl : mget s.objects pid with
  | none =>
    have hred : (moveToParent s id pid).2 = s := by
      unfold moveToParent
      dsimp only
      simp only [hnpl]
    rw [hred]
    exact Or.inl rfl
  | some np =>
    by_cases hf : etypeOf np = .folder
    · match hpl : mget s.parents id with
      | some (some oldPid) =>
        match he2 : mget (folderRemove s oldPid id).objects id with
        | some e2 =>
          have hred : (moveToParent s id pid).2
              = register (folderRemove s oldPid id) e2 (some pid) := by
            unfold moveToParent
            dsimp only
            simp only [hnpl, if_pos hf, hpl, he2]
          obtain ⟨e0, he0, hid⟩ := idKeep_folderRemove _ _ _ _ _ he2
          refine Or.inr ⟨⟨np, rfl, hf⟩, e0, he0, ?_⟩
          rw [hred, register_parents, folderRemove_parents, hid]
        | none =>
          have hred : (moveToParent s id pid).2 = folderRemove s oldPid id := by
            unfold moveToParent
            dsimp only
            simp only [hnpl, if_pos hf, hpl, he2]
          rw [hred, folderRemove_parents]
          exact Or.inl rfl
      | some none =>
        have hred : (moveToParent s id pid).2 = s := by
          unfold moveToParent
          dsimp only
          simp only [hnpl, if_pos hf, hpl]
        rw [hred]
        exact Or.inl rfl
      | none =>
        have hred : (moveToParent s id pid).2 = s := by
          unfold moveToParent
          dsimp only
          simp only [hnpl, if_pos hf, hpl]
        rw [hred]
        exact Or.inl rfl
    · have hred : (moveToParent s id pid).2 = s := by
        unfold moveToParent
        dsimp only
        simp only [hnpl, if_neg hf]
      rw [hred]
      exact Or.inl rfl

theorem acyclic_register_fresh (s s1 : Store) (f : Entry) (pid : String)
    (hA : Acyclic s) (hF : FreshInv s)
    (hid : f.id = natStr s.counter)
    (hs1 : s1.parents = s.parents)
    (hpid : pid ≠ natStr s.counter) :
    Acyclic (register s1 f (some pid)) := by
  have hps : (register s1 f (some pid)).parents
      = mset s.parents (natStr s.counter) (some pid) := by
    rw [register_parents, hs1, hid]
  exact acyclic_update_edge (pstep s) (pstep (register s1 f (some pid)))
    (natStr s.counter) pid hA
    (no_reach_fresh s hF s.counter le_rfl pid hpid)
    (by intro x y h
        rcases pstep_mset s _ _ _ hps x y h with ⟨hxa, hv⟩ | ⟨hxna, hp⟩
        · injection hv with hv
          exact Or.inl ⟨hxa, hv.symm⟩
        · exact Or.inr ⟨hxna, hp⟩)

theorem acyclic_moveToParent (s0 s : Store) (id pid : String)
    (hpar_eq : s.parents = s0.parents)
    (hidk : ∀ x, idKeyOf s x = idKeyOf s0 x)
    (hkind : ∀ x, kindOf s x = kindOf s0 x)
    (hA : Acyclic s0)
    (hcoh : ∀ e, mget s0.objects id = some e → e.id = id)
    (hnp : kindOf s0 pid = some .folder →
      ¬ Relation.ReflTransGen (pstep s0) pid id) :
    Acyclic (moveToParent s id pid).2 := by
  rcases moveToParent_parents s id pid with hl | ⟨⟨np, hnpl, hnpf⟩, e0, he0, hpar'⟩
  · exact acyclic_parents_eq s0 _ (hl.trans hpar_eq) hA
  · have hkpid : kindOf s0 pid = some .folder := by
      rw [← hkind pid]
      unfold kindOf
      rw [hnpl]
      simp [Option.map, hnpf]
    have hida : e0.id = id := by
      have h1 : idKeyOf s id = some e0.id := by
        unfold idKeyOf
        rw [he0]
        rfl
      rw [hidk id] at h1
      unfold idKeyOf at h1
      match hm : mget s0.objects id with
      | some e00 =>
        rw [hm] at h1
        simp only [Option.map] at h1
        injection h1 with h1
        rw [← h1]
        exact hcoh e00 hm
      | none => rw [hm] at h1; simp at h1
    rw [hida] at hpar'
    rw [hpar_eq] at hpar'
    exact acyclic_update_edge (pstep s0) _ id pid hA (hnp hkpid)
      (by intro x y h
          rcases pstep_mset s0 _ _ _ hpar' x y h with ⟨hxa, hv⟩ | ⟨hxna, hp⟩
          · injection hv with hv
            exact Or.inl ⟨hxa, hv.symm⟩
          · exact Or.inr ⟨hxna, hp⟩)

theorem setName_parents (s : Store) (id n : String) :
    (setName s id n).parents = s.parents := by
  unfold setName
  dsimp only
  rw [updEntry_parents, readClock_parents]

theorem setName_idKeyOf (s : Store) (id n x : String) :
    idKeyOf (setName s id n) x = idKeyOf s x := by
  unfold setName
  dsimp only
  rw [idKeyOf_updEntry]
  · unfold idKeyOf
    rw [readClock_objects]
  · intro e
    rfl

theorem setName_kindOf (s : Store) (id n x : String) :
    kindOf (setName s id n) x = kindOf s x := by
  unfold setName
  dsimp only
  rw [kindOf_updEntry]
  · unfold kindOf
    rw [readClock_objects]
  · intro e
    rfl

theorem setContent_parents (s : Store) (id : String) (v : Content) :
    (setContent s id v).2.parents = s.parents := by
  unfold setContent
  dsimp only
  repeat' split
  all_goals simp only [updEntry_parents, readClock_parents]

theorem etype_contentset (s : Store) (v : Content) : ∀ (e : Entry), etypeOf
    { e with modifiedAt := (readClock s).1,
             data := match e.data with
                     | .file _ => .file (some v)
                     | d => d } = etypeOf e := by
  intro e
  match hd : e.data with
  | .file c => simp [etypeOf, hd]
  | .folder es => simp [etypeOf, hd]

theorem setContent_idKeyOf (s : Store) (id : String) (v : Content) (x : String) :
    idKeyOf (setContent s id v).2 x = idKeyOf s x := by
  unfold setContent
  dsimp only
  split
  · dsimp only
    rw [idKeyOf_updEntry]
    · rw [idKeyOf_updEntry]
      · unfold idKeyOf
        rw [readClock_objects]
      · intro e
        rfl
    · intro e
      rfl
  · dsimp only
    rw [idKeyOf_updEntry]
    · unfold idKeyOf
      rw [readClock_objects]
    · intro e
      rfl

theorem setContent_kindOf (s : Store) (id : String) (v : Content) (x : String) :
    kindOf (setContent s id v).2 x = kindOf s x := by
  unfold setContent
  dsimp only
  split
  · dsimp only
    rw [kindOf_updEntry]
    · rw [kindOf_updEntry]
      · unfold kindOf
        rw [readClock_objects]
      · exact etype_contentset s v
    · intro e
      rfl
  · dsimp only
    rw [kindOf_updEntry]
    · unfold kindOf
      rw [readClock_objects]
    · exact etype_contentset s v

theorem folderAdd_counter (s : Store) (fid eid : String) (ty : EType) :
    (folderAdd s fid eid ty).counter = s.counter := by
  unfold folderAdd
  dsimp only
  rw [updEntry_counter, updEntry_counter, readClock_counter]

theorem register_counter (s : Store) (e : Entry) (p : Option String) :
    (register s e p).counter = s.counter := by
  unfold register
  dsimp only
  match p with
  | some pid => rw [folderAdd_counter]
  | none => rfl

theorem isSome_updEntry (s : Store) (id : String) (f : Entry → Entry) (x : String)
    (h : (mget s.objects x).isSome) : (mget (updEntry s id f).objects x).isSome := by
  rw [mget_updEntry_objects]
  by_cases hx : x = id
  · subst hx
    rw [if_pos rfl]
    match hm : mget s.objects x with
    | some e => rfl
    | none =>
      rw [hm] at h
      simp at h
  · rw [if_neg hx]
    exact h

theorem natStr_ne_of_lt (m n : Nat) (h : m < n) : natStr m ≠ natStr n := by
  intro hc
  exact absurd (natStr_inj hc) (by omega)

theorem register_objects_other (s : Store) (e : Entry) (pid : String) (x : String)
    (hx1 : x ≠ e.id) (hx2 : x ≠ pid) :
    mget (register s e (some pid)).objects x = mget s.objects x := by
  unfold register
  dsimp only
  rw [mget_folderAdd_other _ _ _ _ _ hx2 hx1]
  dsimp only
  rw [mget_mset_ne _ _ _ _ hx1]

theorem register_objects_isSome (s : Store) (e : Entry) (pid x : String)
    (h : (mget s.objects x).isSome) :
    (mget (register s e (some pid)).objects x).isSome := by
  unfold register folderAdd
  dsimp only
  apply isSome_updEntry
  apply isSome_updEntry
  rw [readClock_objects]
  dsimp only
  by_cases hx : x = e.id
  · subst hx
    rw [mget_mset_self]
    rfl
  · rw [mget_mset_ne _ _ _ _ hx]
    exact h

theorem register_fresh_pres (s : Store) (nm : String) (d : EntryData) (pid : String)
    (hA : Acyclic s) (hFr : FreshInv s) (hpid : ∃ pe, mget s.objects pid = some pe) :
    Acyclic (register (newEntry s nm d none).2 (newEntry s nm d none).1 (some pid)) ∧
    FreshInv (register (newEntry s nm d none).2 (newEntry s nm d none).1 (some pid)) ∧
    s.counter <
      (register (newEntry s nm d none).2 (newEntry s nm d none).1 (some pid)).counter ∧
    (∀ x, (mget s.objects x).isSome →
      (mget (register (newEntry s nm d none).2 (newEntry s nm d none).1
        (some pid)).objects x).isSome) := by
  obtain ⟨pe, hpe⟩ := hpid
  obtain ⟨hid, _, _, _, _, _, hobj1, hpar1, hcnt1, _⟩ := newEntry_spec s nm d
  have hpid_not_auto : ∀ n, s.counter ≤ n → pid ≠ natStr n := by
    intro n hn hc
    rw [hc, (hFr n hn).1] at hpe
    exact Option.noConfusion hpe
  have hparents : (register (newEntry s nm d none).2 (newEntry s nm d none).1
      (some pid)).parents = mset s.parents (natStr s.counter) (some pid) := by
    rw [register_parents, hpar1, hid]
  have hcounter : (register (newEntry s nm d none).2 (newEntry s nm d none).1
      (some pid)).counter = s.counter + 1 := by
    rw [register_counter, hcnt1]
  refine ⟨acyclic_register_fresh s _ _ pid hA hFr hid hpar1
    (hpid_not_auto s.counter le_rfl), ?_, ?_, ?_⟩
  · intro n hn
    rw [hcounter] at hn
    have hne : natStr s.counter ≠ natStr n := natStr_ne_of_lt _ _ (by omega)
    have hsn : s.counter ≤ n := by omega
    refine ⟨?_, ?_, ?_⟩
    · rw [register_objects_other _ _ _ _ (by rw [hid]; exact Ne.symm hne)
        (Ne.symm (hpid_not_auto n hsn)), hobj1]
      exact (hFr n hsn).1
    · rw [hparents, mget_mset_ne _ _ _ _ (Ne.symm hne)]
      exact (hFr n hsn).2.1
    · intro k po hk
      rw [hparents] at hk
      rcases mget_mset_cases _ _ _ _ _ hk with ⟨hkk, hpo⟩ | ⟨hkk, hold⟩
      · subst hpo
        intro hc
        injection hc with hc
        exact hpid_not_auto n hsn hc
      · exact (hFr n hsn).2.2 k po hold
  · rw [hcounter]
    omega
  · intro x hx
    apply register_objects_isSome
    rw [hobj1]
    exact hx

theorem acyclic_createFile (s : Store) (nm : String) (pid : Option String)
    (ct : Option Content) (hA : Acyclic s) (hFr : FreshInv s) :
    Acyclic (createFile s nm pid ct).2 := by
  match hm : mget s.objects (pid.getD s.rootId) with
  | none =>
    have hred : (createFile s nm pid ct).2 = s := by
      unfold createFile
      dsimp only
      simp only [hm]
    rw [hred]
    exact hA
  | some p =>
    by_cases hp : etypeOf p = .folder
    · have hred : (createFile s nm pid ct).2
          = register (newEntry s nm (.file ct) none).2 (newEntry s nm (.file ct) none).1
              (some (pid.getD s.rootId)) := by
        unfold createFile
        dsimp only
        simp only [hm, if_pos hp]
      rw [hred]
      exact (register_fresh_pres s nm (.file ct) _ hA hFr ⟨p, hm⟩).1
    · have hred : (createFile s nm pid ct).2 = s := by
        unfold createFile
        dsimp only
        simp only [hm, if_neg hp]
      rw [hred]
      exact hA

theorem acyclic_createFolder (s : Store) (nm : String) (pid : Option String)
    (hA : Acyclic s) (hFr : FreshInv s) :
    Acyclic (createFolder s nm pid).2 := by
  match hm : mget s.objects (pid.getD s.rootId) with
  | none =>
    have hred : (createFolder s nm pid).2 = s := by
      unfold createFolder
      dsimp only
      simp only [hm]
    rw [hred]
    exact hA
  | some p =>
    by_cases hp : etypeOf p = .folder
    · have hred : (createFolder s nm pid).2
          = register (newEntry s nm (.folder []) none).2 (newEntry s nm (.folder []) none).1
              (some (pid.getD s.rootId)) := by
        unfold createFolder
        dsimp only
        simp only [hm, if_pos hp]
      rw [hred]
      exact (register_fresh_pres s nm (.folder []) _ hA hFr ⟨p, hm⟩).1
    · have hred : (createFolder s nm pid).2 = s := by
        unfold createFolder
        dsimp only
        simp only [hm, if_neg hp]
      rw [hred]
      exact hA

theorem acyclic_copyFile (s : Store) (id : String) (pid nm : Option String)
    (hA : Acyclic s) (hFr : FreshInv s) :
    Acyclic (copyFile s id pid nm).2 := by
  match hm : mget s.objects id with
  | none =>
    have hred : (copyFile s id pid nm).2 = s := by
      unfold copyFile
      dsimp only
      simp only [hm]
    rw [hred]
    exact hA
  | some e =>
    match hd : e.data with
    | .folder es =>
      have hred : (copyFile s id pid nm).2 = s := by
        unfold copyFile
        dsimp only
        simp only [hm, hd]
      rw [hred]
      exact hA
    | .file c =>
      match hm2 : mget s.objects (if truthyStr pid = true then pid.getD ""
          else (mget s.parents id).join.getD "") with
      | none =>
        have hred : (copyFile s id pid nm).2 = s := by
          unfold copyFile
          dsimp only
          simp only [hm, hd, hm2]
        rw [hred]
        exact hA
      | some p =>
        by_cases hp : etypeOf p = .folder
        · have hred : (copyFile s id pid nm).2
              = register
                  (newEntry s (if truthyStr nm = true then nm.getD "" else e.name)
                    (.file c) none).2
                  (newEntry s (if truthyStr nm = true then nm.getD "" else e.name)
                    (.file c) none).1
                  (some (if truthyStr pid = true then pid.getD ""
                    else (mget s.parents id).join.getD "")) := by
            unfold copyFile
            dsimp only
            simp only [hm, hd, hm2, if_pos hp]
          rw [hred]
          exact (register_fresh_pres s _ (.file c) _ hA hFr ⟨p, hm2⟩).1
        · have hred : (copyFile s id pid nm).2 = s := by
            unfold copyFile
            dsimp only
            simp only [hm, hd, hm2, if_neg hp]
          rw [hred]
          exact hA

theorem mget_mdel_subset {α : Type} (m : List (String × α)) (k x : String) (v : α)
    (h : mget (mdel m k) x = some v) : mget m x = some v := by
  by_cases hx : x = k
  · subst hx
    rw [mget_mdel_self] at h
    exact Option.noConfusion h
  · rw [mget_mdel_ne _ _ _ hx] at h
    exact h

theorem unregister_parents_subset (s : Store) (id x : String) (po : Option String)
    (h : mget (unregister s id).2.parents x = some po) : mget s.parents x = some po := by
  unfold unregister at h
  dsimp only at h
  split at h
  · dsimp only at h
    rw [folderRemove_parents] at h
    exact mget_mdel_subset _ _ _ _ h
  · exact mget_mdel_subset _ _ _ _ h

theorem deleteFile_parents_subset (s : Store) (id x : String) (po : Option String)
    (h : mget (deleteFile s id).2.parents x = some po) : mget s.parents x = some po := by
  unfold deleteFile at h
  split at h
  · exact h
  · split at h
    · exact unregister_parents_subset _ _ _ _ h
    · exact h

theorem delStep_parents_subset
    (delF : Store → String → Except JsErr Unit × Store)
    (hdelF : ∀ s c x po, mget (delF s c).2.parents x = some po →
      mget s.parents x = some po)
    (s : Store) (c : String × EType) (x : String) (po : Option String)
    (h : mget (delStep delF s c).2.parents x = some po) :
    mget s.parents x = some po := by
  unfold delStep at h
  split at h
  · exact hdelF _ _ _ _ h
  · exact deleteFile_parents_subset _ _ _ _ h

theorem delLoop_parents_subset
    (delF : Store → String → Except JsErr Unit × Store)
    (hdelF : ∀ s c x po, mget (delF s c).2.parents x = some po →
      mget s.parents x = some po) :
    ∀ (l : List (String × EType)) (s : Store) (x : String) (po : Option String),
      mget (delLoop delF s l).2.parents x = some po → mget s.parents x = some po := by
  intro l
  induction l with
  | nil =>
    intro s x po h
    exact h
  | cons c rest ih =>
    intro s x po h
    unfold delLoop at h
    split at h
    · rename_i u s1 heq
      have hs1 := congrArg Prod.snd heq
      dsimp only at hs1
      have h1 := ih s1 x po h
      rw [← hs1] at h1
      exact delStep_parents_subset delF hdelF _ _ _ _ h1
    · rename_i err s1 heq
      have hs1 := congrArg Prod.snd heq
      dsimp only at hs1
      rw [← hs1] at h
      exact delStep_parents_subset delF hdelF _ _ _ _ h

theorem deleteFolderFuel_parents_subset :
    ∀ (fuel : Nat) (s : Store) (id x : String) (po : Option String),
      mget (deleteFolderFuel fuel s id).2.parents x = some po →
      mget s.parents x = some po := by
  intro fuel
  induction fuel with
  | zero =>
    intro s id x po h
    exact h
  | succ fuel ih =>
    intro s id x po h
    unfold deleteFolderFuel at h
    split at h
    · exact h
    · split at h
      · exact h
      · rename_i e es hdata
        split at h
        · rename_i u s1 heq
          have hs1 := congrArg Prod.snd heq
          dsimp only at hs1
          have h1 := unregister_parents_subset _ _ _ _ h
          rw [← hs1] at h1
          exact delLoop_parents_subset _ (fun s c x po hh => ih s c x po hh) _ _ _ _ h1
        · rename_i err s1 heq
          have hs1 := congrArg Prod.snd heq
          dsimp only at hs1
          rw [← hs1] at h
          exact delLoop_parents_subset _ (fun s c x po hh => ih s c x po hh) _ _ _ _ h

theorem acyclic_deleteFile (s : Store) (id : String) (hA : Acyclic s) :
    Acyclic (deleteFile s id).2 :=
  acyclic_subset (pstep s) _
    (fun x y h => deleteFile_parents_subset s id x (some y) h) hA

theorem acyclic_deleteFolder (s : Store) (id : String) (hA : Acyclic s) :
    Acyclic (deleteFolder s id).2 :=
  acyclic_subset (pstep s) _
    (fun x y h => deleteFolderFuel_parents_subset _ s id x (some y) h) hA

theorem copyLoop_cons
    (copyF : Store → String → String → String → Except JsErr String × Store)
    (s : Store) (c : String × EType) (rest : List (String × EType)) (npid : String) :
    copyLoop copyF s (c :: rest) npid =
      match copyStep copyF s c.1 npid with
      | (.ok _, s') => copyLoop copyF s' rest npid
      | (.error err, s') => (.error err, s') := rfl

theorem copyStep_pres
    (copyF : Store → String → String → String → Except JsErr String × Store)
    (hcopyF : ∀ s c p n2, Acyclic s → FreshInv s →
      (∃ pe, mget s.objects p = some pe) →
      Acyclic (copyF s c p n2).2 ∧ FreshInv (copyF s c p n2).2 ∧
      s.counter ≤ (copyF s c p n2).2.counter ∧
      (∀ x, (mget s.objects x).isSome → (mget (copyF s c p n2).2.objects x).isSome))
    (s : Store) (cid npid : String)
    (hA : Acyclic s) (hFr : FreshInv s) (hp : ∃ pe, mget s.objects npid = some pe) :
    Acyclic (copyStep copyF s cid npid).2 ∧ FreshInv (copyStep copyF s cid npid).2 ∧
    s.counter ≤ (copyStep copyF s cid npid).2.counter ∧
    (∀ x, (mget s.objects x).isSome →
      (mget (copyStep copyF s cid npid).2.objects x).isSome) := by
  match hm : mget s.objects cid with
  | none =>
    have hred : (copyStep copyF s cid npid).2 = s := by
      unfold copyStep
      dsimp only
      simp only [hm]
    rw [hred]
    exact ⟨hA, hFr, le_rfl, fun x hx => hx⟩
  | some ce =>
    match hd : ce.data with
    | .file c =>
      have hred : (copyStep copyF s cid npid).2
          = register (newEntry s ce.name (.file c) none).2
              (newEntry s ce.name (.file c) none).1 (some npid) := by
        unfold copyStep
        dsimp only
        simp only [hm, hd]
      rw [hred]
      obtain ⟨h1, h2, h3, h4⟩ := register_fresh_pres s ce.name (.file c) npid hA hFr hp
      exact ⟨h1, h2, le_of_lt h3, h4⟩
    | .folder es =>
      rcases hcf : copyF s cid npid ce.name with ⟨res, s1⟩
      have hred : (copyStep copyF s cid npid).2 = s1 := by
        unfold copyStep
        dsimp only
        simp only [hm, hd, hcf]
        match res with
        | .ok _ => rfl
        | .error err => rfl
      rw [hred]
      obtain ⟨h1, h2, h3, h4⟩ := hcopyF s cid npid ce.name hA hFr hp
      rw [hcf] at h1 h2 h3 h4
      exact ⟨h1, h2, h3, h4⟩

theorem copyLoop_pres
    (copyF : Store → String → String → String → Except JsErr String × Store)
    (hcopyF : ∀ s c p n2, Acyclic s → FreshInv s →
      (∃ pe, mget s.objects p = some pe) →
      Acyclic (copyF s c p n2).2 ∧ FreshInv (copyF s c p n2).2 ∧
      s.counter ≤ (copyF s c p n2).2.counter ∧
      (∀ x, (mget s.objects x).isSome → (mget (copyF s c p n2).2.objects x).isSome)) :
    ∀ (l : List (String × EType)) (s : Store) (npid : String),
      Acyclic s → FreshInv s → (∃ pe, mget s.objects npid = some pe) →
      Acyclic (copyLoop copyF s l npid).2 ∧ FreshInv (copyLoop copyF s l npid).2 ∧
      s.counter ≤ (copyLoop copyF s l npid).2.counter ∧
      (∀ x, (mget s.objects x).isSome →
        (mget (copyLoop copyF s l npid).2.objects x).isSome) := by
  intro l
  induction l with
  | nil =>
    intro s npid hA hFr hp
    exact ⟨hA, hFr, le_rfl, fun x hx => hx⟩
  | cons c rest ih =>
    intro s npid hA hFr hp
    obtain ⟨h1, h2, h3, h4⟩ := copyStep_pres copyF hcopyF s c.1 npid hA hFr hp
    rcases hcs : copyStep copyF s c.1 npid with ⟨res, s1⟩
    rw [hcs] at h1 h2 h3 h4
    dsimp only at h1 h2 h3 h4
    obtain ⟨pe, hpe⟩ := hp
    have hp1 : ∃ pe1, mget s1.objects npid = some pe1 := by
      have := h4 npid (by rw [hpe]; rfl)
      match hm1 : mget s1.objects npid with
      | some pe1 => exact ⟨pe1, rfl⟩
      | none =>
        rw [hm1] at this
        simp at this
    match res with
    | .ok u =>
      have hred : copyLoop copyF s (c :: rest) npid = copyLoop copyF s1 rest npid := by
        rw [copyLoop_cons, hcs]
      rw [hred]
      obtain ⟨g1, g2, g3, g4⟩ := ih s1 npid h1 h2 hp1
      exact ⟨g1, g2, le_trans h3 g3, fun x hx => g4 x (h4 x hx)⟩
    | .error err =>
      have hred : copyLoop copyF s (c :: rest) npid = (.error err, s1) := by
        rw [copyLoop_cons, hcs]
      rw [hred]
      exact ⟨h1, h2, h3, h4⟩

theorem register_objects_self_isSome (s : Store) (e : Entry) (pid : String) :
    (mget (register s e (some pid)).objects e.id).isSome := by
  unfold register folderAdd
  dsimp only
  apply isSome_updEntry
  apply isSome_updEntry
  rw [readClock_objects]
  dsimp only
  rw [mget_mset_self]
  rfl

theorem copyFolderFuel_pres :
    ∀ (fuel : Nat) (s : Store) (srcId pid nm : String),
      Acyclic s → FreshInv s → (∃ pe, mget s.objects pid = some pe) →
      Acyclic (copyFolderFuel fuel s srcId pid nm).2 ∧
      FreshInv (copyFolderFuel fuel s srcId pid nm).2 ∧
      s.counter ≤ (copyFolderFuel fuel s srcId pid nm).2.counter ∧
      (∀ x, (mget s.objects x).isSome →
        (mget (copyFolderFuel fuel s srcId pid nm).2.objects x).isSome) := by
  intro fuel
  induction fuel with
  | zero =>
    intro s srcId pid nm hA hFr hp
    exact ⟨hA, hFr, le_rfl, fun x hx => hx⟩
  | succ fuel ih =>
    intro s srcId pid nm hA hFr hp
    match hm : mget s.objects srcId with
    | none =>
      have hred : (copyFolderFuel (fuel + 1) s srcId pid nm).2 = s := by
        unfold copyFolderFuel
        dsimp only
        simp only [hm]
      rw [hred]
      exact ⟨hA, hFr, le_rfl, fun x hx => hx⟩
    | some e =>
      match hd : e.data with
      | .file c =>
        have hred : (copyFolderFuel (fuel + 1) s srcId pid nm).2 = s := by
          unfold copyFolderFuel
          dsimp only
          simp only [hm, hd]
        rw [hred]
        exact ⟨hA, hFr, le_rfl, fun x hx => hx⟩
      | .folder es =>
        rcases hne : newEntry s nm (.folder []) none with ⟨f, s1⟩
        have hreg := register_fresh_pres s nm (.folder []) pid hA hFr hp
        rw [hne] at hreg
        dsimp only at hreg
        obtain ⟨hA2, hFr2, hcnt2, hmono2⟩ := hreg
        have hfsome : ∃ pe, mget (register s1 f (some pid)).objects f.id = some pe := by
          have := register_objects_self_isSome s1 f pid
          match hh : mget (register s1 f (some pid)).objects f.id with
          | some pe => exact ⟨pe, rfl⟩
          | none =>
            rw [hh] at this
            simp at this
        obtain ⟨h1, h2, h3, h4⟩ := copyLoop_pres (copyFolderFuel fuel)
          (fun s c p n2 a b c2 => ih s c p n2 a b c2)
          es (register s1 f (some pid)) f.id hA2 hFr2 hfsome
        rcases hloopr : copyLoop (copyFolderFuel fuel) (register s1 f (some pid)) es f.id
          with ⟨lres, s'⟩
        rw [hloopr] at h1 h2 h3 h4
        dsimp only at h1 h2 h3 h4
        have hred : (copyFolderFuel (fuel + 1) s srcId pid nm).2 = s' := by
          unfold copyFolderFuel
          dsimp only
          simp only [hm, hd, hne]
          simp only [hloopr]
          match lres with
          | .ok _ => rfl
          | .error err => rfl
        rw [hred]
        refine ⟨h1, h2, le_trans (le_of_lt hcnt2) h3, fun x hx => h4 x (hmono2 x hx)⟩

theorem acyclic_copyFolder (s : Store) (id : String) (pid nm : Option String)
    (hA : Acyclic s) (hFr : FreshInv s) :
    Acyclic (copyFolder s id pid nm).2 := by
  match hm : mget s.objects id with
  | none =>
    have hred : (copyFolder s id pid nm).2 = s := by
      unfold copyFolder
      dsimp only
      simp only [hm]
    rw [hred]
    exact hA
  | some e =>
    match hd : e.data with
    | .file c =>
      have hred : (copyFolder s id pid nm).2 = s := by
        unfold copyFolder
        dsimp only
        simp only [hm, hd]
      rw [hred]
      exact hA
    | .folder es =>
      match hm2 : mget s.objects (if truthyStr pid = true then pid.getD ""
          else (mget s.parents id).join.getD "") with
      | none =>
        have hred : (copyFolder s id pid nm).2 = s := by
          unfold copyFolder
          dsimp only
          simp only [hm, hd, hm2]
        rw [hred]
        exact hA
      | some p =>
        by_cases hp : etypeOf p = .folder
        · rcases hcf : copyFolderFuel (s.objects.length + 1) s id
            (if truthyStr pid = true then pid.getD ""
             else (mget s.parents id).join.getD "")
            (if truthyStr nm = true then nm.getD "" else e.name) with ⟨res, s'⟩
          have hpres := copyFolderFuel_pres (s.objects.length + 1) s id
            (if truthyStr pid = true then pid.getD ""
             else (mget s.parents id).join.getD "")
            (if truthyStr nm = true then nm.getD "" else e.name) hA hFr ⟨p, hm2⟩
          rw [hcf] at hpres
          have hred : (copyFolder s id pid nm).2 = s' := by
            unfold copyFolder
            dsimp only
            simp only [hm, hd, hm2, if_pos hp, hcf]
            match res with
            | .ok nid => rfl
            | .error err => rfl
          rw [hred]
          exact hpres.1
        · have hred : (copyFolder s id pid nm).2 = s := by
            unfold copyFolder
            dsimp only
            simp only [hm, hd, hm2, if_neg hp]
          rw [hred]
          exact hA

theorem updateFront_state (s : Store) (id : String) (nm : Option String)
    (ct : Option Content) (res : Except JsErr Unit) (s2 : Store)
    (heq : (match ct with
            | some v =>
              if contentTruthy (some v) = true then
                setContent (if truthyStr nm = true then setName s id (nm.getD "") else s) id v
              else (Except.ok (), if truthyStr nm = true then setName s id (nm.getD "") else s)
            | none =>
              (Except.ok (), if truthyStr nm = true then setName s id (nm.getD "") else s))
          = (res, s2)) :
    s2.parents = s.parents ∧ (∀ x, idKeyOf s2 x = idKeyOf s x) ∧
    (∀ x, kindOf s2 x = kindOf s x) := by
  have hS1p : (if truthyStr nm = true then setName s id (nm.getD "") else s).parents
      = s.parents := by
    by_cases ht : truthyStr nm = true
    · rw [if_pos ht, setName_parents]
    · rw [if_neg ht]
  have hS1i : ∀ x, idKeyOf (if truthyStr nm = true then setName s id (nm.getD "") else s) x
      = idKeyOf s x := by
    intro x
    by_cases ht : truthyStr nm = true
    · rw [if_pos ht, setName_idKeyOf]
    · rw [if_neg ht]
  have hS1k : ∀ x, kindOf (if truthyStr nm = true then setName s id (nm.getD "") else s) x
      = kindOf s x := by
    intro x
    by_cases ht : truthyStr nm = true
    · rw [if_pos ht, setName_kindOf]
    · rw [if_neg ht]
  split at heq
  · rename_i v
    split at heq
    · have h2 := congrArg Prod.snd heq
      dsimp only at h2
      rw [← h2]
      refine ⟨?_, ?_, ?_⟩
      · rw [setContent_parents, hS1p]
      · intro x
        rw [setContent_idKeyOf, hS1i x]
      · intro x
        rw [setContent_kindOf, hS1k x]
    · injection heq with h1 h2
      rw [← h2]
      exact ⟨hS1p, hS1i, hS1k⟩
  · injection heq with h1 h2
    rw [← h2]
    exact ⟨hS1p, hS1i, hS1k⟩

theorem acyclic_updateFile (s : Store) (id : String) (nm : Option String)
    (ct : Option Content) (pid : Option String)
    (hA : Acyclic s)
    (hfolders : ∀ x y, pstep s x y → kindOf s y = some EType.folder)
    (hcoh : ∀ e, mget s.objects id = some e → e.id = id) :
    Acyclic (updateFile s id nm ct pid).2 := by
  match hm : mget s.objects id with
  | none =>
    have hred : (updateFile s id nm ct pid).2 = s := by
      unfold updateFile
      dsimp only
      simp only [hm]
    rw [hred]
    exact hA
  | some e =>
    by_cases hty : etypeOf e = .file
    · have hkid : kindOf s id = some EType.file := by
        unfold kindOf
        rw [hm]
        simp [hty]
      unfold updateFile
      dsimp only
      simp only [hm]
      rw [if_pos hty]
      split
      · rename_i err s2 heq
        obtain ⟨hp2, hi2, hk2⟩ := updateFront_state s id nm ct _ s2 heq
        exact acyclic_parents_eq s s2 hp2 hA
      · rename_i u s2 heq
        obtain ⟨hp2, hi2, hk2⟩ := updateFront_state s id nm ct _ s2 heq
        by_cases hpt : truthyStr pid = true
        · rw [if_pos hpt]
          have hnp : kindOf s (pid.getD "") = some EType.folder →
              ¬ Relation.ReflTransGen (pstep s) (pid.getD "") id := by
            intro hk h
            rcases Relation.ReflTransGen.cases_tail h with heq0 | ⟨c, hrest, hstep⟩
            · rw [← heq0] at hk
              rw [hkid] at hk
              simp at hk
            · have hkc := hfolders c id hstep
              rw [hkid] at hkc
              simp at hkc
          split
          · rename_i a s3 heq2
            dsimp only
            have hs3 := congrArg Prod.snd heq2
            dsimp only at hs3
            rw [← hs3]
            exact acyclic_moveToParent s s2 id (pid.getD "") hp2 hi2 hk2 hA hcoh hnp
          · rename_i err s3 heq2
            dsimp only
            have hs3 := congrArg Prod.snd heq2
            dsimp only at hs3
            rw [← hs3]
            exact acyclic_moveToParent s s2 id (pid.getD "") hp2 hi2 hk2 hA hcoh hnp
        · rw [if_neg hpt]
          exact acyclic_parents_eq s s2 hp2 hA
    · have hred : (updateFile s id nm ct pid).2 = s := by
        unfold updateFile
        dsimp only
        simp only [hm]
        rw [if_neg hty]
      rw [hred]
      exact hA

theorem acyclic_updateFolder (s : Store) (id : String) (nm pid : Option String)
    (hA : Acyclic s)
    (hcoh : ∀ e, mget s.objects id = some e → e.id = id)
    (hmove : ¬ Relation.ReflTransGen (pstep s) (pid.getD "") id) :
    Acyclic (updateFolder s id nm pid).2 := by
  match hm : mget s.objects id with
  | none =>
    have hred : (updateFolder s id nm pid).2 = s := by
      unfold updateFolder
      dsimp only
      simp only [hm]
    rw [hred]
    exact hA
  | some e =>
    by_cases hty : etypeOf e = .folder
    · have hS1p : (if truthyStr nm = true then setName s id (nm.getD "") else s).parents
          = s.parents := by
        by_cases ht : truthyStr nm = true
        · rw [if_pos ht, setName_parents]
        · rw [if_neg ht]
      have hS1i : ∀ x,
          idKeyOf (if truthyStr nm = true then setName s id (nm.getD "") else s) x
          = idKeyOf s x := by
        intro x
        by_cases ht : truthyStr nm = true
        · rw [if_pos ht, setName_idKeyOf]
        · rw [if_neg ht]
      have hS1k : ∀ x,
          kindOf (if truthyStr nm = true then setName s id (nm.getD "") else s) x
          = kindOf s x := by
        intro x
        by_cases ht : truthyStr nm = true
        · rw [if_pos ht, setName_kindOf]
        · rw [if_neg ht]
      unfold updateFolder
      dsimp only
      simp only [hm]
      rw [if_pos hty]
      by_cases hpt : truthyStr pid = true
      · rw [if_pos hpt]
        split
        · rename_i a s3 heq2
          dsimp only
          have hs3 := congrArg Prod.snd heq2
          dsimp only at hs3
          rw [← hs3]
          exact acyclic_moveToParent s _ id (pid.getD "") hS1p hS1i hS1k hA hcoh
            (fun _ => hmove)
        · rename_i err s3 heq2
          dsimp only
          have hs3 := congrArg Prod.snd heq2
          dsimp only at hs3
          rw [← hs3]
          exact acyclic_moveToParent s _ id (pid.getD "") hS1p hS1i hS1k hA hcoh
            (fun _ => hmove)
      · rw [if_neg hpt]
        exact acyclic_parents_eq s _ hS1p hA
    · have hred : (updateFolder s id nm pid).2 = s := by
        unfold updateFolder
        dsimp only
        simp only [hm]
        rw [if_neg hty]
      rw [hred]
      exact hA

theorem mget_mem {α : Type} (l : List (String × α)) (k : String) (v : α)
    (h : mget l k = some v) : (k, v) ∈ l := by
  induction l with
  | nil => simp [mget] at h
  | cons p rest ih =>
    rcases p with ⟨k', v'⟩
    simp only [mget] at h
    by_cases hk : k' = k
    · rw [if_pos hk] at h
      injection h with h
      rw [← h, hk]
      exact List.mem_cons_self _ _
    · rw [if_neg hk] at h
      exact List.mem_cons_of_mem _ (ih h)

theorem heightAcyclic (s : Store) (f : String → Nat)
    (hdec : ∀ a b, pstep s a b → f b < f a) : Acyclic s := by
  have hT : ∀ a b, Relation.TransGen (pstep s) a b → f b < f a := by
    intro a b h
    induction h with
    | single h1 => exact hdec _ _ h1
    | tail hab hbc ih => exact (hdec _ _ hbc).trans ih
  intro x hx
  exact absurd (hT x x hx) (lt_irrefl _)

/-- C2: The mutating operations preserve acyclicity of the parent relation —
createFile, createFolder, updateFile, deleteFile, deleteFolder, copyFile and
copyFolder unconditionally (given the store invariants that ids are fresh,
parent pointers target folders, and entries carry their own key as id), but
updateFolder only under the extra hypothesis that the requested parent is not
the moved folder itself or one of its descendants: the code performs no such
descendant check, so without that hypothesis a successful move creates a cycle
(see the counterexample). -/
theorem c2_acyclic_preserved (s : Store)
    (hA : Acyclic s) (hFr : FreshInv s)
    (hfolders : ∀ x y, pstep s x y → kindOf s y = some EType.folder)
    (hcoh : ∀ id e, mget s.objects id = some e → e.id = id) :
    (∀ nm pid ct, Acyclic (createFile s nm pid ct).2) ∧
    (∀ nm pid, Acyclic (createFolder s nm pid).2) ∧
    (∀ id nm ct pid, Acyclic (updateFile s id nm ct pid).2) ∧
    (∀ id, Acyclic (deleteFile s id).2) ∧
    (∀ id, Acyclic (deleteFolder s id).2) ∧
    (∀ id pid nm, Acyclic (copyFile s id pid nm).2) ∧
    (∀ id pid nm, Acyclic (copyFolder s id pid nm).2) ∧
    (∀ id nm pid, ¬ Relation.ReflTransGen (pstep s) (pid.getD "") id →
      Acyclic (updateFolder s id nm pid).2) := by
  refine ⟨?_, ?_, ?_, ?_, ?_, ?_, ?_, ?_⟩
  · intro nm pid ct
    exact acyclic_createFile s nm pid ct hA hFr
  · intro nm pid
    exact acyclic_createFolder s nm pid hA hFr
  · intro id nm ct pid
    exact acyclic_updateFile s id nm ct pid hA hfolders (fun e => hcoh id e)
  · intro id
    exact acyclic_deleteFile s id hA
  · intro id
    exact acyclic_deleteFolder s id hA
  · intro id pid nm
    exact acyclic_copyFile s id pid nm hA hFr
  · intro id pid nm
    exact acyclic_copyFolder s id pid nm hA hFr
  · intro id nm pid hmove
    exact acyclic_updateFolder s id nm pid hA (fun e => hcoh id e) hmove

/-- Folder "A" (id "1") under the root "0". -/
def c2S1 : Store := (createFolder fxRoot "A" none).2

/-- Folder "B" (id "2") under "A". -/
def c2S2 : Store := (createFolder c2S1 "B" (some "1")).2

/-- C2 counterexample: `updateFolder("1", {parentId: "2"})` moves folder "A"
under its own child "B" without raising, after which "1" is a proper ancestor
of itself — the parent relation has a cycle "1" → "2" → "1". -/
theorem c2_counterexample :
    (updateFolder c2S2 "1" none (some "2")).1.toOption.isSome = true ∧
    Relation.TransGen (pstep (updateFolder c2S2 "1" none (some "2")).2) "1" "1" := by
  constructor
  · decide
  · have h1 : pstep (updateFolder c2S2 "1" none (some "2")).2 "1" "2" := by decide
    have h2 : pstep (updateFolder c2S2 "1" none (some "2")).2 "2" "1" := by decide
    exact Relation.TransGen.head h1 (Relation.TransGen.single h2)

theorem c2_witness :
    Acyclic (createFile fxMove "w.txt" none none).2 ∧
    Acyclic (updateFolder fxMove "2" none (some "0")).2 := by
  have hA : Acyclic fxMove := by
    refine heightAcyclic fxMove (fun x => if x = "0" then 0 else 1) ?_
    intro a b hs
    have hm := mget_mem _ _ _ hs
    have hall : ∀ p ∈ fxMove.parents, ∀ y, p.2 = some y →
        (if y = "0" then 0 else 1) < (if p.1 = "0" then 0 else 1) := by decide
    exact hall _ hm b rfl
  have hFr : FreshInv fxMove := by
    intro n hn
    have hc : fxMove.counter = 3 := by decide
    rw [hc] at hn
    have hinj : ∀ k : Nat, natStr n = natStr k → n = k := fun k h => natStr_inj h
    have hne0 : natStr n ≠ "0" := by
      intro h
      have := hinj 0 (h.trans (by decide : ("0" : String) = natStr 0))
      omega
    have hne1 : natStr n ≠ "1" := by
      intro h
      have := hinj 1 (h.trans (by decide : ("1" : String) = natStr 1))
      omega
    have hne2 : natStr n ≠ "2" := by
      intro h
      have := hinj 2 (h.trans (by decide : ("2" : String) = natStr 2))
      omega
    refine ⟨?_, ?_, ?_⟩
    · match hg : mget fxMove.objects (natStr n) with
      | none => rfl
      | some v =>
        have hm := mget_mem _ _ _ hg
        have hkeys : ∀ p ∈ fxMove.objects, p.1 = "0" ∨ p.1 = "1" ∨ p.1 = "2" := by
          decide
        rcases hkeys _ hm with h | h | h
        · exact absurd h hne0
        · exact absurd h hne1
        · exact absurd h hne2
    · match hg : mget fxMove.parents (natStr n) with
      | none => rfl
      | some v =>
        have hm := mget_mem _ _ _ hg
        have hkeys : ∀ p ∈ fxMove.parents, p.1 = "0" ∨ p.1 = "1" ∨ p.1 = "2" := by
          decide
        rcases hkeys _ hm with h | h | h
        · exact absurd h hne0
        · exact absurd h hne1
        · exact absurd h hne2
    · intro k po hpk hcontra
      have hm := mget_mem _ _ _ hpk
      have hvals : ∀ p ∈ fxMove.parents, p.2 = none ∨ p.2 = some "0" := by decide
      rcases hvals _ hm with h | h
      · rw [hcontra] at h
        exact Option.noConfusion h
      · rw [hcontra] at h
        injection h with h
        exact absurd h hne0
  have hfolders : ∀ x y, pstep fxMove x y → kindOf fxMove y = some EType.folder := by
    intro x y hs
    have hm := mget_mem _ _ _ hs
    have hall : ∀ p ∈ fxMove.parents, ∀ y, p.2 = some y →
        kindOf fxMove y = some EType.folder := by decide
    exact hall _ hm y rfl
  have hcoh : ∀ id e, mget fxMove.objects id = some e → e.id = id := by
    intro id e h
    have hm := mget_mem _ _ _ h
    have hall : ∀ p ∈ fxMove.objects, p.2.id = p.1 := by decide
    exact hall _ hm
  have H := c2_acyclic_preserved fxMove hA hFr hfolders hcoh
  refine ⟨H.1 "w.txt" none none, ?_⟩
  refine H.2.2.2.2.2.2.2 "2" none (some "0") ?_
  intro h
  rcases Relation.ReflTransGen.cases_head h with heq | ⟨c, hstep, hrest⟩
  · exact absurd heq (by decide)
  · unfold pstep at hstep
    have hv : mget fxMove.parents ((some "0").getD "") = some none := by decide
    rw [hv] at hstep
    injection hstep with hstep
    exact Option.noConfusion hstep

theorem flatMap_congr_of_mem {α β : Type} (l : List α) (f g : α → List β)
    (h : ∀ a ∈ l, f a = g a) : l.flatMap f = l.flatMap g := by
  induction l with
  | nil => rfl
  | cons a rest ih =>
    simp only [List.flatMap_cons]
    rw [h a (List.mem_cons_self a rest),
      ih (fun b hb => h b (List.mem_cons_of_mem a hb))]

theorem all_congr_of_mem {α : Type} (l : List α) (f g : α → Bool)
    (h : ∀ a ∈ l, f a = g a) : l.all f = l.all g := by
  induction l with
  | nil => rfl
  | cons a rest ih =>
    simp only [List.all_cons]
    rw [h a (List.mem_cons_self a rest),
      ih (fun b hb => h b (List.mem_cons_of_mem a hb))]

theorem flatMap_nodup_parts {α β : Type} (l : List α) (f : α → List β)
    (h : (l.flatMap f).Nodup) :
    (∀ a ∈ l, (f a).Nodup) ∧
    List.Pairwise (fun a b => ∀ x ∈ f a, x ∉ f b) l := by
  induction l with
  | nil => exact ⟨fun a ha => absurd ha (List.not_mem_nil a), List.Pairwise.nil⟩
  | cons a rest ih =>
    simp only [List.flatMap_cons] at h
    rw [List.nodup_append] at h
    obtain ⟨h1, h2, h3⟩ := h
    obtain ⟨ih1, ih2⟩ := ih h2
    refine ⟨?_, ?_⟩
    · intro b hb
      rcases List.mem_cons.mp hb with hb | hb
      · rw [hb]
        exact h1
      · exact ih1 b hb
    · refine List.Pairwise.cons ?_ ih2
      intro b hb x hx hxb
      exact h3 hx (List.mem_flatMap.mpr ⟨b, hb, hxb⟩)

theorem self_mem_subtreeIds (fuel : Nat) (s : Store) (c : String) :
    c ∈ subtreeIds fuel s c := by
  cases fuel with
  | zero => simp [subtreeIds]
  | succ n => simp [subtreeIds]

theorem mem_subtree_of_child (fuel : Nat) (s : Store) (id : String) (e : Entry)
    (es : List (String × EType)) (hm : mget s.objects id = some e)
    (hd : e.data = .folder es) (p : String × EType) (hp : p ∈ es)
    (x : String) (hx : x ∈ subtreeIds fuel s p.1) :
    x ∈ subtreeIds (fuel + 1) s id := by
  simp only [subtreeIds, hm, hd]
  exact List.mem_cons_of_mem _ (List.mem_flatMap.mpr ⟨p, hp, hx⟩)

theorem subtree_stable (fuel : Nat) : ∀ (s s' : Store) (id : String),
    (∀ x ∈ subtreeIds fuel s id,
      mget s'.objects x = mget s.objects x ∧ mget s'.parents x = mget s.parents x) →
    subtreeIds fuel s' id = subtreeIds fuel s id ∧
    wfTree fuel s' id = wfTree fuel s id := by
  induction fuel with
  | zero =>
    intro s s' id h
    exact ⟨rfl, rfl⟩
  | succ n ih =>
    intro s s' id h
    have hid := h id (self_mem_subtreeIds (n + 1) s id)
    match hm : mget s.objects id with
    | none =>
      have hm' : mget s'.objects id = none := by rw [hid.1, hm]
      constructor
      · simp only [subtreeIds, hm, hm']
      · simp only [wfTree, hm, hm']
    | some e =>
      have hm' : mget s'.objects id = some e := by rw [hid.1, hm]
      match hd : e.data with
      | .file cc =>
        constructor
        · simp only [subtreeIds, hm, hm', hd]
        · simp only [wfTree, hm, hm', hd]
      | .folder es =>
        have hch : ∀ p ∈ es, ∀ x ∈ subtreeIds n s p.1,
            mget s'.objects x = mget s.objects x ∧
            mget s'.parents x = mget s.parents x := by
          intro p hp x hx
          exact h x (mem_subtree_of_child n s id e es hm hd p hp x hx)
        constructor
        · simp only [subtreeIds, hm, hm', hd]
          congr 1
          refine flatMap_congr_of_mem es _ _ ?_
          intro p hp
          exact (ih s s' p.1 (hch p hp)).1
        · simp only [wfTree, hm, hm', hd]
          refine all_congr_of_mem es _ _ ?_
          intro p hp
          have hpx := h p.1 (mem_subtree_of_child n s id e es hm hd p hp p.1
            (self_mem_subtreeIds n s p.1))
          rw [hpx.1, hpx.2, (ih s s' p.1 (hch p hp)).2]

/-- One node of the deletion recursion: folders go through
`deleteFolderFuel`, files through `deleteFile` (the dispatch performed by
the loop body on the snapshot's recorded kind). -/
def delNode (fuel : Nat) (s : Store) (c : String) (ty : EType) :
    Except JsErr Unit × Store :=
  match ty with
  | .folder => deleteFolderFuel fuel s c
  | .file => deleteFile s c

theorem delStep_eq_delNode (fuel : Nat) (s : Store) (p : String × EType) :
    delStep (deleteFolderFuel fuel) s p = delNode fuel s p.1 p.2 := by
  rcases p with ⟨c, ty⟩
  cases ty <;> rfl

theorem mget_mdel_none {α : Type} (m : List (String × α)) (k x : String)
    (h : mget m x = none) : mget (mdel m k) x = none := by
  by_cases hx : x = k
  · rw [hx]
    exact mget_mdel_self m k
  · rw [mget_mdel_ne m k x hx]
    exact h

theorem updEntry_objects_none (s : Store) (id : String) (f : Entry → Entry)
    (x : String) (h : mget s.objects x = none) :
    mget (updEntry s id f).objects x = none := by
  rw [mget_updEntry_objects]
  by_cases hx : x = id
  · rw [if_pos hx, ← hx, h]
    rfl
  · rw [if_neg hx]
    exact h

theorem folderRemove_objects_none (s : Store) (fid eid x : String)
    (h : mget s.objects x = none) :
    mget (folderRemove s fid eid).objects x = none := by
  unfold folderRemove
  dsimp only
  apply updEntry_objects_none
  apply updEntry_objects_none
  rw [readClock_objects]
  exact h

theorem deleteFile_clean (s : Store) (c : String) (e : Entry) (pp : String)
    (hm : mget s.objects c = some e) (hty : etypeOf e = .file)
    (hpar : mget s.parents c = some (some pp)) (hppne : pp ≠ c) :
    (deleteFile s c).1 = Except.ok () ∧
    mget (deleteFile s c).2.objects c = none ∧
    mget (deleteFile s c).2.parents c = none ∧
    (∀ x, x ≠ c → mget (deleteFile s c).2.parents x = mget s.parents x) ∧
    (∀ x, x ≠ c → x ≠ pp → mget (deleteFile s c).2.objects x = mget s.objects x) ∧
    (∀ x, mget s.objects x = none → mget (deleteFile s c).2.objects x = none) := by
  have hred : deleteFile s c = (Except.ok (), folderRemove
      { s with parents := mdel s.parents c, objects := mdel s.objects c } pp c) := by
    unfold deleteFile unregister
    dsimp only
    simp only [hm]
    rw [if_pos hty]
    simp only [hpar]
  rw [hred]
  refine ⟨rfl, ?_, ?_, ?_, ?_, ?_⟩
  · rw [mget_folderRemove_entry _ _ _ (Ne.symm hppne)]
    dsimp only
    rw [mget_mdel_self]
    rfl
  · rw [folderRemove_parents]
    dsimp only
    exact mget_mdel_self _ _
  · intro x hx
    rw [folderRemove_parents]
    dsimp only
    exact mget_mdel_ne _ _ _ hx
  · intro x hxc hxpp
    rw [mget_folderRemove_other _ _ _ _ hxpp hxc]
    dsimp only
    exact mget_mdel_ne _ _ _ hxc
  · intro x hx
    apply folderRemove_objects_none
    dsimp only
    exact mget_mdel_none _ _ _ hx

/-- The full effect of deleting one node at sufficient fuel in a
well-formed, duplicate-free subtree whose parent lies outside it: the call
succeeds, every subtree id disappears from both maps, keys outside the
subtree are untouched (except the parent folder's own entry data), and no
absent key reappears. -/
def DelNodeSpec (fuel : Nat) : Prop :=
  ∀ (s : Store) (c : String) (ty : EType) (pp : String),
    wfTree fuel s c = true →
    kindOf s c = some ty →
    (subtreeIds fuel s c).Nodup →
    mget s.parents c = some (some pp) →
    pp ∉ subtreeIds fuel s c →
    (delNode fuel s c ty).1 = Except.ok () ∧
    (∀ x ∈ subtreeIds fuel s c,
      mget (delNode fuel s c ty).2.objects x = none ∧
      mget (delNode fuel s c ty).2.parents x = none) ∧
    (∀ x, x ∉ subtreeIds fuel s c →
      mget (delNode fuel s c ty).2.parents x = mget s.parents x) ∧
    (∀ x, x ∉ subtreeIds fuel s c → x ≠ pp →
      mget (delNode fuel s c ty).2.objects x = mget s.objects x) ∧
    (∀ x, mget s.objects x = none → mget (delNode fuel s c ty).2.objects x = none)

theorem delLoop_removes (fuel : Nat) (IH : DelNodeSpec fuel) :
    ∀ (es : List (String × EType)) (s : Store) (pp : String),
    (∀ p ∈ es, wfTree fuel s p.1 = true ∧ kindOf s p.1 = some p.2 ∧
      (subtreeIds fuel s p.1).Nodup ∧ mget s.parents p.1 = some (some pp) ∧
      pp ∉ subtreeIds fuel s p.1) →
    List.Pairwise (fun p q => ∀ x, x ∈ subtreeIds fuel s p.1 →
      x ∉ subtreeIds fuel s q.1) es →
    (delLoop (deleteFolderFuel fuel) s es).1 = Except.ok () ∧
    (∀ x, (∃ p ∈ es, x ∈ subtreeIds fuel s p.1) →
      mget (delLoop (deleteFolderFuel fuel) s es).2.objects x = none ∧
      mget (delLoop (deleteFolderFuel fuel) s es).2.parents x = none) ∧
    (∀ x, (∀ p ∈ es, x ∉ subtreeIds fuel s p.1) →
      mget (delLoop (deleteFolderFuel fuel) s es).2.parents x = mget s.parents x) ∧
    (∀ x, (∀ p ∈ es, x ∉ subtreeIds fuel s p.1) → x ≠ pp →
      mget (delLoop (deleteFolderFuel fuel) s es).2.objects x = mget s.objects x) ∧
    (∀ x, mget s.objects x = none →
      mget (delLoop (deleteFolderFuel fuel) s es).2.objects x = none) := by
  intro es
  induction es with
  | nil =>
    intro s pp hch hpw
    refine ⟨rfl, ?_, ?_, ?_, ?_⟩
    · intro x hx
      rcases hx with ⟨p, hp, _⟩
      exact absurd hp (List.not_mem_nil p)
    · intro x hx
      rfl
    · intro x hx hxp
      rfl
    · intro x h
      exact h
  | cons p rest ihes =>
    intro s pp hch hpw
    obtain ⟨hwf, hkind, hnd, hpar, hppn⟩ := hch p (List.mem_cons_self _ _)
    have hstep := IH s p.1 p.2 pp hwf hkind hnd hpar hppn
    rcases hsn : delNode fuel s p.1 p.2 with ⟨r1, s1⟩
    rw [hsn] at hstep
    obtain ⟨hok1, hdel1, hpfr1, hofr1, hnone1⟩ := hstep
    have hok : r1 = Except.ok () := hok1
    have hdel : ∀ x ∈ subtreeIds fuel s p.1,
        mget s1.objects x = none ∧ mget s1.parents x = none := hdel1
    have hpfr : ∀ x, x ∉ subtreeIds fuel s p.1 →
        mget s1.parents x = mget s.parents x := hpfr1
    have hofr : ∀ x, x ∉ subtreeIds fuel s p.1 → x ≠ pp →
        mget s1.objects x = mget s.objects x := hofr1
    have hnone : ∀ x, mget s.objects x = none → mget s1.objects x = none := hnone1
    cases hpw with
    | cons hhd htl =>
      have hloop_red : delLoop (deleteFolderFuel fuel) s (p :: rest) =
          delLoop (deleteFolderFuel fuel) s1 rest := by
        simp only [delLoop]
        rw [delStep_eq_delNode, hsn, hok]
      have hsame : ∀ q ∈ rest, ∀ x ∈ subtreeIds fuel s q.1,
          mget s1.objects x = mget s.objects x ∧
          mget s1.parents x = mget s.parents x := by
        intro q hq x hx
        have hxp : x ∉ subtreeIds fuel s p.1 := by
          intro hxp
          exact hhd q hq x hxp hx
        have hxpp : x ≠ pp := by
          intro hxe
          rw [hxe] at hx
          exact (hch q (List.mem_cons_of_mem p hq)).2.2.2.2 hx
        exact ⟨hofr x hxp hxpp, hpfr x hxp⟩
      have hsub_eq : ∀ q ∈ rest, subtreeIds fuel s1 q.1 = subtreeIds fuel s q.1 ∧
          wfTree fuel s1 q.1 = wfTree fuel s q.1 := by
        intro q hq
        exact subtree_stable fuel s s1 q.1 (hsame q hq)
      have hch' : ∀ q ∈ rest, wfTree fuel s1 q.1 = true ∧ kindOf s1 q.1 = some q.2 ∧
          (subtreeIds fuel s1 q.1).Nodup ∧ mget s1.parents q.1 = some (some pp) ∧
          pp ∉ subtreeIds fuel s1 q.1 := by
        intro q hq
        obtain ⟨hw, hk, hn, hp2, hpn⟩ := hch q (List.mem_cons_of_mem p hq)
        have hqs := hsame q hq q.1 (self_mem_subtreeIds fuel s q.1)
        refine ⟨?_, ?_, ?_, ?_, ?_⟩
        · rw [(hsub_eq q hq).2]
          exact hw
        · unfold kindOf
          rw [hqs.1]
          exact hk
        · rw [(hsub_eq q hq).1]
          exact hn
        · rw [hqs.2]
          exact hp2
        · rw [(hsub_eq q hq).1]
          exact hpn
      have hpw' : List.Pairwise (fun a b => ∀ x, x ∈ subtreeIds fuel s1 a.1 →
          x ∉ subtreeIds fuel s1 b.1) rest := by
        refine List.Pairwise.imp_of_mem ?_ htl
        intro a b ha hb hr x hx
        rw [(hsub_eq a ha).1] at hx
        rw [(hsub_eq b hb).1]
        exact hr x hx
      obtain ⟨rok, rdel, rpfr, rofr, rnone⟩ := ihes s1 pp hch' hpw'
      rw [hloop_red]
      refine ⟨rok, ?_, ?_, ?_, ?_⟩
      · intro x hx
        rcases hx with ⟨q, hq, hxq⟩
        rcases List.mem_cons.mp hq with hq1 | hq1
        · rw [hq1] at hxq
          have h1 := hdel x hxq
          by_cases hall : ∀ q' ∈ rest, x ∉ subtreeIds fuel s1 q'.1
          · constructor
            · exact rnone x h1.1
            · rw [rpfr x hall]
              exact h1.2
          · push_neg at hall
            rcases hall with ⟨q', hq', hxq'⟩
            exact rdel x ⟨q', hq', hxq'⟩
        · refine rdel x ⟨q, hq1, ?_⟩
          rw [(hsub_eq q hq1).1]
          exact hxq
      · intro x hx
        have hxp : x ∉ subtreeIds fuel s p.1 := hx p (List.mem_cons_self _ _)
        have hxr : ∀ q ∈ rest, x ∉ subtreeIds fuel s1 q.1 := by
          intro q hq
          rw [(hsub_eq q hq).1]
          exact hx q (List.mem_cons_of_mem p hq)
        rw [rpfr x hxr]
        exact hpfr x hxp
      · intro x hx hxpp
        have hxp : x ∉ subtreeIds fuel s p.1 := hx p (List.mem_cons_self _ _)
        have hxr : ∀ q ∈ rest, x ∉ subtreeIds fuel s1 q.1 := by
          intro q hq
          rw [(hsub_eq q hq).1]
          exact hx q (List.mem_cons_of_mem p hq)
        rw [rofr x hxr hxpp]
        exact hofr x hxp hxpp
      · intro x hx
        exact rnone x (hnone x hx)

theorem delNode_removes (fuel : Nat) : DelNodeSpec fuel := by
  induction fuel with
  | zero =>
    intro s c ty pp hwf hkind hnd hpar hppn
    simp only [wfTree] at hwf
    exact Bool.noConfusion hwf
  | succ n ih =>
    intro s c ty pp hwf hkind hnd hpar hppn
    match hm : mget s.objects c with
    | none =>
      simp only [wfTree, hm] at hwf
      exact Bool.noConfusion hwf
    | some e =>
      have hty : etypeOf e = ty := by
        unfold kindOf at hkind
        rw [hm] at hkind
        simpa using hkind
      match hd : e.data with
      | .file cc =>
        have hte : etypeOf e = EType.file := by simp [etypeOf, hd]
        have hsub : subtreeIds (n + 1) s c = [c] := by simp [subtreeIds, hm, hd]
        have hppne : pp ≠ c := by
          rw [hsub] at hppn
          simpa using hppn
        obtain ⟨h1, h2, h3, h4, h5, h6⟩ := deleteFile_clean s c e pp hm hte hpar hppne
        have hdn : delNode (n + 1) s c ty = deleteFile s c := by
          rw [← hty, hte]
          rfl
        rw [hdn, hsub]
        refine ⟨h1, ?_, ?_, ?_, h6⟩
        · intro x hx
          have hxc : x = c := by simpa using hx
          rw [hxc]
          exact ⟨h2, h3⟩
        · intro x hx
          exact h4 x (by simpa using hx)
        · intro x hx hxpp
          exact h5 x (by simpa using hx) hxpp
      | .folder es =>
        have hte : etypeOf e = EType.folder := by simp [etypeOf, hd]
        have htyf : ty = EType.folder := by rw [← hty, hte]
        subst htyf
        have hsub : subtreeIds (n + 1) s c =
            c :: es.flatMap (fun p => subtreeIds n s p.1) := by
          simp only [subtreeIds, hm, hd]
        rw [hsub] at hnd hppn
        have hcn : c ∉ es.flatMap (fun p => subtreeIds n s p.1) :=
          (List.nodup_cons.mp hnd).1
        obtain ⟨hparts, hpairw⟩ :=
          flatMap_nodup_parts es _ (List.nodup_cons.mp hnd).2
        have hppc : pp ≠ c := by
          intro h
          exact hppn (by rw [h]; exact List.mem_cons_self _ _)
        have hwf' := hwf
        simp only [wfTree, hm, hd] at hwf'
        rw [List.all_eq_true] at hwf'
        have hch : ∀ p ∈ es, wfTree n s p.1 = true ∧ kindOf s p.1 = some p.2 ∧
            (subtreeIds n s p.1).Nodup ∧ mget s.parents p.1 = some (some c) ∧
            c ∉ subtreeIds n s p.1 := by
          intro p hp
          have h0 := hwf' p hp
          rw [Bool.and_eq_true, Bool.and_eq_true] at h0
          obtain ⟨⟨hA, hB⟩, hC⟩ := h0
          refine ⟨hC, ?_, hparts p hp, of_decide_eq_true hB, ?_⟩
          · match hmp : mget s.objects p.1 with
            | none =>
              rw [hmp] at hA
              exact Bool.noConfusion hA
            | some ch =>
              rw [hmp] at hA
              rw [Bool.and_eq_true] at hA
              unfold kindOf
              rw [hmp]
              simp [of_decide_eq_true hA.1]
          · intro hcm
            exact hcn (List.mem_flatMap.mpr ⟨p, hp, hcm⟩)
        obtain ⟨lok, ldel, lpfr, lofr, lnone⟩ := delLoop_removes n ih es s c hch hpairw
        rcases hlr : delLoop (deleteFolderFuel n) s es with ⟨rl, sl⟩
        rw [hlr] at lok ldel lpfr lofr lnone
        have lok' : rl = Except.ok () := lok
        have ldel' : ∀ x, (∃ p ∈ es, x ∈ subtreeIds n s p.1) →
            mget sl.objects x = none ∧ mget sl.parents x = none := ldel
        have lpfr' : ∀ x, (∀ p ∈ es, x ∉ subtreeIds n s p.1) →
            mget sl.parents x = mget s.parents x := lpfr
        have lofr' : ∀ x, (∀ p ∈ es, x ∉ subtreeIds n s p.1) → x ≠ c →
            mget sl.objects x = mget s.objects x := lofr
        have lnone' : ∀ x, mget s.objects x = none → mget sl.objects x = none := lnone
        have hcall : ∀ p ∈ es, c ∉ subtreeIds n s p.1 := by
          intro p hp hcm
          exact hcn (List.mem_flatMap.mpr ⟨p, hp, hcm⟩)
        have hparl : mget sl.parents c = some (some pp) := by
          rw [lpfr' c hcall]
          exact hpar
        have hred : delNode (n + 1) s c EType.folder = (Except.ok (), folderRemove
            { sl with parents := mdel sl.parents c, objects := mdel sl.objects c }
            pp c) := by
          show deleteFolderFuel (n + 1) s c = _
          unfold deleteFolderFuel unregister
          dsimp only
          simp only [hm, hd, hlr, lok', hparl]
        rw [hred, hsub]
        refine ⟨rfl, ?_, ?_, ?_, ?_⟩
        · intro x hx
          rcases List.mem_cons.mp hx with hx1 | hx1
          · rw [hx1]
            constructor
            · rw [mget_folderRemove_entry _ _ _ (Ne.symm hppc)]
              dsimp only
              rw [mget_mdel_self]
              rfl
            · rw [folderRemove_parents]
              dsimp only
              exact mget_mdel_self _ _
          · rcases List.mem_flatMap.mp hx1 with ⟨p, hp, hxp⟩
            have h1 := ldel' x ⟨p, hp, hxp⟩
            constructor
            · apply folderRemove_objects_none
              dsimp only
              exact mget_mdel_none _ _ _ h1.1
            · rw [folderRemove_parents]
              dsimp only
              exact mget_mdel_none _ _ _ h1.2
        · intro x hx
          have hxc : x ≠ c := fun h => hx (by rw [h]; exact List.mem_cons_self _ _)
          have hxf : ∀ p ∈ es, x ∉ subtreeIds n s p.1 := by
            intro p hp hxp
            exact hx (List.mem_cons_of_mem _ (List.mem_flatMap.mpr ⟨p, hp, hxp⟩))
          rw [folderRemove_parents]
          dsimp only
          rw [mget_mdel_ne _ _ _ hxc]
          exact lpfr' x hxf
        · intro x hx hxpp
          have hxc : x ≠ c := fun h => hx (by rw [h]; exact List.mem_cons_self _ _)
          have hxf : ∀ p ∈ es, x ∉ subtreeIds n s p.1 := by
            intro p hp hxp
            exact hx (List.mem_cons_of_mem _ (List.mem_flatMap.mpr ⟨p, hp, hxp⟩))
          rw [mget_folderRemove_other _ _ _ _ hxpp hxc]
          dsimp only
          rw [mget_mdel_ne _ _ _ hxc]
          exact lofr' x hxf hxc
        · intro x hx
          apply folderRemove_objects_none
          dsimp only
          exact mget_mdel_none _ _ _ (lnone' x hx)

/-- Deleting the root-style folder (recorded parent `undefined`): the loop
still removes every descendant and the folder itself is deleted from both
maps, but the final `parent.remove` access raises an uncaught TypeError. -/
theorem deleteFolderFuel_root (n : Nat) (s : Store) (c : String)
    (hwf : wfTree (n + 1) s c = true)
    (hkind : kindOf s c = some EType.folder)
    (hnd : (subtreeIds (n + 1) s c).Nodup)
    (hpar : mget s.parents c = some none) :
    (deleteFolderFuel (n + 1) s c).1 =
      Except.error (JsErr.uncaughtTypeError "remove") ∧
    ∀ x ∈ subtreeIds (n + 1) s c,
      mget (deleteFolderFuel (n + 1) s c).2.objects x = none ∧
      mget (deleteFolderFuel (n + 1) s c).2.parents x = none := by
  match hm : mget s.objects c with
  | none =>
    simp only [wfTree, hm] at hwf
    exact Bool.noConfusion hwf
  | some e =>
    have hte : etypeOf e = EType.folder := by
      unfold kindOf at hkind
      rw [hm] at hkind
      simpa using hkind
    match hd : e.data with
    | .file cc => exact absurd hte (by simp [etypeOf, hd])
    | .folder es =>
      have hsub : subtreeIds (n + 1) s c =
          c :: es.flatMap (fun p => subtreeIds n s p.1) := by
        simp only [subtreeIds, hm, hd]
      rw [hsub] at hnd
      have hcn : c ∉ es.flatMap (fun p => subtreeIds n s p.1) :=
        (List.nodup_cons.mp hnd).1
      obtain ⟨hparts, hpairw⟩ :=
        flatMap_nodup_parts es _ (List.nodup_cons.mp hnd).2
      have hwf' := hwf
      simp only [wfTree, hm, hd] at hwf'
      rw [List.all_eq_true] at hwf'
      have hch : ∀ p ∈ es, wfTree n s p.1 = true ∧ kindOf s p.1 = some p.2 ∧
          (subtreeIds n s p.1).Nodup ∧ mget s.parents p.1 = some (some c) ∧
          c ∉ subtreeIds n s p.1 := by
        intro p hp
        have h0 := hwf' p hp
        rw [Bool.and_eq_true, Bool.and_eq_true] at h0
        obtain ⟨⟨hA, hB⟩, hC⟩ := h0
        refine ⟨hC, ?_, hparts p hp, of_decide_eq_true hB, ?_⟩
        · match hmp : mget s.objects p.1 with
          | none =>
            rw [hmp] at hA
            exact Bool.noConfusion hA
          | some ch =>
            rw [hmp] at hA
            rw [Bool.and_eq_true] at hA
            unfold kindOf
            rw [hmp]
            simp [of_decide_eq_true hA.1]
        · intro hcm
          exact hcn (List.mem_flatMap.mpr ⟨p, hp, hcm⟩)
      obtain ⟨lok, ldel, lpfr, lofr, lnone⟩ :=
        delLoop_removes n (delNode_removes n) es s c hch hpairw
      rcases hlr : delLoop (deleteFolderFuel n) s es with ⟨rl, sl⟩
      rw [hlr] at lok ldel lpfr lofr lnone
      have lok' : rl = Except.ok () := lok
      have ldel' : ∀ x, (∃ p ∈ es, x ∈ subtreeIds n s p.1) →
          mget sl.objects x = none ∧ mget sl.parents x = none := ldel
      have lpfr' : ∀ x, (∀ p ∈ es, x ∉ subtreeIds n s p.1) →
          mget sl.parents x = mget s.parents x := lpfr
      have hcall : ∀ p ∈ es, c ∉ subtreeIds n s p.1 := by
        intro p hp hcm
        exact hcn (List.mem_flatMap.mpr ⟨p, hp, hcm⟩)
      have hparl : mget sl.parents c = some none := by
        rw [lpfr' c hcall]
        exact hpar
      have hred : deleteFolderFuel (n + 1) s c =
          (Except.error (JsErr.uncaughtTypeError "remove"),
            { sl with parents := mdel sl.parents c,
                      objects := mdel sl.objects c }) := by
        unfold deleteFolderFuel unregister
        dsimp only
        simp only [hm, hd, hlr, lok', hparl]
      rw [hred, hsub]
      refine ⟨rfl, ?_⟩
      intro x hx
      rcases List.mem_cons.mp hx with hx1 | hx1
      · rw [hx1]
        exact ⟨mget_mdel_self _ _, mget_mdel_self _ _⟩
      · rcases List.mem_flatMap.mp hx1 with ⟨p, hp, hxp⟩
        have h1 := ldel' x ⟨p, hp, hxp⟩
        exact ⟨mget_mdel_none _ _ _ h1.1, mget_mdel_none _ _ _ h1.2⟩

/-- C4: deleteFolder on a well-formed, duplicate-free folder subtree removes
the folder and every descendant, at any depth, from the store, after which
every getFile or getFolder on any former subtree id fails with the
not-found TypeError: when the folder has a recorded parent outside the
subtree the call also returns normally, and when it is the root (recorded
parent `undefined`) the removal still happens but the call ends in the
uncaught `parent.remove` TypeError. -/
theorem c4_deleteFolder_removes_subtree (s : Store) (id : String)
    (hwf : wfTree (s.objects.length + 1) s id = true)
    (hkind : kindOf s id = some EType.folder)
    (hnd : (subtreeIds (s.objects.length + 1) s id).Nodup) :
    (∀ pp, mget s.parents id = some (some pp) →
      pp ∉ subtreeIds (s.objects.length + 1) s id →
      (deleteFolder s id).1 = Except.ok () ∧
      ∀ d ∈ subtreeIds (s.objects.length + 1) s id,
        mget (deleteFolder s id).2.objects d = none ∧
        (getFile (deleteFolder s id).2 d).1 =
          Except.error (JsErr.typeError "File not found.") ∧
        (getFolder (deleteFolder s id).2 d).1 =
          Except.error (JsErr.typeError "Folder not found.")) ∧
    (mget s.parents id = some none →
      (deleteFolder s id).1 = Except.error (JsErr.uncaughtTypeError "remove") ∧
      ∀ d ∈ subtreeIds (s.objects.length + 1) s id,
        mget (deleteFolder s id).2.objects d = none ∧
        (getFile (deleteFolder s id).2 d).1 =
          Except.error (JsErr.typeError "File not found.") ∧
        (getFolder (deleteFolder s id).2 d).1 =
          Except.error (JsErr.typeError "Folder not found.")) := by
  constructor
  · intro pp hpar hppn
    have h := delNode_removes (s.objects.length + 1) s id EType.folder pp
      hwf hkind hnd hpar hppn
    have hdn : delNode (s.objects.length + 1) s id EType.folder =
        deleteFolder s id := rfl
    rw [hdn] at h
    refine ⟨h.1, ?_⟩
    intro d hd
    have hobj := (h.2.1 d hd).1
    refine ⟨hobj, ?_, ?_⟩
    · unfold getFile
      simp only [hobj]
    · unfold getFolder
      simp only [hobj]
  · intro hpar
    have h := deleteFolderFuel_root s.objects.length s id hwf hkind hnd hpar
    have hdn : deleteFolderFuel (s.objects.length + 1) s id = deleteFolder s id :=
      rfl
    rw [hdn] at h
    refine ⟨h.1, ?_⟩
    intro d hd
    have hobj := (h.2 d hd).1
    refine ⟨hobj, ?_, ?_⟩
    · unfold getFile
      simp only [hobj]
    · unfold getFolder
      simp only [hobj]

/-- Fixture for C4: root "0" ∋ folder "A"(id 1) ∋ file "f.txt"(id 2) and
folder "B"(id 3) ∋ file "g.txt"(id 4). -/
def c4W : Store :=
  (createFile (createFolder (createFile (createFolder fxRoot "A" none).2
    "f.txt" (some "1") none).2 "B" (some "1")).2 "g.txt" (some "3") none).2

theorem c4_witness :
    ((deleteFolder c4W "1").1 = Except.ok () ∧
     ∀ d ∈ subtreeIds (c4W.objects.length + 1) c4W "1",
       mget (deleteFolder c4W "1").2.objects d = none ∧
       (getFile (deleteFolder c4W "1").2 d).1 =
         Except.error (JsErr.typeError "File not found.") ∧
       (getFolder (deleteFolder c4W "1").2 d).1 =
         Except.error (JsErr.typeError "Folder not found.")) ∧
    ((deleteFolder fxFile "0").1 =
       Except.error (JsErr.uncaughtTypeError "remove") ∧
     ∀ d ∈ subtreeIds (fxFile.objects.length + 1) fxFile "0",
       mget (deleteFolder fxFile "0").2.objects d = none ∧
       (getFile (deleteFolder fxFile "0").2 d).1 =
         Except.error (JsErr.typeError "File not found.") ∧
       (getFolder (deleteFolder fxFile "0").2 d).1 =
         Except.error (JsErr.typeError "Folder not found.")) :=
  ⟨(c4_deleteFolder_removes_subtree c4W "1" (by decide) (by decide)
      (by decide)).1 "0" (by decide) (by decide),
   (c4_deleteFolder_removes_subtree fxFile "0" (by decide) (by decide)
      (by decide)).2 (by decide)⟩

theorem nameShape_stable (fuel : Nat) : ∀ (s s' : Store) (id : String),
    (∀ x ∈ subtreeIds fuel s id, mget s'.objects x = mget s.objects x) →
    subtreeIds fuel s' id = subtreeIds fuel s id ∧
    nameShape fuel s' id = nameShape fuel s id := by
  induction fuel with
  | zero =>
    intro s s' id h
    exact ⟨rfl, rfl⟩
  | succ n ih =>
    intro s s' id h
    have hid := h id (self_mem_subtreeIds (n + 1) s id)
    match hm : mget s.objects id with
    | none =>
      have hm' : mget s'.objects id = none := by rw [hid, hm]
      exact ⟨by simp only [subtreeIds, hm, hm'],
        by simp only [nameShape, hm, hm']⟩
    | some e =>
      have hm' : mget s'.objects id = some e := by rw [hid, hm]
      match hd : e.data with
      | .file cc =>
        exact ⟨by simp only [subtreeIds, hm, hm', hd],
          by simp only [nameShape, hm, hm', hd]⟩
      | .folder es =>
        have hch : ∀ p ∈ es, ∀ x ∈ subtreeIds n s p.1,
            mget s'.objects x = mget s.objects x := by
          intro p hp x hx
          exact h x (mem_subtree_of_child n s id e es hm hd p hp x hx)
        constructor
        · simp only [subtreeIds, hm, hm', hd]
          congr 1
          refine flatMap_congr_of_mem es _ _ ?_
          intro p hp
          exact (ih s s' p.1 (hch p hp)).1
        · simp only [nameShape, hm, hm', hd]
          congr 1
          refine List.map_congr_left ?_
          intro p hp
          exact (ih s s' p.1 (hch p hp)).2

theorem subtree_present (fuel : Nat) : ∀ (s : Store) (id : String),
    wfTree fuel s id = true →
    ∀ x ∈ subtreeIds fuel s id, (mget s.objects x).isSome = true := by
  induction fuel with
  | zero =>
    intro s id hwf
    simp only [wfTree] at hwf
    exact Bool.noConfusion hwf
  | succ n ih =>
    intro s id hwf x hx
    match hm : mget s.objects id with
    | none =>
      simp only [wfTree, hm] at hwf
      exact Bool.noConfusion hwf
    | some e =>
      match hd : e.data with
      | .file cc =>
        have hsub : subtreeIds (n + 1) s id = [id] := by simp [subtreeIds, hm, hd]
        rw [hsub] at hx
        have hxi : x = id := by simpa using hx
        rw [hxi, hm]
        rfl
      | .folder es =>
        have hsub : subtreeIds (n + 1) s id =
            id :: es.flatMap (fun p => subtreeIds n s p.1) := by
          simp only [subtreeIds, hm, hd]
        rw [hsub] at hx
        rcases List.mem_cons.mp hx with hx1 | hx1
        · rw [hx1, hm]
          rfl
        · rcases List.mem_flatMap.mp hx1 with ⟨p, hp, hxp⟩
          have hwf' := hwf
          simp only [wfTree, hm, hd] at hwf'
          rw [List.all_eq_true] at hwf'
          have h0 := hwf' p hp
          rw [Bool.and_eq_true, Bool.and_eq_true] at h0
          exact ih s p.1 h0.2 x hxp

theorem present_ne_fresh (s : Store) (hFr : FreshInv s) (x : String) (n : Nat)
    (hn : s.counter ≤ n) (hx : (mget s.objects x).isSome = true) :
    x ≠ natStr n := by
  intro h
  rw [h, (hFr n hn).1] at hx
  exact Bool.noConfusion hx

theorem nameShape_root_name (n : Nat) (s : Store) (id : String) (e : Entry)
    (hm : mget s.objects id = some e) :
    (nameShape (n + 1) s id).withName e.name = nameShape (n + 1) s id := by
  match hd : e.data with
  | .file c => simp [nameShape, hm, hd, NShape.withName]
  | .folder es => simp [nameShape, hm, hd, NShape.withName]

theorem spawn_facts (s : Store) (nm : String) (d : EntryData) (pid : String)
    (hpne : pid ≠ natStr s.counter) :
    (∃ e', mget (register (newEntry s nm d none).2 (newEntry s nm d none).1
        (some pid)).objects (natStr s.counter) = some e' ∧
      e'.name = nm ∧ e'.data = d) ∧
    (∀ x, x ≠ natStr s.counter → x ≠ pid →
      mget (register (newEntry s nm d none).2 (newEntry s nm d none).1
        (some pid)).objects x = mget s.objects x) ∧
    (register (newEntry s nm d none).2 (newEntry s nm d none).1
        (some pid)).parents = mset s.parents (natStr s.counter) (some pid) ∧
    (register (newEntry s nm d none).2 (newEntry s nm d none).1
        (some pid)).counter = s.counter + 1 ∧
    (∀ pe cs, mget s.objects pid = some pe → pe.data = EntryData.folder cs →
      ∃ pe', mget (register (newEntry s nm d none).2 (newEntry s nm d none).1
          (some pid)).objects pid = some pe' ∧ pe'.name = pe.name ∧
        pe'.data = EntryData.folder (cs ++
          [(natStr s.counter, etypeOf (newEntry s nm d none).1)])) := by
  obtain ⟨hid, hnm, hdata, _, _, _, hobj1, hpar1, hcnt1, _⟩ := newEntry_spec s nm d
  have hne : (newEntry s nm d none).1.id ≠ pid := by
    rw [hid]
    exact Ne.symm hpne
  refine ⟨?_, ?_, ?_, ?_, ?_⟩
  · unfold register
    dsimp only
    rw [← hid]
    rw [mget_folderAdd_entry _ _ _ _ hne]
    dsimp only
    rw [mget_mset_self]
    exact ⟨_, rfl, hnm, hdata⟩
  · intro x hx1 hx2
    rw [register_objects_other _ _ _ _ (by rw [hid]; exact hx1) hx2, hobj1]
  · rw [register_parents, hpar1, hid]
  · rw [register_counter, hcnt1]
  · intro pe cs hpe hpecs
    unfold register
    dsimp only
    rw [mget_folderAdd_folder _ _ _ _ (Ne.symm hne)]
    dsimp only
    rw [mget_mset_ne _ _ _ _ (by rw [hid]; exact hpne), hobj1, hpe]
    refine ⟨_, rfl, rfl, ?_⟩
    dsimp only
    rw [hpecs, hid]

/-- The inductive contract of the spec-modelled recursive folder copy: the
call returns the freshly allocated id, preserves the invariants, leaves
every old key untouched (except the target parent's child list), appends
exactly one child reference to the target parent, and produces a copy
whose name/kind shape equals the source subtree's with the root renamed,
built entirely from fresh ids. -/
def CopyFolderSpec (fuel : Nat) : Prop :=
  ∀ (s : Store) (srcId pid nm : String),
    Acyclic s → FreshInv s →
    wfTree fuel s srcId = true →
    kindOf s srcId = some EType.folder →
    (∃ pe, mget s.objects pid = some pe) →
    pid ∉ subtreeIds fuel s srcId →
    (copyFolderFuel fuel s srcId pid nm).1 = Except.ok (natStr s.counter) ∧
    Acyclic (copyFolderFuel fuel s srcId pid nm).2 ∧
    FreshInv (copyFolderFuel fuel s srcId pid nm).2 ∧
    s.counter < (copyFolderFuel fuel s srcId pid nm).2.counter ∧
    (∀ x, (mget s.objects x).isSome = true → x ≠ pid →
      mget (copyFolderFuel fuel s srcId pid nm).2.objects x = mget s.objects x) ∧
    (∀ x, (mget s.objects x).isSome = true →
      (mget (copyFolderFuel fuel s srcId pid nm).2.objects x).isSome = true) ∧
    (∀ x, (mget s.objects x).isSome = true →
      mget (copyFolderFuel fuel s srcId pid nm).2.parents x = mget s.parents x) ∧
    nameShape fuel (copyFolderFuel fuel s srcId pid nm).2 (natStr s.counter) =
      (nameShape fuel s srcId).withName nm ∧
    (∀ x ∈ subtreeIds fuel (copyFolderFuel fuel s srcId pid nm).2
        (natStr s.counter),
      (mget (copyFolderFuel fuel s srcId pid nm).2.objects x).isSome = true ∧
      mget s.objects x = none) ∧
    (∀ pe cs, mget s.objects pid = some pe → pe.data = EntryData.folder cs →
      ∃ pe', mget (copyFolderFuel fuel s srcId pid nm).2.objects pid = some pe' ∧
        pe'.name = pe.name ∧
        pe'.data = EntryData.folder (cs ++ [(natStr s.counter, EType.folder)]))

theorem copyLoop_shape (fuel : Nat) (IH : CopyFolderSpec fuel) :
    ∀ (es : List (String × EType)) (s : Store) (npid : String) (nf : Entry)
      (cs0 : List (String × EType)),
    Acyclic s → FreshInv s →
    mget s.objects npid = some nf →
    nf.data = EntryData.folder cs0 →
    (∀ p ∈ es, wfTree fuel s p.1 = true) →
    (∀ p ∈ es, npid ∉ subtreeIds fuel s p.1) →
    (copyLoop (copyFolderFuel fuel) s es npid).1 = Except.ok () ∧
    Acyclic (copyLoop (copyFolderFuel fuel) s es npid).2 ∧
    FreshInv (copyLoop (copyFolderFuel fuel) s es npid).2 ∧
    s.counter ≤ (copyLoop (copyFolderFuel fuel) s es npid).2.counter ∧
    (∀ x, (mget s.objects x).isSome = true → x ≠ npid →
      mget (copyLoop (copyFolderFuel fuel) s es npid).2.objects x =
        mget s.objects x) ∧
    (∀ x, (mget s.objects x).isSome = true →
      (mget (copyLoop (copyFolderFuel fuel) s es npid).2.objects x).isSome = true) ∧
    (∀ x, (mget s.objects x).isSome = true →
      mget (copyLoop (copyFolderFuel fuel) s es npid).2.parents x =
        mget s.parents x) ∧
    (∃ nf' newcs,
      mget (copyLoop (copyFolderFuel fuel) s es npid).2.objects npid = some nf' ∧
      nf'.name = nf.name ∧
      nf'.data = EntryData.folder (cs0 ++ newcs) ∧
      newcs.map (fun q => nameShape fuel
          (copyLoop (copyFolderFuel fuel) s es npid).2 q.1) =
        es.map (fun q => nameShape fuel s q.1) ∧
      (∀ q ∈ newcs, ∀ x ∈ subtreeIds fuel
          (copyLoop (copyFolderFuel fuel) s es npid).2 q.1,
        (mget (copyLoop (copyFolderFuel fuel) s es npid).2.objects x).isSome = true ∧
        mget s.objects x = none)) := by
  intro es
  induction es with
  | nil =>
    intro s npid nf cs0 hA hFr hnf hnfd hwf hnp
    refine ⟨rfl, hA, hFr, le_rfl, fun x hx hxn => rfl, fun x hx => hx,
      fun x hx => rfl, nf, [], hnf, rfl, ?_, rfl, ?_⟩
    · rw [List.append_nil]
      exact hnfd
    · intro q hq
      exact absurd hq (List.not_mem_nil q)
  | cons p rest ihes =>
    intro s npid nf cs0 hA hFr hnf hnfd hwf hnp
    have hwfp := hwf p (List.mem_cons_self _ _)
    have hnpp := hnp p (List.mem_cons_self _ _)
    have hnppres : (mget s.objects npid).isSome = true := by rw [hnf]; rfl
    cases fuel with
    | zero =>
      simp only [wfTree] at hwfp
      exact Bool.noConfusion hwfp
    | succ m =>
      match hm : mget s.objects p.1 with
      | none =>
        simp only [wfTree, hm] at hwfp
        exact Bool.noConfusion hwfp
      | some ce =>
        have hpne : npid ≠ natStr s.counter :=
          present_ne_fresh s hFr npid s.counter le_rfl hnppres
        match hd : ce.data with
        | .file c =>
          obtain ⟨s1, hs1⟩ : ∃ s1,
              register (newEntry s ce.name (EntryData.file c) none).2
                (newEntry s ce.name (EntryData.file c) none).1 (some npid) = s1 :=
            ⟨_, rfl⟩
          have hspawn := spawn_facts s ce.name (EntryData.file c) npid hpne
          have hreg := register_fresh_pres s ce.name (EntryData.file c) npid
            hA hFr ⟨nf, hnf⟩
          rw [hs1] at hspawn hreg
          obtain ⟨⟨e1, he1, he1nm, he1d⟩, hfrO, hparS, hcnt1, hpeCl⟩ := hspawn
          obtain ⟨hA1, hF1, hclt1, hmo1⟩ := hreg
          have hty1 : etypeOf (newEntry s ce.name (EntryData.file c) none).1 =
              EType.file := by
            obtain ⟨_, _, hdata, _⟩ := newEntry_spec s ce.name (EntryData.file c)
            simp [etypeOf, hdata]
          obtain ⟨nf1, hnf1, hnf1nm, hnf1d⟩ := hpeCl nf cs0 hnf hnfd
          rw [hty1] at hnf1d
          have hfrP : ∀ x, (mget s.objects x).isSome = true →
              mget s1.parents x = mget s.parents x := by
            intro x hx
            rw [hparS]
            exact mget_mset_ne _ _ _ _ (present_ne_fresh s hFr x s.counter le_rfl hx)
          have hfrO' : ∀ x, (mget s.objects x).isSome = true → x ≠ npid →
              mget s1.objects x = mget s.objects x := by
            intro x hx hxn
            exact hfrO x (present_ne_fresh s hFr x s.counter le_rfl hx) hxn
          have hstep_red : copyStep (copyFolderFuel (m + 1)) s p.1 npid =
              (Except.ok (), s1) := by
            unfold copyStep
            dsimp only
            simp only [hm, hd, hs1]
          have hlred : copyLoop (copyFolderFuel (m + 1)) s (p :: rest) npid =
              copyLoop (copyFolderFuel (m + 1)) s1 rest npid := by
            rw [copyLoop_cons, hstep_red]
          have hmo1' : ∀ x, (mget s.objects x).isSome = true →
              (mget s1.objects x).isSome = true := hmo1
          have hag : ∀ q ∈ rest, ∀ x ∈ subtreeIds (m + 1) s q.1,
              mget s1.objects x = mget s.objects x ∧
              mget s1.parents x = mget s.parents x := by
            intro q hq x hx
            have hpres := subtree_present (m + 1) s q.1
              (hwf q (List.mem_cons_of_mem p hq)) x hx
            have hxn : x ≠ npid := by
              intro he
              rw [he] at hx
              exact hnp q (List.mem_cons_of_mem p hq) hx
            exact ⟨hfrO' x hpres hxn, hfrP x hpres⟩
          have hstab : ∀ q ∈ rest, subtreeIds (m + 1) s1 q.1 =
              subtreeIds (m + 1) s q.1 ∧ wfTree (m + 1) s1 q.1 =
              wfTree (m + 1) s q.1 := by
            intro q hq
            exact subtree_stable (m + 1) s s1 q.1 (hag q hq)
          have hshq : ∀ q ∈ rest, nameShape (m + 1) s1 q.1 =
              nameShape (m + 1) s q.1 := by
            intro q hq
            exact (nameShape_stable (m + 1) s s1 q.1
              (fun x hx => (hag q hq x hx).1)).2
          obtain ⟨rok, rA, rF, rcnt, rfrO, rmo, rfrP, rnf', rnewcs, hrnf, hrnm,
            hrdata, hrmap, hrfresh⟩ := ihes s1 npid nf1 (cs0 ++ [(natStr s.counter,
              EType.file)]) hA1 hF1 hnf1 hnf1d
            (fun q hq => by rw [(hstab q hq).2]; exact hwf q (List.mem_cons_of_mem p hq))
            (fun q hq => by rw [(hstab q hq).1]; exact hnp q (List.mem_cons_of_mem p hq))
          rw [hlred]
          have hsub1 : subtreeIds (m + 1) s1 (natStr s.counter) =
              [natStr s.counter] := by
            simp [subtreeIds, he1, he1d]
          have hhead_s1 : nameShape (m + 1) s1 (natStr s.counter) =
              NShape.file ce.name := by
            simp [nameShape, he1, he1d, he1nm]
          have habs : mget s.objects (natStr s.counter) = none :=
            (hFr s.counter le_rfl).1
          have hagF : ∀ x ∈ subtreeIds (m + 1) s1 (natStr s.counter),
              mget (copyLoop (copyFolderFuel (m + 1)) s1 rest npid).2.objects x =
                mget s1.objects x := by
            intro x hx
            rw [hsub1] at hx
            have hxe : x = natStr s.counter := by simpa using hx
            rw [hxe]
            refine rfrO _ (by rw [he1]; rfl) (Ne.symm hpne)
          refine ⟨rok, rA, rF, le_trans (le_of_lt hclt1) rcnt, ?_, ?_, ?_, rnf',
            (natStr s.counter, EType.file) :: rnewcs, hrnf, by rw [hrnm, hnf1nm],
            ?_, ?_, ?_⟩
          · intro x hx hxn
            rw [rfrO x (hmo1' x hx) hxn]
            exact hfrO' x hx hxn
          · intro x hx
            exact rmo x (hmo1' x hx)
          · intro x hx
            rw [rfrP x (hmo1' x hx)]
            exact hfrP x hx
          · rw [hrdata]
            rw [List.append_assoc]
            rfl
          · rw [List.map_cons, List.map_cons]
            congr 1
            · rw [(nameShape_stable (m + 1) s1 _ (natStr s.counter) hagF).2,
                hhead_s1]
              simp [nameShape, hm, hd]
            · rw [hrmap]
              refine List.map_congr_left ?_
              intro q hq
              exact hshq q hq
          · intro q hq x hx
            rcases List.mem_cons.mp hq with hq1 | hq1
            · rw [hq1] at hx
              dsimp only at hx
              rw [(nameShape_stable (m + 1) s1 _ (natStr s.counter) hagF).1,
                hsub1] at hx
              have hxe : x = natStr s.counter := by simpa using hx
              rw [hxe]
              exact ⟨rmo _ (by rw [he1]; rfl), habs⟩
            · have h1 := hrfresh q hq1 x hx
              refine ⟨h1.1, ?_⟩
              match hax : mget s.objects x with
              | none => rfl
              | some v =>
                have := hmo1' x (by rw [hax]; rfl)
                rw [h1.2] at this
                exact Bool.noConfusion this
        | .folder ces =>
          have happly := IH s p.1 npid ce.name hA hFr hwfp
            (by unfold kindOf; rw [hm]; simp [etypeOf, hd]) ⟨nf, hnf⟩ hnpp
          rcases hcf : copyFolderFuel (m + 1) s p.1 npid ce.name with ⟨rc, s1⟩
          rw [hcf] at happly
          obtain ⟨hok1, hA1, hF1, hclt1, hfrO', hmo1', hfrP, hsh1, hfs1, hpeCl⟩ :=
            happly
          have hrc : rc = Except.ok (natStr s.counter) := hok1
          obtain ⟨nf1, hnf1, hnf1nm, hnf1d⟩ := hpeCl nf cs0 hnf hnfd
          have hstep_red : copyStep (copyFolderFuel (m + 1)) s p.1 npid =
              (Except.ok (), s1) := by
            unfold copyStep
            dsimp only
            simp only [hm, hd, hcf, hrc]
          have hlred : copyLoop (copyFolderFuel (m + 1)) s (p :: rest) npid =
              copyLoop (copyFolderFuel (m + 1)) s1 rest npid := by
            rw [copyLoop_cons, hstep_red]
          have hag : ∀ q ∈ rest, ∀ x ∈ subtreeIds (m + 1) s q.1,
              mget s1.objects x = mget s.objects x ∧
              mget s1.parents x = mget s.parents x := by
            intro q hq x hx
            have hpres := subtree_present (m + 1) s q.1
              (hwf q (List.mem_cons_of_mem p hq)) x hx
            have hxn : x ≠ npid := by
              intro he
              rw [he] at hx
              exact hnp q (List.mem_cons_of_mem p hq) hx
            exact ⟨hfrO' x hpres hxn, hfrP x hpres⟩
          have hstab : ∀ q ∈ rest, subtreeIds (m + 1) s1 q.1 =
              subtreeIds (m + 1) s q.1 ∧ wfTree (m + 1) s1 q.1 =
              wfTree (m + 1) s q.1 := by
            intro q hq
            exact subtree_stable (m + 1) s s1 q.1 (hag q hq)
          have hshq : ∀ q ∈ rest, nameShape (m + 1) s1 q.1 =
              nameShape (m + 1) s q.1 := by
            intro q hq
            exact (nameShape_stable (m + 1) s s1 q.1
              (fun x hx => (hag q hq x hx).1)).2
          obtain ⟨rok, rA, rF, rcnt, rfrO, rmo, rfrP, rnf', rnewcs, hrnf, hrnm,
            hrdata, hrmap, hrfresh⟩ := ihes s1 npid nf1 (cs0 ++ [(natStr s.counter,
              EType.folder)]) hA1 hF1 hnf1 hnf1d
            (fun q hq => by rw [(hstab q hq).2]; exact hwf q (List.mem_cons_of_mem p hq))
            (fun q hq => by rw [(hstab q hq).1]; exact hnp q (List.mem_cons_of_mem p hq))
          rw [hlred]
          have hagF : ∀ x ∈ subtreeIds (m + 1) s1 (natStr s.counter),
              mget (copyLoop (copyFolderFuel (m + 1)) s1 rest npid).2.objects x =
                mget s1.objects x := by
            intro x hx
            have h1 := hfs1 x hx
            have hxn : x ≠ npid := by
              intro he
              rw [he, hnf] at h1
              exact Option.noConfusion h1.2
            exact rfrO x h1.1 hxn
          refine ⟨rok, rA, rF, le_trans (le_of_lt hclt1) rcnt, ?_, ?_, ?_, rnf',
            (natStr s.counter, EType.folder) :: rnewcs, hrnf, by rw [hrnm, hnf1nm],
            ?_, ?_, ?_⟩
          · intro x hx hxn
            rw [rfrO x (hmo1' x hx) hxn]
            exact hfrO' x hx hxn
          · intro x hx
            exact rmo x (hmo1' x hx)
          · intro x hx
            rw [rfrP x (hmo1' x hx)]
            exact hfrP x hx
          · rw [hrdata]
            rw [List.append_assoc]
            rfl
          · rw [List.map_cons, List.map_cons]
            congr 1
            · rw [(nameShape_stable (m + 1) s1 _ (natStr s.counter) hagF).2, hsh1,
                nameShape_root_name m s p.1 ce hm]
            · rw [hrmap]
              refine List.map_congr_left ?_
              intro q hq
              exact hshq q hq
          · intro q hq x hx
            rcases List.mem_cons.mp hq with hq1 | hq1
            · rw [hq1] at hx
              dsimp only at hx
              rw [(nameShape_stable (m + 1) s1 _ (natStr s.counter) hagF).1] at hx
              have h1 := hfs1 x hx
              exact ⟨rmo x h1.1, h1.2⟩
            · have h1 := hrfresh q hq1 x hx
              refine ⟨h1.1, ?_⟩
              match hax : mget s.objects x with
              | none => rfl
              | some v =>
                have := hmo1' x (by rw [hax]; rfl)
                rw [h1.2] at this
                exact Bool.noConfusion this

theorem copyFolderFuel_shape (fuel : Nat) : CopyFolderSpec fuel := by
  induction fuel with
  | zero =>
    intro s srcId pid nm hA hFr hwf hkind hp hpn
    simp only [wfTree] at hwf
    exact Bool.noConfusion hwf
  | succ n ih =>
    intro s srcId pid nm hA hFr hwf hkind hp hpn
    obtain ⟨pe0, hpe0⟩ := hp
    match hm : mget s.objects srcId with
    | none =>
      simp only [wfTree, hm] at hwf
      exact Bool.noConfusion hwf
    | some e =>
      have hte : etypeOf e = EType.folder := by
        unfold kindOf at hkind
        rw [hm] at hkind
        simpa using hkind
      match hd : e.data with
      | .file cc => exact absurd hte (by simp [etypeOf, hd])
      | .folder es =>
        have hpne : pid ≠ natStr s.counter :=
          present_ne_fresh s hFr pid s.counter le_rfl (by rw [hpe0]; rfl)
        rcases hne : newEntry s nm (EntryData.folder []) none with ⟨f, sn⟩
        have hspawn := spawn_facts s nm (EntryData.folder []) pid hpne
        have hreg := register_fresh_pres s nm (EntryData.folder []) pid hA hFr
          ⟨pe0, hpe0⟩
        rw [hne] at hspawn hreg
        dsimp only at hspawn hreg
        obtain ⟨⟨e1, he1, he1nm, he1d⟩, hfrO, hparS, hcnt1, hpeCl⟩ := hspawn
        obtain ⟨hA1, hF1, hclt1, hmo1⟩ := hreg
        have hfid : f.id = natStr s.counter := by
          have := (newEntry_spec s nm (EntryData.folder [])).1
          rw [hne] at this
          exact this
        have hfrP1 : ∀ x, (mget s.objects x).isSome = true →
            mget (register sn f (some pid)).parents x = mget s.parents x := by
          intro x hx
          rw [hparS]
          exact mget_mset_ne _ _ _ _ (present_ne_fresh s hFr x s.counter le_rfl hx)
        have hfrO1 : ∀ x, (mget s.objects x).isSome = true → x ≠ pid →
            mget (register sn f (some pid)).objects x = mget s.objects x := by
          intro x hx hxn
          exact hfrO x (present_ne_fresh s hFr x s.counter le_rfl hx) hxn
        have hwf' := hwf
        simp only [wfTree, hm, hd] at hwf'
        rw [List.all_eq_true] at hwf'
        have hchwf : ∀ p ∈ es, wfTree n s p.1 = true := by
          intro p hp2
          have h0 := hwf' p hp2
          rw [Bool.and_eq_true, Bool.and_eq_true] at h0
          exact h0.2
        have hag : ∀ p ∈ es, ∀ x ∈ subtreeIds n s p.1,
            mget (register sn f (some pid)).objects x = mget s.objects x ∧
            mget (register sn f (some pid)).parents x = mget s.parents x := by
          intro p hp2 x hx
          have hpres := subtree_present n s p.1 (hchwf p hp2) x hx
          have hxpid : x ≠ pid := by
            intro he
            rw [he] at hx
            exact hpn (mem_subtree_of_child n s srcId e es hm hd p hp2 pid hx)
          exact ⟨hfrO1 x hpres hxpid, hfrP1 x hpres⟩
        have hstab : ∀ p ∈ es, subtreeIds n (register sn f (some pid)) p.1 =
            subtreeIds n s p.1 ∧
            wfTree n (register sn f (some pid)) p.1 = wfTree n s p.1 :=
          fun p hp2 => subtree_stable n s _ p.1 (hag p hp2)
        have hshq : ∀ p ∈ es, nameShape n (register sn f (some pid)) p.1 =
            nameShape n s p.1 :=
          fun p hp2 => (nameShape_stable n s _ p.1
            (fun x hx => (hag p hp2 x hx).1)).2
        have hnid_notin : ∀ p ∈ es,
            natStr s.counter ∉ subtreeIds n (register sn f (some pid)) p.1 := by
          intro p hp2 hmem
          rw [(hstab p hp2).1] at hmem
          have hpres := subtree_present n s p.1 (hchwf p hp2) _ hmem
          rw [(hFr s.counter le_rfl).1] at hpres
          exact Bool.noConfusion hpres
        have hloop := copyLoop_shape n ih es (register sn f (some pid))
          (natStr s.counter) e1 [] hA1 hF1 he1 he1d
          (fun p hp2 => by rw [(hstab p hp2).2]; exact hchwf p hp2)
          hnid_notin
        rcases hlr : copyLoop (copyFolderFuel n) (register sn f (some pid)) es
          (natStr s.counter) with ⟨rl, sl⟩
        rw [hlr] at hloop
        obtain ⟨rok, rA, rF, rcnt, rfrO, rmo, rfrP, rnf', rnewcs, hrnf, hrnm,
          hrdata, hrmap, hrfresh⟩ := hloop
        have hrl : rl = Except.ok () := rok
        have hred : copyFolderFuel (n + 1) s srcId pid nm =
            (Except.ok (natStr s.counter), sl) := by
          unfold copyFolderFuel
          dsimp only
          simp only [hm, hd, hne]
          simp only [hfid, hlr, hrl]
        rw [hred]
        dsimp only
        have hmo1' : ∀ x, (mget s.objects x).isSome = true →
            (mget (register sn f (some pid)).objects x).isSome = true := hmo1
        have hnid_pres1 : (mget (register sn f (some pid)).objects
            (natStr s.counter)).isSome = true := by
          rw [he1]
          rfl
        refine ⟨rfl, rA, rF, ?_, ?_, ?_, ?_, ?_, ?_, ?_⟩
        · calc s.counter < (register sn f (some pid)).counter := by
                rw [hcnt1]; omega
            _ ≤ sl.counter := rcnt
        · intro x hx hxn
          have hxnid : x ≠ natStr s.counter :=
            present_ne_fresh s hFr x s.counter le_rfl hx
          rw [rfrO x (hmo1' x hx) hxnid]
          exact hfrO1 x hx hxn
        · intro x hx
          exact rmo x (hmo1' x hx)
        · intro x hx
          have hxnid : x ≠ natStr s.counter :=
            present_ne_fresh s hFr x s.counter le_rfl hx
          rw [rfrP x (hmo1' x hx)]
          exact hfrP1 x hx
        · have hshape_l : nameShape (n + 1) sl (natStr s.counter) =
              NShape.folder nm (rnewcs.map (fun q => nameShape n sl q.1)) := by
            have hd' : rnf'.data = EntryData.folder rnewcs := by
              rw [hrdata]
              rw [List.nil_append]
            simp only [nameShape, hrnf, hd']
            rw [hrnm, he1nm]
          rw [hshape_l, hrmap]
          have hsrc : nameShape (n + 1) s srcId =
              NShape.folder e.name (es.map (fun q => nameShape n s q.1)) := by
            simp only [nameShape, hm, hd]
          rw [hsrc]
          simp only [NShape.withName]
          congr 1
          refine List.map_congr_left ?_
          intro q hq
          exact hshq q hq
        · intro x hx
          have hsubl : subtreeIds (n + 1) sl (natStr s.counter) =
              natStr s.counter :: rnewcs.flatMap (fun q => subtreeIds n sl q.1) := by
            have hd' : rnf'.data = EntryData.folder rnewcs := by
              rw [hrdata]
              rw [List.nil_append]
            simp only [subtreeIds, hrnf, hd']
          rw [hsubl] at hx
          rcases List.mem_cons.mp hx with hx1 | hx1
          · rw [hx1]
            exact ⟨rmo _ hnid_pres1, (hFr s.counter le_rfl).1⟩
          · rcases List.mem_flatMap.mp hx1 with ⟨q, hq, hxq⟩
            have h1 := hrfresh q hq x hxq
            refine ⟨h1.1, ?_⟩
            match hax : mget s.objects x with
            | none => rfl
            | some v =>
              have := hmo1' x (by rw [hax]; rfl)
              rw [h1.2] at this
              exact Bool.noConfusion this
        · intro pe cs hpe hpecs
          obtain ⟨pe1, hpe1, hpe1nm, hpe1d⟩ := hpeCl pe cs hpe hpecs
          have hty1 : etypeOf f = EType.folder := by
            have h2 := (newEntry_spec s nm (EntryData.folder [])).2.2.1
            rw [hne] at h2
            have hfd : f.data = EntryData.folder [] := h2
            simp [etypeOf, hfd]
          rw [hty1] at hpe1d
          have hpe_pres : (mget (register sn f (some pid)).objects pid).isSome
              = true := by
            rw [hpe1]
            rfl
          refine ⟨pe1, ?_, hpe1nm, hpe1d⟩
          rw [rfrO pid hpe_pres hpne]
          exact hpe1

theorem copyFile_clean (s : Store) (id : String) (parentId name : Option String)
    (e : Entry) (c : Option Content) (p : Entry)
    (hFr : FreshInv s)
    (hm : mget s.objects id = some e) (hd : e.data = EntryData.file c)
    (hpR : mget s.objects (if truthyStr parentId = true then parentId.getD ""
      else (mget s.parents id).join.getD "") = some p)
    (hpf : etypeOf p = EType.folder) :
    (copyFile s id parentId name).1 =
      Except.ok (miniOfId (copyFile s id parentId name).2 (natStr s.counter)) ∧
    natStr s.counter ≠ id ∧
    mget s.objects (natStr s.counter) = none ∧
    (∃ e', mget (copyFile s id parentId name).2.objects (natStr s.counter) =
        some e' ∧
      e'.name = (if truthyStr name = true then name.getD "" else e.name) ∧
      e'.data = EntryData.file c) ∧
    mget (copyFile s id parentId name).2.parents (natStr s.counter) =
      some (some (if truthyStr parentId = true then parentId.getD ""
        else (mget s.parents id).join.getD "")) ∧
    mget (copyFile s id parentId name).2.objects id = mget s.objects id := by
  have hidp : id ≠ (if truthyStr parentId = true then parentId.getD ""
      else (mget s.parents id).join.getD "") := by
    intro he
    rw [← he, hm] at hpR
    injection hpR with hpR
    rw [← hpR] at hpf
    rw [show etypeOf e = EType.file from by simp [etypeOf, hd]] at hpf
    exact EType.noConfusion hpf
  have hpne : (if truthyStr parentId = true then parentId.getD ""
      else (mget s.parents id).join.getD "") ≠ natStr s.counter :=
    present_ne_fresh s hFr _ s.counter le_rfl (by rw [hpR]; rfl)
  rcases hne : newEntry s (if truthyStr name = true then name.getD "" else e.name)
    (EntryData.file c) none with ⟨f, sn⟩
  have hspawn := spawn_facts s
    (if truthyStr name = true then name.getD "" else e.name)
    (EntryData.file c)
    (if truthyStr parentId = true then parentId.getD ""
      else (mget s.parents id).join.getD "") hpne
  rw [hne] at hspawn
  dsimp only at hspawn
  obtain ⟨⟨e1, he1, he1nm, he1d⟩, hfrO, hparS, hcnt1, hpeCl⟩ := hspawn
  have hfid : f.id = natStr s.counter := by
    have h2 := (newEntry_spec s
      (if truthyStr name = true then name.getD "" else e.name)
      (EntryData.file c)).1
    rw [hne] at h2
    exact h2
  have hred : copyFile s id parentId name =
      (Except.ok (miniOfId (register sn f (some (if truthyStr parentId = true
          then parentId.getD "" else (mget s.parents id).join.getD ""))) f.id),
        register sn f (some (if truthyStr parentId = true then parentId.getD ""
          else (mget s.parents id).join.getD ""))) := by
    unfold copyFile
    dsimp only
    simp only [hm, hd, hpR]
    rw [if_pos hpf]
    simp only [hne]
  rw [hred]
  dsimp only
  refine ⟨by rw [hfid], Ne.symm (present_ne_fresh s hFr id s.counter le_rfl
    (by rw [hm]; rfl)), (hFr s.counter le_rfl).1, ⟨e1, he1, he1nm, he1d⟩, ?_, ?_⟩
  · rw [hparS]
    exact mget_mset_self _ _ _
  · rw [hfrO id (present_ne_fresh s hFr id s.counter le_rfl (by rw [hm]; rfl))
      hidp]

theorem copyFolder_clean (s : Store) (id : String) (parentId name : Option String)
    (e p : Entry) (es : List (String × EType))
    (hA : Acyclic s) (hFr : FreshInv s)
    (hm : mget s.objects id = some e) (hd : e.data = EntryData.folder es)
    (hwf : wfTree (s.objects.length + 1) s id = true)
    (hpR : mget s.objects (if truthyStr parentId = true then parentId.getD ""
      else (mget s.parents id).join.getD "") = some p)
    (hpf : etypeOf p = EType.folder)
    (hpn : (if truthyStr parentId = true then parentId.getD ""
      else (mget s.parents id).join.getD "") ∉
      subtreeIds (s.objects.length + 1) s id) :
    (copyFolder s id parentId name).1 = Except.ok
      (folderRecOfId (copyFolder s id parentId name).2 (natStr s.counter)) ∧
    natStr s.counter ≠ id ∧
    mget s.objects (natStr s.counter) = none ∧
    nameShape (s.objects.length + 1) (copyFolder s id parentId name).2
        (natStr s.counter) =
      (nameShape (s.objects.length + 1) s id).withName
        (if truthyStr name = true then name.getD "" else e.name) ∧
    (∀ x ∈ subtreeIds (s.objects.length + 1) (copyFolder s id parentId name).2
        (natStr s.counter),
      (mget (copyFolder s id parentId name).2.objects x).isSome = true ∧
      mget s.objects x = none) := by
  have hkind : kindOf s id = some EType.folder := by
    unfold kindOf
    rw [hm]
    simp [etypeOf, hd]
  have happly := copyFolderFuel_shape (s.objects.length + 1) s id
    (if truthyStr parentId = true then parentId.getD ""
      else (mget s.parents id).join.getD "")
    (if truthyStr name = true then name.getD "" else e.name)
    hA hFr hwf hkind ⟨p, hpR⟩ hpn
  rcases hcf : copyFolderFuel (s.objects.length + 1) s id
    (if truthyStr parentId = true then parentId.getD ""
      else (mget s.parents id).join.getD "")
    (if truthyStr name = true then name.getD "" else e.name) with ⟨rc, s'⟩
  rw [hcf] at happly
  obtain ⟨hok, hA2, hF2, hcnt2, hfrO2, hmo2, hfrP2, hsh, hfs, hpeCl⟩ := happly
  have hrc : rc = Except.ok (natStr s.counter) := hok
  have hred : copyFolder s id parentId name =
      (Except.ok (folderRecOfId s' (natStr s.counter)), s') := by
    unfold copyFolder
    dsimp only
    simp only [hm, hd, hpR]
    rw [if_pos hpf]
    simp only [hcf, hrc]
  rw [hred]
  exact ⟨rfl, Ne.symm (present_ne_fresh s hFr id s.counter le_rfl
    (by rw [hm]; rfl)), (hFr s.counter le_rfl).1, hsh, hfs⟩

theorem freshInv_check (s : Store) (n0 : Nat)
    (hc : s.counter = n0)
    (hkeys : ∀ p ∈ s.objects, p.1 ∈ (List.range n0).map natStr)
    (hpkeys : ∀ p ∈ s.parents, p.1 ∈ (List.range n0).map natStr)
    (hpvals : ∀ p ∈ s.parents,
      p.2 ∈ none :: (List.range n0).map (fun k => some (natStr k))) :
    FreshInv s := by
  intro n hn
  rw [hc] at hn
  refine ⟨?_, ?_, ?_⟩
  · match hg : mget s.objects (natStr n) with
    | none => rfl
    | some v =>
      obtain ⟨k, hk, he⟩ := List.mem_map.mp (hkeys _ (mget_mem _ _ _ hg))
      have hkn := natStr_inj he
      have := List.mem_range.mp hk
      omega
  · match hg : mget s.parents (natStr n) with
    | none => rfl
    | some v =>
      obtain ⟨k, hk, he⟩ := List.mem_map.mp (hpkeys _ (mget_mem _ _ _ hg))
      have hkn := natStr_inj he
      have := List.mem_range.mp hk
      omega
  · intro k2 po hpk hcontra
    have h := hpvals _ (mget_mem _ _ _ hpk)
    rcases List.mem_cons.mp h with h | h
    · dsimp only at h
      rw [hcontra] at h
      exact Option.noConfusion h
    · obtain ⟨k, hk, he⟩ := List.mem_map.mp h
      dsimp only at he
      rw [hcontra] at he
      injection he with he
      have hkn := natStr_inj he
      have := List.mem_range.mp hk
      omega

/-- C3 (modelled from the spec; copyFile/copyFolder are referenced by the
repository's README and tests but absent from the provided sources):
copyFile on an existing source file allocates a fresh id distinct from the
source, stores a new file entry with the source's content (hence size and
kind), with name defaulting to the source's name unless overridden and the
target parent defaulting to the source's current parent, the source entry
left untouched, and returns the new file's record; copyFolder deep-copies
the source subtree under a fresh root id: the copy's name/kind shape — and
so the child count and the child names, transitively at every depth —
equals the source's with only the root renamed by the override, and every
id in the copied subtree is freshly allocated (absent before the call). -/
theorem c3_copy_operations :
    (∀ (s : Store) (id : String) (parentId name : Option String)
      (e : Entry) (c : Option Content) (p : Entry),
      FreshInv s →
      mget s.objects id = some e → e.data = EntryData.file c →
      mget s.objects (if truthyStr parentId = true then parentId.getD ""
        else (mget s.parents id).join.getD "") = some p →
      etypeOf p = EType.folder →
      (copyFile s id parentId name).1 =
        Except.ok (miniOfId (copyFile s id parentId name).2 (natStr s.counter)) ∧
      natStr s.counter ≠ id ∧
      mget s.objects (natStr s.counter) = none ∧
      (∃ e', mget (copyFile s id parentId name).2.objects (natStr s.counter) =
          some e' ∧
        e'.name = (if truthyStr name = true then name.getD "" else e.name) ∧
        e'.data = EntryData.file c) ∧
      mget (copyFile s id parentId name).2.parents (natStr s.counter) =
        some (some (if truthyStr parentId = true then parentId.getD ""
          else (mget s.parents id).join.getD "")) ∧
      mget (copyFile s id parentId name).2.objects id = mget s.objects id) ∧
    (∀ (s : Store) (id : String) (parentId name : Option String)
      (e p : Entry) (es : List (String × EType)),
      Acyclic s → FreshInv s →
      mget s.objects id = some e → e.data = EntryData.folder es →
      wfTree (s.objects.length + 1) s id = true →
      mget s.objects (if truthyStr parentId = true then parentId.getD ""
        else (mget s.parents id).join.getD "") = some p →
      etypeOf p = EType.folder →
      (if truthyStr parentId = true then parentId.getD ""
        else (mget s.parents id).join.getD "") ∉
        subtreeIds (s.objects.length + 1) s id →
      (copyFolder s id parentId name).1 = Except.ok
        (folderRecOfId (copyFolder s id parentId name).2 (natStr s.counter)) ∧
      natStr s.counter ≠ id ∧
      mget s.objects (natStr s.counter) = none ∧
      nameShape (s.objects.length + 1) (copyFolder s id parentId name).2
          (natStr s.counter) =
        (nameShape (s.objects.length + 1) s id).withName
          (if truthyStr name = true then name.getD "" else e.name) ∧
      (∀ x ∈ subtreeIds (s.objects.length + 1) (copyFolder s id parentId name).2
          (natStr s.counter),
        (mget (copyFolder s id parentId name).2.objects x).isSome = true ∧
        mget s.objects x = none)) :=
  ⟨fun s id parentId name e c p hFr hm hd hpR hpf =>
    copyFile_clean s id parentId name e c p hFr hm hd hpR hpf,
   fun s id parentId name e p es hA hFr hm hd hwf hpR hpf hpn =>
    copyFolder_clean s id parentId name e p es hA hFr hm hd hwf hpR hpf hpn⟩

theorem c3_witness :
    ((copyFile c4W "2" none none).1 =
      Except.ok (miniOfId (copyFile c4W "2" none none).2 (natStr c4W.counter)) ∧
     natStr c4W.counter ≠ "2" ∧
     mget c4W.objects (natStr c4W.counter) = none ∧
     (∃ e', mget (copyFile c4W "2" none none).2.objects (natStr c4W.counter) =
         some e' ∧
       e'.name = "f.txt" ∧
       e'.data = EntryData.file none) ∧
     mget (copyFile c4W "2" none none).2.parents (natStr c4W.counter) =
       some (some "1") ∧
     mget (copyFile c4W "2" none none).2.objects "2" = mget c4W.objects "2") ∧
    ((copyFolder c4W "1" none none).1 = Except.ok
      (folderRecOfId (copyFolder c4W "1" none none).2 (natStr c4W.counter)) ∧
     natStr c4W.counter ≠ "1" ∧
     mget c4W.objects (natStr c4W.counter) = none ∧
     nameShape (c4W.objects.length + 1) (copyFolder c4W "1" none none).2
         (natStr c4W.counter) =
       (nameShape (c4W.objects.length + 1) c4W "1").withName "A" ∧
     (∀ x ∈ subtreeIds (c4W.objects.length + 1) (copyFolder c4W "1" none none).2
         (natStr c4W.counter),
       (mget (copyFolder c4W "1" none none).2.objects x).isSome = true ∧
       mget c4W.objects x = none)) := by
  have hFr : FreshInv c4W :=
    freshInv_check c4W 5 (by decide) (by decide) (by decide) (by decide)
  have hA : Acyclic c4W := by
    refine heightAcyclic c4W (fun x => if x = "0" then 0 else if x = "1" then 1
      else if x = "3" then 2 else 3) ?_
    intro a b hs
    have hmm := mget_mem _ _ _ hs
    have hall : ∀ q ∈ c4W.parents, ∀ y, q.2 = some y →
        (if y = "0" then 0 else if y = "1" then 1 else if y = "3" then 2
          else 3) <
        (if q.1 = "0" then 0 else if q.1 = "1" then 1 else if q.1 = "3" then 2
          else 3) := by decide
    exact hall _ hmm b rfl
  constructor
  · exact c3_copy_operations.1 c4W "2" none none
      ⟨"2", "f.txt", 0, 0, EntryData.file none⟩ none
      ⟨"1", "A", 0, 0, EntryData.folder [("2", EType.file), ("3", EType.folder)]⟩
      hFr (by decide) (by decide) (by decide) (by decide)
  · exact c3_copy_operations.2 c4W "1" none none
      ⟨"1", "A", 0, 0, EntryData.folder [("2", EType.file), ("3", EType.folder)]⟩
      ⟨"0", "root", 0, 0, EntryData.folder [("1", EType.folder)]⟩
      [("2", EType.file), ("3", EType.folder)]
      hA hFr (by decide) (by decide) (by decide) (by decide) (by decide)
      (by decide)

theorem mem_keys_of_isSome {α : Type} (m : List (String × α)) (k : String)
    (h : (mget m k).isSome = true) : k ∈ m.map Prod.fst := by
  match hg : mget m k with
  | none =>
    rw [hg] at h
    exact Bool.noConfusion h
  | some v =>
    exact List.mem_map.mpr ⟨(k, v), mget_mem _ _ _ hg, rfl⟩

theorem isSome_of_mem_keys {α : Type} (m : List (String × α)) (k : String)
    (h : k ∈ m.map Prod.fst) : (mget m k).isSome = true := by
  induction m with
  | nil => simp at h
  | cons p rest ih =>
    rcases p with ⟨k1, v1⟩
    by_cases hk : k1 = k
    · simp [mget, hk]
    · simp only [List.map_cons, List.mem_cons] at h
      rcases h with h | h
    
      · exact absurd h.symm hk
      · simp only [mget, if_neg hk]
        exact ih h

theorem keys_mset_absent {α : Type} (m : List (String × α)) (k : String) (v : α)
    (h : mget m k = none) :
    (mset m k v).map Prod.fst = m.map Prod.fst ++ [k] := by
  induction m with
  | nil => rfl
  | cons p rest ih =>
    rcases p with ⟨k1, v1⟩
    simp only [mget] at h
    by_cases hk : k1 = k
    · rw [if_pos hk] at h
      exact Option.noConfusion h
    · rw [if_neg hk] at h
      simp only [mset, if_neg hk, List.map_cons, ih h, List.cons_append]

theorem keys_mset_present {α : Type} (m : List (String × α)) (k : String) (v : α)
    (h : (mget m k).isSome = true) :
    (mset m k v).map Prod.fst = m.map Prod.fst := by
  induction m with
  | nil =>
    simp [mget] at h
  | cons p rest ih =>
    rcases p with ⟨k1, v1⟩
    by_cases hk : k1 = k
    · simp [mset, if_pos hk, hk]
    · simp only [mget, if_neg hk] at h
      simp only [mset, if_neg hk, List.map_cons, ih h]

theorem keys_mdel_mem {α : Type} (m : List (String × α)) (k x : String)
    (h : x ∈ (mdel m k).map Prod.fst) : x ∈ m.map Prod.fst := by
  induction m with
  | nil =>
    simp [mdel] at h
  | cons p rest ih =>
    rcases p with ⟨k1, v1⟩
    by_cases hk : k1 = k
    · simp only [mdel, if_pos hk] at h
      exact List.mem_cons_of_mem _ (ih h)
    · simp only [mdel, if_neg hk, List.map_cons, List.mem_cons] at h
      rcases h with h | h
      · simp [h]
      · exact List.mem_cons_of_mem _ (ih h)

theorem keys_mdel_nodup {α : Type} (m : List (String × α)) (k : String)
    (h : (m.map Prod.fst).Nodup) : ((mdel m k).map Prod.fst).Nodup := by
  induction m with
  | nil => simp [mdel]
  | cons p rest ih =>
    rcases p with ⟨k1, v1⟩
    rw [List.map_cons, List.nodup_cons] at h
    by_cases hk : k1 = k
    · simp only [mdel, if_pos hk]
      exact ih h.2
    · simp only [mdel, if_neg hk, List.map_cons, List.nodup_cons]
      exact ⟨fun hc => h.1 (keys_mdel_mem rest k k1 hc), ih h.2⟩

theorem keys_updEntry (s : Store) (id : String) (f : Entry → Entry) :
    (updEntry s id f).objects.map Prod.fst = s.objects.map Prod.fst := by
  unfold updEntry
  match h : mget s.objects id with
  | none => rfl
  | some e =>
    dsimp only
    exact keys_mset_present _ _ _ (by rw [h]; rfl)

theorem keys_folderAdd (s : Store) (fid eid : String) (ty : EType) :
    (folderAdd s fid eid ty).objects.map Prod.fst = s.objects.map Prod.fst := by
  unfold folderAdd
  dsimp only
  rw [keys_updEntry, keys_updEntry, readClock_objects]

theorem keys_folderRemove (s : Store) (fid eid : String) :
    (folderRemove s fid eid).objects.map Prod.fst = s.objects.map Prod.fst := by
  unfold folderRemove
  dsimp only
  rw [keys_updEntry, keys_updEntry, readClock_objects]

theorem folderAdd_allocated (s : Store) (fid eid : String) (ty : EType) :
    (folderAdd s fid eid ty).allocated = s.allocated := by
  unfold folderAdd
  dsimp only
  rw [updEntry_allocated, updEntry_allocated, readClock_allocated]

theorem folderRemove_allocated (s : Store) (fid eid : String) :
    (folderRemove s fid eid).allocated = s.allocated := by
  unfold folderRemove
  dsimp only
  rw [updEntry_allocated, updEntry_allocated, readClock_allocated]

theorem folderRemove_counter (s : Store) (fid eid : String) :
    (folderRemove s fid eid).counter = s.counter := by
  unfold folderRemove
  dsimp only
  rw [updEntry_counter, updEntry_counter, readClock_counter]

theorem register_allocated (s : Store) (e : Entry) (p : Option String) :
    (register s e p).allocated = s.allocated := by
  unfold register
  match p with
  | some pid =>
    dsimp only
    rw [folderAdd_allocated]
  | none => rfl

theorem updEntry_isSome_back (s : Store) (id : String) (f : Entry → Entry)
    (x : String) (h : (mget (updEntry s id f).objects x).isSome = true) :
    (mget s.objects x).isSome = true := by
  rw [mget_updEntry_objects] at h
  by_cases hx : x = id
  · rw [if_pos hx] at h
    rw [hx]
    match hg : mget s.objects id with
    | none =>
      rw [hg] at h
      exact Bool.noConfusion h
    | some e => rfl
  · rw [if_neg hx] at h
    exact h

theorem folderRemove_isSome_back (s : Store) (fid eid x : String)
    (h : (mget (folderRemove s fid eid).objects x).isSome = true) :
    (mget s.objects x).isSome = true := by
  unfold folderRemove at h
  dsimp only at h
  have h1 := updEntry_isSome_back _ _ _ _ h
  have h2 := updEntry_isSome_back _ _ _ _ h1
  rw [readClock_objects] at h2
  exact h2

/-- The id-allocation invariant: the ghost allocation history is
duplicate-free, every allocated id is below the counter's reach (so future
automatic ids are fresh), every registered key was allocated, and the
object map's key list is duplicate-free (each id maps to at most one
entry). -/
def IdInv (s : Store) : Prop :=
  s.allocated.Nodup ∧
  (∀ a ∈ s.allocated, ∀ n, s.counter ≤ n → a ≠ natStr n) ∧
  (∀ k, (mget s.objects k).isSome = true → k ∈ s.allocated) ∧
  (s.objects.map Prod.fst).Nodup

theorem newEntry_allocated (s : Store) (nm : String) (d : EntryData) :
    (newEntry s nm d none).2.allocated = s.allocated ++ [natStr s.counter] := by
  unfold newEntry readClock
  match hts : s.ticks with
  | [] => rfl
  | t0 :: ts =>
    match ts with
    | [] => rfl
    | t1 :: ts2 => rfl

theorem idInv_spawn (s : Store) (nm : String) (d : EntryData) (pid : String)
    (hI : IdInv s) :
    IdInv (register (newEntry s nm d none).2 (newEntry s nm d none).1
      (some pid)) := by
  obtain ⟨hnd, hfresh, hsub, hknd⟩ := hI
  obtain ⟨hid, _, _, _, _, _, hobj1, hpar1, hcnt1, _⟩ := newEntry_spec s nm d
  have habs : mget s.objects (natStr s.counter) = none := by
    match hg : mget s.objects (natStr s.counter) with
    | none => rfl
    | some v =>
      have hmem := hsub _ (by rw [hg]; rfl)
      exact absurd rfl (hfresh _ hmem s.counter le_rfl)
  have halloc : (register (newEntry s nm d none).2 (newEntry s nm d none).1
      (some pid)).allocated = s.allocated ++ [natStr s.counter] := by
    rw [register_allocated, newEntry_allocated]
  have hcounter : (register (newEntry s nm d none).2 (newEntry s nm d none).1
      (some pid)).counter = s.counter + 1 := by
    rw [register_counter, hcnt1]
  have hkeys : (register (newEntry s nm d none).2 (newEntry s nm d none).1
      (some pid)).objects.map Prod.fst =
      s.objects.map Prod.fst ++ [natStr s.counter] := by
    unfold register
    dsimp only
    rw [keys_folderAdd]
    dsimp only
    rw [hid]
    rw [keys_mset_absent _ _ _ (by rw [hobj1]; exact habs), hobj1]
  have hnotal : natStr s.counter ∉ s.allocated := by
    intro hc
    exact hfresh _ hc s.counter le_rfl rfl
  refine ⟨?_, ?_, ?_, ?_⟩
  · rw [halloc]
    rw [List.nodup_append]
    refine ⟨hnd, List.nodup_singleton _, ?_⟩
    intro a ha hb
    have : a = natStr s.counter := by simpa using hb
    rw [this] at ha
    exact hnotal ha
  · intro a ha n hn
    rw [halloc] at ha
    rw [hcounter] at hn
    rcases List.mem_append.mp ha with ha | ha
    · exact hfresh a ha n (by omega)
    · have hae : a = natStr s.counter := by simpa using ha
      rw [hae]
      intro h
      have := natStr_inj h
      omega
  · intro k hk
    rw [halloc]
    have hk2 := mem_keys_of_isSome _ _ hk
    rw [hkeys] at hk2
    rcases List.mem_append.mp hk2 with hk2 | hk2
    · exact List.mem_append.mpr (Or.inl (hsub k (isSome_of_mem_keys _ _ hk2)))
    · exact List.mem_append.mpr (Or.inr hk2)
  · rw [hkeys]
    rw [List.nodup_append]
    refine ⟨hknd, List.nodup_singleton _, ?_⟩
    intro a ha hb
    have hae : a = natStr s.counter := by simpa using hb
    rw [hae] at ha
    have := isSome_of_mem_keys _ _ ha
    rw [habs] at this
    exact Bool.noConfusion this

/-- Backward simulation of the delete-side primitives: allocation history
and counter unchanged, registered keys only shrink, key-list nodup
preserved. -/
def ShrinkInv (s s' : Store) : Prop :=
  s'.allocated = s.allocated ∧ s'.counter = s.counter ∧
  (∀ x, (mget s'.objects x).isSome = true → (mget s.objects x).isSome = true) ∧
  ((s.objects.map Prod.fst).Nodup → (s'.objects.map Prod.fst).Nodup)

theorem shrink_refl (s : Store) : ShrinkInv s s :=
  ⟨rfl, rfl, fun _ h => h, fun h => h⟩

theorem shrink_trans (s1 s2 s3 : Store) (h1 : ShrinkInv s1 s2)
    (h2 : ShrinkInv s2 s3) : ShrinkInv s1 s3 :=
  ⟨h2.1.trans h1.1, h2.2.1.trans h1.2.1,
    fun x h => h1.2.2.1 x (h2.2.2.1 x h),
    fun h => h2.2.2.2 (h1.2.2.2 h)⟩

theorem idInv_of_shrink (s s' : Store) (h : ShrinkInv s s') (hI : IdInv s) :
    IdInv s' := by
  obtain ⟨ha, hc, hp, hn⟩ := h
  obtain ⟨h1, h2, h3, h4⟩ := hI
  refine ⟨?_, ?_, ?_, ?_⟩
  · rw [ha]
    exact h1
  · rw [ha, hc]
    exact h2
  · intro k hk
    rw [ha]
    exact h3 k (hp k hk)
  · exact hn h4

theorem mdel_isSome_back {α : Type} (m : List (String × α)) (k x : String)
    (h : (mget (mdel m k) x).isSome = true) : (mget m x).isSome = true := by
  by_cases hx : x = k
  · rw [hx, mget_mdel_self] at h
    exact Bool.noConfusion h
  · rw [mget_mdel_ne _ _ _ hx] at h
    exact h

theorem shrink_unregister (s : Store) (id : String) :
    ShrinkInv s (unregister s id).2 := by
  unfold unregister
  dsimp only
  match hp : mget s.parents id with
  | some (some pid) =>
    dsimp only
    refine ⟨?_, ?_, ?_, ?_⟩
    · rw [folderRemove_allocated]
    · rw [folderRemove_counter]
    · intro x hx
      have h1 := folderRemove_isSome_back _ _ _ _ hx
      dsimp only at h1
      exact mdel_isSome_back _ _ _ h1
    · intro h
      rw [keys_folderRemove]
      dsimp only
      exact keys_mdel_nodup _ _ h
  | some none =>
    dsimp only
    exact ⟨rfl, rfl, fun x hx => mdel_isSome_back _ _ _ hx,
      fun h => keys_mdel_nodup _ _ h⟩
  | none =>
    dsimp only
    exact ⟨rfl, rfl, fun x hx => mdel_isSome_back _ _ _ hx,
      fun h => keys_mdel_nodup _ _ h⟩

theorem shrink_deleteFile (s : Store) (id : String) :
    ShrinkInv s (deleteFile s id).2 := by
  unfold deleteFile
  match hm : mget s.objects id with
  | none => exact shrink_refl s
  | some e =>
    dsimp only
    by_cases hty : etypeOf e = EType.file
    · rw [if_pos hty]
      exact shrink_unregister s id
    · rw [if_neg hty]
      exact shrink_refl s

theorem shrink_delLoop (fuel : Nat)
    (hF : ∀ s c, ShrinkInv s (deleteFolderFuel fuel s c).2) :
    ∀ (es : List (String × EType)) (s : Store),
    ShrinkInv s (delLoop (deleteFolderFuel fuel) s es).2 := by
  intro es
  induction es with
  | nil =>
    intro s
    exact shrink_refl s
  | cons c rest ih =>
    intro s
    have hstep : ShrinkInv s (delStep (deleteFolderFuel fuel) s c).2 := by
      unfold delStep
      match c.2 with
      | .folder => exact hF s c.1
      | .file => exact shrink_deleteFile s c.1
    rcases hds : delStep (deleteFolderFuel fuel) s c with ⟨r1, s1⟩
    rw [hds] at hstep
    match r1 with
    | .ok u =>
      have hred : delLoop (deleteFolderFuel fuel) s (c :: rest) =
          delLoop (deleteFolderFuel fuel) s1 rest := by
        simp only [delLoop]
        rw [hds]
      rw [hred]
      exact shrink_trans _ _ _ hstep (ih s1)
    | .error err =>
      have hred : delLoop (deleteFolderFuel fuel) s (c :: rest) = (.error err, s1) := by
        simp only [delLoop]
        rw [hds]
      rw [hred]
      exact hstep

theorem shrink_deleteFolderFuel (fuel : Nat) :
    ∀ (s : Store) (id : String), ShrinkInv s (deleteFolderFuel fuel s id).2 := by
  induction fuel with
  | zero =>
    intro s id
    exact shrink_refl s
  | succ n ih =>
    intro s id
    match hm : mget s.objects id with
    | none =>
      have hred : (deleteFolderFuel (n + 1) s id).2 = s := by
        unfold deleteFolderFuel
        simp only [hm]
      rw [hred]
      exact shrink_refl s
    | some e =>
      match hd : e.data with
      | .file c =>
        have hred : (deleteFolderFuel (n + 1) s id).2 = s := by
          unfold deleteFolderFuel
          simp only [hm, hd]
        rw [hred]
        exact shrink_refl s
      | .folder es =>
        have hloop := shrink_delLoop n ih es s
        rcases hlr : delLoop (deleteFolderFuel n) s es with ⟨rl, sl⟩
        rw [hlr] at hloop
        match rl with
        | .ok u =>
          have hred : (deleteFolderFuel (n + 1) s id).2 = (unregister sl id).2 := by
            unfold deleteFolderFuel
            simp only [hm, hd, hlr]
          rw [hred]
          exact shrink_trans _ _ _ hloop (shrink_unregister sl id)
        | .error err =>
          have hred : (deleteFolderFuel (n + 1) s id).2 = sl := by
            unfold deleteFolderFuel
            simp only [hm, hd, hlr]
          rw [hred]
          exact hloop

theorem newEntry_any (s : Store) (nm : String) (d : EntryData)
    (io : Option String) :
    (newEntry s nm d io).2.allocated = s.allocated ++ [(newEntry s nm d io).1.id] ∧
    (newEntry s nm d io).2.objects = s.objects ∧
    (newEntry s nm d io).2.counter = s.counter + 1 ∧
    ((newEntry s nm d io).1.id = natStr s.counter ∨
      ∃ r, io = some r ∧ r ≠ "" ∧ (newEntry s nm d io).1.id = r) := by
  have hidc : (newEntry s nm d io).1.id = natStr s.counter ∨
      ∃ r, io = some r ∧ r ≠ "" ∧ (newEntry s nm d io).1.id = r := by
    unfold newEntry readClock
    match hts : s.ticks with
    | [] =>
      dsimp only
      match io with
      | none => exact Or.inl rfl
      | some r =>
        by_cases hr : (r != "") = true
        · right
          refine ⟨r, rfl, by simpa using hr, ?_⟩
          dsimp only
          rw [if_pos hr]
        · left
          dsimp only
          rw [if_neg hr]
    | t0 :: ts =>
      match ts with
      | [] =>
        dsimp only
        match io with
        | none => exact Or.inl rfl
        | some r =>
          by_cases hr : (r != "") = true
          · right
            refine ⟨r, rfl, by simpa using hr, ?_⟩
            dsimp only
            rw [if_pos hr]
          · left
            dsimp only
            rw [if_neg hr]
      | t1 :: ts2 =>
        dsimp only
        match io with
        | none => exact Or.inl rfl
        | some r =>
          by_cases hr : (r != "") = true
          · right
            refine ⟨r, rfl, by simpa using hr, ?_⟩
            dsimp only
            rw [if_pos hr]
          · left
            dsimp only
            rw [if_neg hr]
  refine ⟨?_, ?_, ?_, hidc⟩
  · unfold newEntry readClock
    match hts : s.ticks with
    | [] => rfl
    | t0 :: ts =>
      match ts with
      | [] => rfl
      | t1 :: ts2 => rfl
  · unfold newEntry readClock
    match hts : s.ticks with
    | [] => rfl
    | t0 :: ts =>
      match ts with
      | [] => rfl
      | t1 :: ts2 => rfl
  · unfold newEntry readClock
    match hts : s.ticks with
    | [] => rfl
    | t0 :: ts =>
      match ts with
      | [] => rfl
      | t1 :: ts2 => rfl

theorem idInv_new (rid : Option String) (ticks : List Nat)
    (hsafe : ∀ r, rid = some r → ∀ n, 1 ≤ n → r ≠ natStr n) :
    IdInv (ObjectStore.new rid ticks) := by
  rcases hne : newEntry { rootId := "", objects := [], parents := [], counter := 0, clock := 0, ticks := ticks, allocated := [] } "root" (.folder []) rid with ⟨root, sn⟩
  obtain ⟨hal, hob, hcnt, hidc⟩ := newEntry_any { rootId := "", objects := [], parents := [], counter := 0, clock := 0, ticks := ticks, allocated := [] } "root" (.folder []) rid
  rw [hne] at hal hob hcnt hidc
  dsimp only at hal hob hcnt hidc
  have hred : ObjectStore.new rid ticks =
      { register sn root none with rootId := root.id } := by
    unfold ObjectStore.new
    dsimp only
    simp only [hne]
  rw [hred]
  have hA' : ({ register sn root none with rootId := root.id } : Store).allocated
      = (register sn root none).allocated := rfl
  have hO' : ({ register sn root none with rootId := root.id } : Store).objects
      = (register sn root none).objects := rfl
  have hC' : ({ register sn root none with rootId := root.id } : Store).counter
      = (register sn root none).counter := rfl
  have hregO : (register sn root none).objects = mset sn.objects root.id root := by
    unfold register
    rfl
  have hregA : (register sn root none).allocated = sn.allocated :=
    register_allocated sn root none
  have hregC : (register sn root none).counter = sn.counter :=
    register_counter sn root none
  have halloc2 : (register sn root none).allocated = [root.id] := by
    rw [hregA, hal, List.nil_append]
  have hkeys2 : (register sn root none).objects.map Prod.fst = [root.id] := by
    rw [hregO, hob]
    rfl
  have hidsafe : ∀ n, 1 ≤ n → root.id ≠ natStr n := by
    rcases hidc with h | ⟨r, hio, hrne, h⟩
    · rw [h]
      intro n hn he
      have := natStr_inj he
      omega
    · rw [h]
      exact fun n hn => hsafe r hio n hn
  refine ⟨?_, ?_, ?_, ?_⟩
  · rw [hA', halloc2]
    exact List.nodup_singleton _
  · intro a ha n hn
    rw [hA', halloc2] at ha
    rw [hC', hregC, hcnt] at hn
    have hae : a = root.id := by simpa using ha
    rw [hae]
    exact hidsafe n hn
  · intro k hk
    rw [hA', halloc2]
    rw [show ({ register sn root none with rootId := root.id } : Store).objects
      = (register sn root none).objects from rfl] at hk
    have := mem_keys_of_isSome _ _ hk
    rw [hkeys2] at this
    simpa using this
  · rw [hO', hkeys2]
    exact List.nodup_singleton _

theorem idInv_createFile (s : Store) (nm : String) (pid : Option String)
    (ct : Option Content) (hI : IdInv s) : IdInv (createFile s nm pid ct).2 := by
  match hm : mget s.objects (pid.getD s.rootId) with
  | none =>
    have hred : (createFile s nm pid ct).2 = s := by
      unfold createFile
      dsimp only
      simp only [hm]
    rw [hred]
    exact hI
  | some p =>
    by_cases hp : etypeOf p = .folder
    · have hred : (createFile s nm pid ct).2
          = register (newEntry s nm (.file ct) none).2
              (newEntry s nm (.file ct) none).1 (some (pid.getD s.rootId)) := by
        unfold createFile
        dsimp only
        simp only [hm, if_pos hp]
      rw [hred]
      exact idInv_spawn s nm (.file ct) _ hI
    · have hred : (createFile s nm pid ct).2 = s := by
        unfold createFile
        dsimp only
        simp only [hm, if_neg hp]
      rw [hred]
      exact hI

theorem idInv_createFolder (s : Store) (nm : String) (pid : Option String)
    (hI : IdInv s) : IdInv (createFolder s nm pid).2 := by
  match hm : mget s.objects (pid.getD s.rootId) with
  | none =>
    have hred : (createFolder s nm pid).2 = s := by
      unfold createFolder
      dsimp only
      simp only [hm]
    rw [hred]
    exact hI
  | some p =>
    by_cases hp : etypeOf p = .folder
    · have hred : (createFolder s nm pid).2
          = register (newEntry s nm (.folder []) none).2
              (newEntry s nm (.folder []) none).1 (some (pid.getD s.rootId)) := by
        unfold createFolder
        dsimp only
        simp only [hm, if_pos hp]
      rw [hred]
      exact idInv_spawn s nm (.folder []) _ hI
    · have hred : (createFolder s nm pid).2 = s := by
        unfold createFolder
        dsimp only
        simp only [hm, if_neg hp]
      rw [hred]
      exact hI

/-- The create/delete sub-language of the public operations named by the
claim. -/
def CDOnly : Op → Prop
  | .createFile _ _ _ => True
  | .createFolder _ _ => True
  | .deleteFile _ => True
  | .deleteFolder _ => True
  | _ => False

theorem idInv_execOp_cd (s : Store) (o : Op) (hcd : CDOnly o) (hI : IdInv s) :
    IdInv (execOp s o) := by
  match o with
  | .createFile nm pid ct => exact idInv_createFile s nm pid ct hI
  | .createFolder nm pid => exact idInv_createFolder s nm pid hI
  | .deleteFile id => exact idInv_of_shrink s _ (shrink_deleteFile s id) hI
  | .deleteFolder id =>
    exact idInv_of_shrink s _ (shrink_deleteFolderFuel _ s id) hI
  | .getFile id => exact absurd hcd (by simp [CDOnly])
  | .getFolder id => exact absurd hcd (by simp [CDOnly])
  | .getFileContent id => exact absurd hcd (by simp [CDOnly])
  | .updateFile id nm ct pid => exact absurd hcd (by simp [CDOnly])
  | .updateFolder id nm pid => exact absurd hcd (by simp [CDOnly])
  | .copyFile id pid nm => exact absurd hcd (by simp [CDOnly])
  | .copyFolder id pid nm => exact absurd hcd (by simp [CDOnly])

theorem idInv_execOps (ops : List Op) : ∀ (s : Store),
    (∀ o ∈ ops, CDOnly o) → IdInv s → IdInv (execOps s ops) := by
  induction ops with
  | nil =>
    intro s hcd hI
    exact hI
  | cons o rest ih =>
    intro s hcd hI
    exact ih (execOp s o) (fun o2 h2 => hcd o2 (List.mem_cons_of_mem o h2))
      (idInv_execOp_cd s o (hcd o (List.mem_cons_self _ _)) hI)

/-- C6: over every sequence of create/delete operations, provided the
caller-supplied root folder id is not a positive decimal numeral (so that
it cannot collide with the generated ids "1", "2", ...), the allocation
history stays duplicate-free — no id is ever reused within the store's
lifetime — every registered key was allocated, and the object map's key
list is duplicate-free, so every id maps to at most one entry. Without
that proviso the claim fails (see the counterexample). -/
theorem c6_ids_unique (rid : Option String) (ticks : List Nat) (ops : List Op)
    (hsafe : ∀ r, rid = some r → ∀ n, 1 ≤ n → r ≠ natStr n)
    (hcd : ∀ o ∈ ops, CDOnly o) :
    (execOps (ObjectStore.new rid ticks) ops).allocated.Nodup ∧
    (∀ k, (mget (execOps (ObjectStore.new rid ticks) ops).objects k).isSome =
        true →
      k ∈ (execOps (ObjectStore.new rid ticks) ops).allocated) ∧
    ((execOps (ObjectStore.new rid ticks) ops).objects.map Prod.fst).Nodup := by
  have h := idInv_execOps ops (ObjectStore.new rid ticks) hcd
    (idInv_new rid ticks hsafe)
  exact ⟨h.1, h.2.2.1, h.2.2.2⟩

/-- C6 counterexample: constructing the store with root folder id "1" and
creating a single file reuses the id "1" — it is allocated a second time
and the new file entry silently replaces the root folder entry. -/
theorem c6_counterexample :
    (createFile (ObjectStore.new (some "1") []) "a.txt" none none).2.allocated =
      ["1", "1"] ∧
    ¬ (createFile (ObjectStore.new (some "1") [])
        "a.txt" none none).2.allocated.Nodup ∧
    (∃ e, mget (ObjectStore.new (some "1") []).objects "1" = some e ∧
      etypeOf e = EType.folder) ∧
    (∃ e, mget (createFile (ObjectStore.new (some "1") [])
        "a.txt" none none).2.objects "1" = some e ∧ etypeOf e = EType.file) := by
  refine ⟨by decide, by decide, ?_, ?_⟩
  · exact ⟨⟨"1", "root", 0, 0, .folder []⟩, by decide, by decide⟩
  · exact ⟨⟨"1", "a.txt", 0, 0, .file none⟩, by decide, by decide⟩

theorem c6_witness :
    (execOps (ObjectStore.new (some "0") [])
      [Op.createFile "a.txt" none none, Op.createFolder "B" none,
       Op.deleteFile "1"]).allocated.Nodup ∧
    (∀ k, (mget (execOps (ObjectStore.new (some "0") [])
        [Op.createFile "a.txt" none none, Op.createFolder "B" none,
         Op.deleteFile "1"]).objects k).isSome = true →
      k ∈ (execOps (ObjectStore.new (some "0") [])
        [Op.createFile "a.txt" none none, Op.createFolder "B" none,
         Op.deleteFile "1"]).allocated) ∧
    ((execOps (ObjectStore.new (some "0") [])
      [Op.createFile "a.txt" none none, Op.createFolder "B" none,
       Op.deleteFile "1"]).objects.map Prod.fst).Nodup :=
  c6_ids_unique (some "0") [] [Op.createFile "a.txt" none none,
    Op.createFolder "B" none, Op.deleteFile "1"]
    (fun r hr n hn he => by
      injection hr with hr
      rw [← hr] at he
      have h0 : natStr 0 = "0" := by decide
      rw [← h0] at he
      have := natStr_inj he
      omega)
    (fun o ho => by
      rcases List.mem_cons.mp ho with h | h
      · rw [h]
        trivial
      · rcases List.mem_cons.mp h with h2 | h2
        · rw [h2]
          trivial
        · rcases List.mem_cons.mp h2 with h3 | h3
          · rw [h3]
            trivial
          · exact absurd h3 (List.not_mem_nil o))
